import Mathlib

/-!
Verification of the seroval two-phase serializer against its specification.

The development shallowly embeds the code of the repository:

* `core/serializer-context.ts` (`BaseSerializerContext`) — the serializer base
  class — as state-passing functions over `SState`, with the two abstract
  subclass hooks (`getRefParam`, `assignIndexedValue`) as parameters;
* the synchronous parser (`src/unnamed/part_000`, `parseSync`/`parseObject`),
  the asynchronous tree parser (`core/tree/async.ts`) and the cross parser
  (`core/cross/async.ts`) over a small heap-based value universe
  (primitives, arrays with holes, plain objects, Maps, Sets) that is enough
  to exercise the claims;
* the streaming driver (`core/Serializer.ts`) as a labelled transition system.

Recursive methods are embedded with an explicit fuel argument; running out of
fuel returns a neutral result (serializer) or a dedicated error (parser), so
every definition is executable.  Definitions whose source file is not under
`src/` are modelled from the spec and say so in their doc comment.
-/

set_option autoImplicit false

namespace Seroval

/-! ## Feature matrix

`core/compat.ts` is not under `src/`.  Modelled from the spec, §4.1: a bitset
of permitted idioms; each bit is one Boolean field here.  `features & Feature.X`
in the source corresponds to the field `x`. -/

/-- Modelled from the spec: §4.1 feature matrix bitset (core/compat.ts is absent
from src/); one Boolean per feature bit. -/
structure Features where
  aggregateError : Bool
  arrayPrototypeValues : Bool
  arrowFunction : Bool
  bigInt : Bool
  bigIntTypedArray : Bool
  errorPrototypeStack : Bool
  map : Bool
  methodShorthand : Bool
  objectAssign : Bool
  promise : Bool
  set : Bool
  symbol : Bool
  typedArray : Bool
  webAPI : Bool
deriving Repr, DecidableEq

/-- All features enabled (`ALL_ENABLED & ~0`). -/
def allFeatures : Features :=
  ⟨true, true, true, true, true, true, true, true, true, true, true, true, true, true⟩

/-! ## Node IR constants

`core/constants.ts` is not under `src/`. -/

/-- The primitive-constant tags (`SerovalConstant` in core/constants.ts, absent
from src/).  Modelled from the spec, §3: `true`, `false`, `undefined`, `null`,
`-0`, positive and negative infinity, `NaN`. -/
inductive SerovalConstant where
  | cnull
  | cundefined
  | ctrue
  | cfalse
  | negZero
  | infinity
  | negInfinity
  | nan
deriving Repr, DecidableEq

/-- Modelled from the spec: the literal emission forms of the constants
(`CONSTANT_STRING` in core/constants.ts, absent from src/).  §3 "emitted as
literal forms" and §8 pins the Infinity strategy: `serialize(1/0) === "1/0"`;
`-1/0` is the corresponding negative form, `void 0` the source-safe
`undefined`. -/
def CONSTANT_STRING : SerovalConstant → String
  | .cnull => "null"
  | .cundefined => "void 0"
  | .ctrue => "true"
  | .cfalse => "false"
  | .negZero => "-0"
  | .infinity => "1/0"
  | .negInfinity => "-1/0"
  | .nan => "NaN"

/-- Object integrity flags (`SerovalObjectFlags` in core/constants.ts, absent
from src/).  Modelled from the spec, §3: `{None, Sealed, Frozen,
NonExtensible}`. -/
inductive SerovalObjectFlags where
  | none
  | sealed
  | frozen
  | nonExtensible
deriving Repr, DecidableEq

/-- Error constructor tags (index into `ERROR_CONSTRUCTOR_STRING` in
core/constants.ts, absent from src/).  Modelled from the spec, §4.4 dispatch
step 3 / §4.5.6. -/
inductive ErrorCtor where
  | error
  | evalError
  | rangeError
  | referenceError
  | syntaxError
  | typeError
  | uriError
deriving Repr, DecidableEq

/-- Modelled from the spec, §4.5.6: the "small enumerated table" of error
constructor names (`ERROR_CONSTRUCTOR_STRING`, core/constants.ts absent from
src/). -/
def ERROR_CONSTRUCTOR_STRING : ErrorCtor → String
  | .error => "Error"
  | .evalError => "EvalError"
  | .rangeError => "RangeError"
  | .referenceError => "ReferenceError"
  | .syntaxError => "SyntaxError"
  | .typeError => "TypeError"
  | .uriError => "URIError"

/-- Well-known symbol tags (`SerovalSymbol`, core/constants.ts absent from
src/).  Modelled from the spec, §3 "WellKnownSymbol (enumerated identifier)";
three representatives suffice for the claims. -/
inductive WKSymbol where
  | symIterator
  | symAsyncIterator
  | symHasInstance
deriving Repr, DecidableEq

/-- Modelled from the spec: the emission table for well-known symbols
(`SYMBOL_STRING`, core/constants.ts absent from src/). -/
def SYMBOL_STRING : WKSymbol → String
  | .symIterator => "Symbol.iterator"
  | .symAsyncIterator => "Symbol.asyncIterator"
  | .symHasInstance => "Symbol.hasInstance"

/-! ## Node IR

The tagged union of `core/types.ts` (`SerovalNode`).  Record payloads
(`SerovalObjectRecordNode` `{k, v, s}` and the map record `{k, v, s}`) are
flattened into parallel constructor fields.  The older sync parser stores its
record in field `d`; the serializer reads `p`/`e` — both are the same record
and map to the same fields here.  The `TypedArray` and `BigIntTypedArray`
tags share one serializer branch and are represented by one constructor.
The `Plugin` tag and the streaming-only tags (`PromiseConstructor`, …) are
abstract or plugin-defined in `BaseSerializerContext` (their implementations
are not under src/) and are not part of this universe. -/

/-- Object-record key: an escaped string key or the `SymbolIterator`
sentinel (`SerovalObjectRecordSpecialKey`). -/
inductive RecordKey where
  | str (s : String)
  | symbolIterator
deriving Repr, DecidableEq

/-- The node IR (`SerovalNode`, core/types.ts). -/
inductive Node where
  | constant (s : SerovalConstant)
  | num (s : Int)
  | str (s : String)
  | bigint (s : Int)
  | indexedValue (i : Nat)
  | reference (i : Nat) (s : String)
  | array (i : Nat) (l : Nat) (a : List (Option Node)) (o : SerovalObjectFlags)
  | object (i : Nat) (pk : List RecordKey) (pv : List Node) (ps : Nat)
      (o : SerovalObjectFlags)
  | nullConstructor (i : Nat) (pk : List RecordKey) (pv : List Node) (ps : Nat)
      (o : SerovalObjectFlags)
  | date (i : Nat) (s : String)
  | regexp (i : Nat) (c : String) (m : String)
  | setNode (i : Nat) (l : Nat) (a : List Node)
  | mapNode (i : Nat) (ek : List Node) (ev : List Node) (es : Nat)
  | arrayBuffer (i : Nat) (s : List Nat)
  | typedArray (i : Nat) (c : String) (f : Node) (b : Nat) (l : Nat)
  | dataView (i : Nat) (f : Node) (b : Nat) (l : Nat)
  | aggregateError (i : Nat) (m : String)
      (p : Option (List RecordKey × List Node × Nat))
  | error (i : Nat) (s : ErrorCtor) (m : String)
      (p : Option (List RecordKey × List Node × Nat))
  | promise (i : Nat) (s : Bool) (f : Node)
  | wkSymbol (i : Nat) (s : WKSymbol)
  | url (i : Nat) (s : String)
  | urlSearchParams (i : Nat) (s : String)
  | blob (i : Nat) (c : String) (f : Node)
  | file (i : Nat) (c : String) (m : String) (b : Nat) (f : Node)
  | headers (i : Nat) (ek : List String) (ev : List Node) (es : Nat)
  | formData (i : Nat) (ek : List String) (ev : List Node) (es : Nat)
  | boxed (i : Nat) (f : Node)
  | request (i : Nat) (s : String) (f : Node)
  | response (i : Nat) (f0 : Node) (f1 : Node)
  | event (i : Nat) (s : String) (f : Node)
  | customEvent (i : Nat) (s : String) (f : Node)
  | domException (i : Nat) (s : String) (c : String)
deriving Repr

/-- `node.i` as the optional id field: the tags whose nodes carry no id
(`Constant`, `Number`, `String`, `BigInt`) yield `none`. -/
def nodeId : Node → Option Nat
  | .constant _ => none
  | .num _ => none
  | .str _ => none
  | .bigint _ => none
  | .indexedValue i => some i
  | .reference i _ => some i
  | .array i _ _ _ => some i
  | .object i _ _ _ _ => some i
  | .nullConstructor i _ _ _ _ => some i
  | .date i _ => some i
  | .regexp i _ _ => some i
  | .setNode i _ _ => some i
  | .mapNode i _ _ _ => some i
  | .arrayBuffer i _ => some i
  | .typedArray i _ _ _ _ => some i
  | .dataView i _ _ _ => some i
  | .aggregateError i _ _ => some i
  | .error i _ _ _ => some i
  | .promise i _ _ => some i
  | .wkSymbol i _ => some i
  | .url i _ => some i
  | .urlSearchParams i _ => some i
  | .blob i _ _ => some i
  | .file i _ _ _ _ => some i
  | .headers i _ _ _ => some i
  | .formData i _ _ _ => some i
  | .boxed i _ => some i
  | .request i _ _ => some i
  | .response i _ _ => some i
  | .event i _ _ => some i
  | .customEvent i _ _ => some i
  | .domException i _ _ => some i

/-- `node.t === SerovalNodeType.IndexedValue`. -/
def isIndexedValueNode : Node → Bool
  | .indexedValue _ => true
  | _ => false

/-! ## Serializer base class (core/serializer-context.ts, in src/)

`BaseSerializerContext` is embedded as state-passing functions over `SState`.
JS array `push` appends at the end of the corresponding list; `pop` drops the
last element.  The two abstract methods are the `SubFns` parameters. -/

/-- `Assignment.t` (core/assignments.ts, absent from src/): the three
assignment kinds pushed by the base class (`index`, `add`, `set`). -/
inductive AssignmentType where
  | index
  | add
  | set
deriving Repr, DecidableEq

/-- An assignment record `{t, s, k, v}` as pushed onto `this.assignments`. -/
structure Assignment where
  t : AssignmentType
  s : String
  k : Option String
  v : String
deriving Repr, DecidableEq

/-- A `FlaggedObject` record `{type, value}` from `this.flags`. -/
structure FlaggedObject where
  type : SerovalObjectFlags
  value : String
deriving Repr, DecidableEq

/-- The mutable fields of `BaseSerializerContext`: `features`, `stack`,
`flags`, `assignments`, `marked`, `deferred`. -/
structure SState where
  features : Features
  stack : List Nat
  flags : List FlaggedObject
  assignments : List Assignment
  marked : List Nat
  deferred : List (Nat × String)
deriving Repr, DecidableEq

/-- The serializer context built by the constructor from
`{features, markedRefs}`. -/
def initSState (fx : Features) (markedRefs : List Nat) : SState :=
  ⟨fx, [], [], [], markedRefs, []⟩

/-- The two abstract methods of `BaseSerializerContext`.  `getRefParam`
(§4.5.1) names an id; `assignIndexedValue` (§4.5.2) wraps a definition and may
read the marked set.  Their subclass implementations are not under src/; the
base-class logic is parameterized over them and neither touches the rest of
the state. -/
structure SubFns where
  getRefParam : Nat → String
  assignIndexedValue : SState → Nat → String → String

/-- Modelled from the spec, §4.5.1–§4.5.2: the self-contained subclass hooks
(core/tree/index.ts absent from src/).  `getRefParam` yields a stable short
identifier per id (the spec's base-54 alphabet is immaterial to the claims;
`v0`, `v1`, … keeps names injective) and `assignIndexedValue` yields
`name=expr` for a marked id, the bare `expr` otherwise. -/
def vanillaFns : SubFns where
  getRefParam := fun id => "v" ++ toString id
  assignIndexedValue := fun st id value =>
    if st.marked.contains id then ("v" ++ toString id) ++ "=" ++ value else value

/-- `this.markRef(id)`: `this.marked.add(id)`. -/
def markRefE (st : SState) (id : Nat) : SState :=
  { st with marked := st.marked.insert id }

/-- `this.isMarked(id)`: `this.marked.has(id)`. -/
def isMarkedE (st : SState) (id : Nat) : Bool :=
  st.marked.contains id

/-- `this.stack.push(id)`. -/
def pushStackE (st : SState) (id : Nat) : SState :=
  { st with stack := st.stack ++ [id] }

/-- `this.stack.pop()`. -/
def popStackE (st : SState) : SState :=
  { st with stack := st.stack.dropLast }

/-- `this.defer(id, value)`: `this.deferred.set(id, value)`. -/
def deferE (st : SState) (id : Nat) (value : String) : SState :=
  { st with deferred := deferredSet st.deferred id value }
where
  deferredSet : List (Nat × String) → Nat → String → List (Nat × String)
    | [], id, value => [(id, value)]
    | (k, w) :: rest, id, value =>
      if k = id then (k, value) :: rest else (k, w) :: deferredSet rest id value

/-- `this.deferred.delete(id)`. -/
def deferredDelete (l : List (Nat × String)) (id : Nat) : List (Nat × String) :=
  l.filter (fun p => p.1 != id)

/-- `this.isIndexedValueInStack(node)`: the node is an `IndexedValue` whose id
is in the stack. -/
def isIndexedValueInStackE (node : Node) (st : SState) : Bool :=
  match node with
  | .indexedValue i => st.stack.contains i
  | _ => false

/-- The unchecked cast `(node as SerovalIndexedValueNode).i` performed by the
source after an `isIndexedValueInStack` test (the default is unreachable at
every use site). -/
def indexedId : Node → Nat
  | .indexedValue j => j
  | _ => 0

/-- `this.createAssignment(source, value)`: pushes an `index` assignment. -/
def createAssignmentE (st : SState) (source value : String) : SState :=
  { st with assignments := st.assignments ++ [⟨.index, source, none, value⟩] }

/-- `this.createAddAssignment(ref, value)`. -/
def createAddAssignmentE (F : SubFns) (st : SState) (ref : Nat) (value : String) : SState :=
  { st with assignments := st.assignments ++ [⟨.add, F.getRefParam ref, none, value⟩] }

/-- `this.createSetAssignment(ref, key, value)`. -/
def createSetAssignmentE (F : SubFns) (st : SState) (ref : Nat) (key value : String) : SState :=
  { st with assignments := st.assignments ++ [⟨.set, F.getRefParam ref, some key, value⟩] }

/-- `this.createArrayAssign(ref, index, value)`. -/
def createArrayAssignE (F : SubFns) (st : SState) (ref : Nat) (index value : String) : SState :=
  createAssignmentE st (F.getRefParam ref ++ "[" ++ index ++ "]") value

/-- `this.createObjectAssign(ref, key, value)`: marks `ref` then pushes the
dotted assignment. -/
def createObjectAssignE (F : SubFns) (st : SState) (ref : Nat) (key value : String) : SState :=
  createAssignmentE (markRefE st ref) (F.getRefParam ref ++ "." ++ key) value

/-- `this.pushObjectFlag(flag, id)`. -/
def pushObjectFlagE (F : SubFns) (st : SState) (flag : SerovalObjectFlags) (id : Nat) : SState :=
  if flag = SerovalObjectFlags.none then st
  else
    let st1 := markRefE st id
    { st1 with flags := st1.flags ++ [⟨flag, F.getRefParam id⟩] }

/-- `this.getIterableAccess()`. -/
def getIterableAccessE (st : SState) : String :=
  if st.features.arrayPrototypeValues then ".values()" else "[Symbol.iterator]()"

/-- Modelled from the spec: `resolveAssignments` (core/assignments.ts, absent
from src/) renders the collected assignment records as comma-terminated
mutation statements (`a.b=c,` / `s.add(v),` / `m.set(k,v),`), `undefined` for
an empty list.  (The real implementation also merges chains of equal targets;
the claims do not depend on that.) -/
def resolveAssignmentsM (l : List Assignment) : Option String :=
  match l with
  | [] => none
  | _ => some (String.join (l.map (fun a => renderAssignment a ++ ",")))
where
  renderAssignment : Assignment → String
    | ⟨.index, s, _, v⟩ => s ++ "=" ++ v
    | ⟨.add, s, _, v⟩ => s ++ ".add(" ++ v ++ ")"
    | ⟨.set, s, k, v⟩ => s ++ ".set(" ++ k.getD "" ++ "," ++ v ++ ")"

/-- Modelled from the spec: `REFERENCES_KEY` (core/keys.ts, absent from src/),
the globally available reference map consulted by `Reference` nodes (§4.2);
its exact spelling is immaterial to the claims. -/
def REFERENCES_KEY : String := "__SEROVAL_REFS__"

/-- Decimal digit run to a number (`none` on a non-digit or the empty run). -/
def decDigitsAux : List Char → Nat → Option Nat
  | [], acc => some acc
  | c :: rest, acc =>
    if c.isDigit then decDigitsAux rest (acc * 10 + (c.toNat - 48)) else none

/-- Modelled from the spec: the `Number(key)` coercion used by the key
classifier; a decimal (optionally signed) numeral parses, the empty string is
`0`, anything else is `NaN` (`none`). -/
def jsNumParse (s : String) : Option Int :=
  match s.data with
  | [] => some 0
  | '-' :: rest =>
    match rest with
    | [] => none
    | _ => (decDigitsAux rest 0).map (fun n => -(n : Int))
  | l => (decDigitsAux l 0).map (fun n => (n : Int))

/-- Modelled from the spec: `isValidIdentifier` (core/shared.ts, absent from
src/) — an identifier starts with a letter, `_` or `$` and continues with
letters, digits, `_` or `$`. -/
def isValidIdentifierM (s : String) : Bool :=
  match s.data with
  | [] => false
  | c :: rest => identStart c && rest.all identPart
where
  identStart (c : Char) : Bool := c.isAlpha || c = '_' || c = '$'
  identPart (c : Char) : Bool := c.isAlphanum || c = '_' || c = '$'

/-- The key classifier of `serializeProperty`/`serializeAssignment`:
`check >= 0 || check !== check || isValidIdentifier(key)` for
`check = Number(key)`. -/
def isIdentifierKey (k : String) : Bool :=
  match jsNumParse k with
  | some n => decide (0 ≤ n) || isValidIdentifierM k
  | none => true

/-- The type of the recursive `this.serialize` handle threaded through the
method embeddings (one fuel step below the caller). -/
abbrev SerFn := Node → SState → String × SState

/-- `this.serializeIterable(node)`. -/
def serializeIterableE (_F : SubFns) (S : SerFn) (node : Node) (st : SState) : String × SState :=
  let parent := st.stack
  let st1 := { st with stack := ([] : List Nat) }
  let (s0, st2) := S node st1
  let serialized := s0 ++ getIterableAccessE st2
  let st3 := { st2 with stack := parent }
  let result :=
    if st3.features.arrowFunction then
      "[Symbol.iterator]:()=>" ++ serialized
    else if st3.features.methodShorthand then
      "[Symbol.iterator]()\x7breturn " ++ serialized ++ "\x7d"
    else
      "[Symbol.iterator]:function()\x7breturn " ++ serialized ++ "\x7d"
  (result, st3)

/-- `this.serializeArrayItem(id, item, index)`. -/
def serializeArrayItemE (F : SubFns) (S : SerFn) (id : Nat) (item : Option Node)
    (index : Nat) (st : SState) : String × SState :=
  match item with
  | some n =>
    if isIndexedValueInStackE n st then
      let st1 := markRefE st id
      let st2 := createArrayAssignE F st1 id (toString index) (F.getRefParam (indexedId n))
      ("", st2)
    else S n st
  | none => ("", st)

/-- The `for (let i = 1, ...)` loop of `serializeArray`: appends `',' + item`
for each index and overwrites `isHoley` with `item === ''`. -/
def serializeArrayLoopE (F : SubFns) (S : SerFn) (id : Nat) (a : List (Option Node)) :
    Nat → Nat → String → Bool → SState → String × Bool × SState
  | _, 0, values, isHoley, st => (values, isHoley, st)
  | i, Nat.succ c, values, _, st =>
    let (item, st1) := serializeArrayItemE F S id (a.getD i none) i st
    serializeArrayLoopE F S id a (i + 1) c (values ++ "," ++ item) (item = "") st1

/-- `this.serializeArray(node)`. -/
def serializeArrayE (F : SubFns) (S : SerFn) (i l : Nat) (a : List (Option Node))
    (o : SerovalObjectFlags) (st : SState) : String × SState :=
  if l ≠ 0 then
    let st1 := pushStackE st i
    let (v0, st2) := serializeArrayItemE F S i (a.getD 0 none) 0 st1
    let (values, isHoley, st3) := serializeArrayLoopE F S i a 1 (l - 1) v0 (v0 = "") st2
    let st4 := popStackE st3
    let st5 := pushObjectFlagE F st4 o i
    (F.assignIndexedValue st5 i ("[" ++ values ++ (if isHoley then ",]" else "]")), st5)
  else (F.assignIndexedValue st i "[]", st)

/-- `this.serializeProperty(id, key, val)`. -/
def serializePropertyE (F : SubFns) (S : SerFn) (id : Nat) (key : RecordKey)
    (val : Node) (st : SState) : String × SState :=
  match key with
  | .symbolIterator => serializeIterableE F S val st
  | .str k =>
    let isIdent := isIdentifierKey k
    if isIndexedValueInStackE val st then
      let refParam := F.getRefParam (indexedId val)
      let st1 := markRefE st id
      let st2 :=
        if isIdent then createObjectAssignE F st1 id k refParam
        else createArrayAssignE F st1 id (if isIdent then k else "\"" ++ k ++ "\"") refParam
      ("", st2)
    else
      let (s0, st1) := S val st
      ((if isIdent then k else "\"" ++ k ++ "\"") ++ ":" ++ s0, st1)

/-- The `for` loop of `serializeProperties`:
`result += (item && ',') + (item = this.serializeProperty(...))`. -/
def serializePropsLoopE (F : SubFns) (S : SerFn) (id : Nat) (pk : List RecordKey)
    (pv : List Node) : Nat → Nat → String → String → SState → String × SState
  | _, 0, result, _, st => (result, st)
  | i, Nat.succ c, result, prev, st =>
    let (item, st1) :=
      serializePropertyE F S id (pk.getD i (.str "")) (pv.getD i (.constant .cundefined)) st
    serializePropsLoopE F S id pk pv (i + 1) c
      (result ++ (if prev = "" then "" else ",") ++ item) item st1

/-- `this.serializeProperties(sourceID, node)`. -/
def serializePropertiesE (F : SubFns) (S : SerFn) (sourceID : Nat) (pk : List RecordKey)
    (pv : List Node) (ps : Nat) (st : SState) : String × SState :=
  if ps ≠ 0 then
    let st1 := pushStackE st sourceID
    let (r0, st2) :=
      serializePropertyE F S sourceID (pk.getD 0 (.str "")) (pv.getD 0 (.constant .cundefined)) st1
    let (result, st3) := serializePropsLoopE F S sourceID pk pv 1 (ps - 1) r0 r0 st2
    let st4 := popStackE st3
    ("\x7b" ++ result ++ "\x7d", st4)
  else ("\x7b\x7d", st)

/-- `this.serializeObject(node)`. -/
def serializeObjectE (F : SubFns) (S : SerFn) (i : Nat) (pk : List RecordKey)
    (pv : List Node) (ps : Nat) (o : SerovalObjectFlags) (st : SState) : String × SState :=
  let st1 := pushObjectFlagE F st o i
  let (fields, st2) := serializePropertiesE F S i pk pv ps st1
  (F.assignIndexedValue st2 i fields, st2)

/-- `this.serializeWithObjectAssign(value, id, serialized)`. -/
def serializeWithObjectAssignE (F : SubFns) (S : SerFn) (pk : List RecordKey)
    (pv : List Node) (ps : Nat) (id : Nat) (serialized : String) (st : SState) :
    String × SState :=
  let (fields, st1) := serializePropertiesE F S id pk pv ps st
  if fields ≠ "\x7b\x7d" then
    ("Object.assign(" ++ serialized ++ "," ++ fields ++ ")", st1)
  else (serialized, st1)

/-- `this.serializeAssignment(sourceID, mainAssignments, key, value)`; the
`mainAssignments` array is threaded explicitly, and the temporary swaps of
`this.assignments` are performed exactly as in the source. -/
def serializeAssignmentE (F : SubFns) (S : SerFn) (sourceID : Nat)
    (main : List Assignment) (key : RecordKey) (value : Node) (st : SState) :
    List Assignment × SState :=
  match key with
  | .symbolIterator =>
    let parent := st.stack
    let st1 := { st with stack := ([] : List Nat) }
    let (s0, st2) := S value st1
    let serialized := s0 ++ getIterableAccessE st2
    let st3 := { st2 with stack := parent }
    let parentAssignment := st3.assignments
    let st4 := { st3 with assignments := main }
    let st5 := createArrayAssignE F st4 sourceID "Symbol.iterator"
      (if st4.features.arrowFunction then "()=>" ++ serialized
       else "function()\x7breturn " ++ serialized ++ "\x7d")
    let main1 := st5.assignments
    (main1, { st5 with assignments := parentAssignment })
  | .str k =>
    let (serialized, st1) := S value st
    let isIdent := isIdentifierKey k
    if isIndexedValueInStackE value st1 then
      let st2 :=
        if isIdent then createObjectAssignE F st1 sourceID k serialized
        else createArrayAssignE F st1 sourceID (if isIdent then k else "\"" ++ k ++ "\"") serialized
      (main, st2)
    else
      let parentAssignment := st1.assignments
      let st2 := { st1 with assignments := main }
      let st3 :=
        if isIdent then createObjectAssignE F st2 sourceID k serialized
        else createArrayAssignE F st2 sourceID (if isIdent then k else "\"" ++ k ++ "\"") serialized
      let main1 := st3.assignments
      (main1, { st3 with assignments := parentAssignment })

/-- The loop of `serializeAssignments`. -/
def serializeAssignsLoopE (F : SubFns) (S : SerFn) (sourceID : Nat) (pk : List RecordKey)
    (pv : List Node) : Nat → Nat → List Assignment → SState → List Assignment × SState
  | _, 0, main, st => (main, st)
  | i, Nat.succ c, main, st =>
    let (main1, st1) :=
      serializeAssignmentE F S sourceID main (pk.getD i (.str ""))
        (pv.getD i (.constant .cundefined)) st
    serializeAssignsLoopE F S sourceID pk pv (i + 1) c main1 st1

/-- `this.serializeAssignments(sourceID, node)`. -/
def serializeAssignmentsE (F : SubFns) (S : SerFn) (sourceID : Nat) (pk : List RecordKey)
    (pv : List Node) (ps : Nat) (st : SState) : Option String × SState :=
  if ps ≠ 0 then
    let st1 := pushStackE st sourceID
    let (main1, st2) := serializeAssignsLoopE F S sourceID pk pv 0 ps [] st1
    let st3 := popStackE st2
    (resolveAssignmentsM main1, st3)
  else (none, st)

/-- `this.serializeDictionary(i, p, init)`. -/
def serializeDictionaryE (F : SubFns) (S : SerFn) (i : Nat)
    (p : Option (List RecordKey × List Node × Nat)) (init : String) (st : SState) :
    String × SState :=
  match p with
  | some (pk, pv, ps) =>
    if st.features.objectAssign then
      let (init1, st1) := serializeWithObjectAssignE F S pk pv ps i init st
      (F.assignIndexedValue st1 i init1, st1)
    else
      let st1 := markRefE st i
      let (assigns, st2) := serializeAssignmentsE F S i pk pv ps st1
      match assigns with
      | some a =>
        ("(" ++ F.assignIndexedValue st2 i init ++ "," ++ a ++ F.getRefParam i ++ ")", st2)
      | none => (F.assignIndexedValue st2 i init, st2)
  | none => (F.assignIndexedValue st i init, st)

/-- `this.serializeSetItem(id, item)`. -/
def serializeSetItemE (F : SubFns) (S : SerFn) (id : Nat) (item : Node) (st : SState) :
    String × SState :=
  if isIndexedValueInStackE item st then
    let st1 := markRefE st id
    let st2 := createAddAssignmentE F st1 id (F.getRefParam (indexedId item))
    ("", st2)
  else S item st

/-- The `for` loop of `serializeSet` (`(item && ',')` join). -/
def serializeSetLoopE (F : SubFns) (S : SerFn) (id : Nat) (items : List Node) :
    Nat → Nat → String → String → SState → String × SState
  | _, 0, result, _, st => (result, st)
  | i, Nat.succ c, result, prev, st =>
    let (item, st1) := serializeSetItemE F S id (items.getD i (.constant .cundefined)) st
    serializeSetLoopE F S id items (i + 1) c
      (result ++ (if prev = "" then "" else ",") ++ item) item st1

/-- `this.serializeSet(node)`. -/
def serializeSetE (F : SubFns) (S : SerFn) (i l : Nat) (items : List Node) (st : SState) :
    String × SState :=
  if l ≠ 0 then
    let st1 := pushStackE st i
    let (r0, st2) := serializeSetItemE F S i (items.getD 0 (.constant .cundefined)) st1
    let (result, st3) := serializeSetLoopE F S i items 1 (l - 1) r0 r0 st2
    let st4 := popStackE st3
    let serialized := if result ≠ "" then "new Set" ++ "([" ++ result ++ "])" else "new Set"
    (F.assignIndexedValue st4 i serialized, st4)
  else (F.assignIndexedValue st i "new Set", st)

/-- `this.serializeMapEntry(id, key, val)` — embedded branch for branch,
including the condition
`val.t !== SerovalNodeType.IndexedValue && val.i != null && this.isMarked(val.i)`
of both branches exactly as written in the source. -/
def serializeMapEntryE (F : SubFns) (S : SerFn) (id : Nat) (key val : Node) (st : SState) :
    String × SState :=
  if isIndexedValueInStackE key st then
    let keyRef := F.getRefParam id
    let st1 := markRefE st id
    if isIndexedValueInStackE val st1 then
      let valueRef := F.getRefParam (indexedId val)
      ("", createSetAssignmentE F st1 id keyRef valueRef)
    else
      let parent := st1.stack
      let st2 := { st1 with stack := ([] : List Nat) }
      if !(isIndexedValueNode val) &&
          (match nodeId val with
           | some vi => isMarkedE st2 vi
           | none => false) then
        let (d, st3) := S val st2
        let st4 := deferE st3 (nodeId val).iget (d)
        let st5 := createSetAssignmentE F st4 id keyRef (F.getRefParam (nodeId val).iget)
        ("", { st5 with stack := parent })
      else
        let (d, st3) := S val st2
        let st4 := createSetAssignmentE F st3 id keyRef (d)
        ("", { st4 with stack := parent })
  else if isIndexedValueInStackE val st then
    let valueRef := F.getRefParam (indexedId val)
    let st1 := markRefE st id
    let parent := st1.stack
    let st2 := { st1 with stack := ([] : List Nat) }
    if !(isIndexedValueNode val) &&
        (match nodeId val with
         | some vi => isMarkedE st2 vi
         | none => false) then
      let (d, st3) := S val st2
      let st4 := deferE st3 (nodeId val).iget (d)
      let st5 := createSetAssignmentE F st4 id (F.getRefParam (nodeId val).iget) valueRef
      ("", { st5 with stack := parent })
    else
      let (d, st3) := S key st2
      let st4 := createSetAssignmentE F st3 id (d) valueRef
      ("", { st4 with stack := parent })
  else
    let (ks, st1) := S key st
    let (vs, st2) := S val st1
    ("[" ++ ks ++ "," ++ vs ++ "]", st2)

/-- The `for` loop of `serializeMap` (`(item && ',')` join). -/
def serializeMapLoopE (F : SubFns) (S : SerFn) (id : Nat) (ek ev : List Node) :
    Nat → Nat → String → String → SState → String × SState
  | _, 0, result, _, st => (result, st)
  | i, Nat.succ c, result, prev, st =>
    let (item, st1) :=
      serializeMapEntryE F S id (ek.getD i (.constant .cundefined))
        (ev.getD i (.constant .cundefined)) st
    serializeMapLoopE F S id ek ev (i + 1) c
      (result ++ (if prev = "" then "" else ",") ++ item) item st1

/-- `this.serializeMap(node)`. -/
def serializeMapE (F : SubFns) (S : SerFn) (i : Nat) (ek ev : List Node) (es : Nat)
    (st : SState) : String × SState :=
  if es ≠ 0 then
    let st1 := pushStackE st i
    let (r0, st2) :=
      serializeMapEntryE F S i (ek.getD 0 (.constant .cundefined))
        (ev.getD 0 (.constant .cundefined)) st1
    let (result, st3) := serializeMapLoopE F S i ek ev 1 (es - 1) r0 r0 st2
    let st4 := popStackE st3
    let serialized := if result ≠ "" then "new Map" ++ "([" ++ result ++ "])" else "new Map"
    (F.assignIndexedValue st4 i serialized, st4)
  else (F.assignIndexedValue st i "new Map", st)

/-- The byte-rendering loop of `serializeArrayBuffer`. -/
def bufferLoopE : List Nat → Nat → String → String
  | [], _, acc => acc
  | b :: rest, i, acc =>
    bufferLoopE rest (i + 1) (acc ++ (if i > 0 then "," else "") ++ toString b)

/-- `this.serializeArrayBuffer(node)`. -/
def serializeArrayBufferE (F : SubFns) (i : Nat) (s : List Nat) (st : SState) :
    String × SState :=
  let result := "new Uint8Array("
  let result := if s.length ≠ 0 then result ++ "[" ++ bufferLoopE s 0 "" ++ "]" else result
  (F.assignIndexedValue st i (result ++ ").buffer"), st)

/-- `this.serializePromise(node)`. -/
def serializePromiseE (F : SubFns) (S : SerFn) (i : Nat) (s : Bool) (f : Node)
    (st : SState) : String × SState :=
  let ctor := if s then "Promise.resolve" else "Promise.reject"
  if isIndexedValueInStackE f st then
    let ref := F.getRefParam (indexedId f)
    let serialized :=
      if st.features.arrowFunction then
        if s then ctor ++ "().then(()=>" ++ ref ++ ")"
        else ctor ++ "().catch(()=>\x7bthrow " ++ ref ++ "\x7d)"
      else if s then ctor ++ "().then(function()\x7breturn " ++ ref ++ "\x7d)"
      else ctor ++ "().catch(function()\x7bthrow " ++ ref ++ "\x7d)"
    (F.assignIndexedValue st i serialized, st)
  else
    let st1 := pushStackE st i
    let (result, st2) := S f st1
    let st3 := popStackE st2
    (F.assignIndexedValue st3 i (ctor ++ "(" ++ result ++ ")"), st3)

/-- `this.serializeFormDataEntry(id, key, value)`. -/
def serializeFormDataEntryE (F : SubFns) (S : SerFn) (id : Nat) (key : String)
    (value : Node) (st : SState) : String × SState :=
  let (s0, st1) := S value st
  (F.getRefParam id ++ ".append(\"" ++ key ++ "\"," ++ s0 ++ ")", st1)

/-- The loop of `serializeFormDataEntries` (always-comma join from index 1). -/
def formDataLoopE (F : SubFns) (S : SerFn) (id : Nat) (ek : List String) (ev : List Node) :
    Nat → Nat → String → SState → String × SState
  | _, 0, result, st => (result, st)
  | i, Nat.succ c, result, st =>
    let (e, st1) :=
      serializeFormDataEntryE F S id (ek.getD i "") (ev.getD i (.constant .cundefined)) st
    formDataLoopE F S id ek ev (i + 1) c (result ++ "," ++ e) st1

/-- `this.serializeFormData(node)`. -/
def serializeFormDataE (F : SubFns) (S : SerFn) (i : Nat) (ek : List String)
    (ev : List Node) (es : Nat) (st : SState) : String × SState :=
  let st1 := if es ≠ 0 then markRefE st i else st
  let result := F.assignIndexedValue st1 i "new FormData()"
  if es ≠ 0 then
    let (e0, st2) :=
      serializeFormDataEntryE F S i (ek.getD 0 "") (ev.getD 0 (.constant .cundefined)) st1
    let (entries, st3) := formDataLoopE F S i ek ev 1 (es - 1) e0 st2
    ("(" ++ result ++ "," ++ (if entries ≠ "" then entries ++ "," else "") ++
      F.getRefParam i ++ ")", st3)
  else (result, st1)

/-- One dispatch step of `this.serialize(node)` (the big `switch`), with the
recursive handle `S`.  `Plugin` and the streaming-only tags are abstract or
plugin-defined in the base class and outside this universe. -/
def serializeSwitchE (F : SubFns) (S : SerFn) : Node → SState → String × SState
  | .constant s, st => (CONSTANT_STRING s, st)
  | .num s, st => (toString s, st)
  | .str s, st => ("\"" ++ s ++ "\"", st)
  | .bigint s, st => (toString s ++ "n", st)
  | .indexedValue i, st =>
    match st.deferred.lookup i with
    | some r => (r, { st with deferred := deferredDelete st.deferred i })
    | none => (F.getRefParam i, st)
  | .reference i s, st =>
    (F.assignIndexedValue st i (REFERENCES_KEY ++ ".get(\"" ++ s ++ "\")"), st)
  | .array i l a o, st => serializeArrayE F S i l a o st
  | .object i pk pv ps o, st => serializeObjectE F S i pk pv ps o st
  | .nullConstructor i pk pv ps o, st =>
    let st1 := pushObjectFlagE F st o i
    serializeDictionaryE F S i (some (pk, pv, ps)) "Object.create(null)" st1
  | .date i s, st => (F.assignIndexedValue st i ("new Date(\"" ++ s ++ "\")"), st)
  | .regexp i c m, st => (F.assignIndexedValue st i ("/" ++ c ++ "/" ++ m), st)
  | .setNode i l a, st => serializeSetE F S i l a st
  | .mapNode i ek ev es, st => serializeMapE F S i ek ev es st
  | .arrayBuffer i s, st => serializeArrayBufferE F i s st
  | .typedArray i c f b l, st =>
    let (fs, st1) := S f st
    (F.assignIndexedValue st1 i
      ("new " ++ c ++ "(" ++ fs ++ "," ++ toString b ++ "," ++ toString l ++ ")"), st1)
  | .dataView i f b l, st =>
    let (fs, st1) := S f st
    (F.assignIndexedValue st1 i
      ("new DataView(" ++ fs ++ "," ++ toString b ++ "," ++ toString l ++ ")"), st1)
  | .aggregateError i m p, st =>
    let st1 := pushStackE st i
    let serialized := "new AggregateError([],\"" ++ m ++ "\")"
    let st2 := popStackE st1
    serializeDictionaryE F S i p serialized st2
  | .error i s m p, st =>
    serializeDictionaryE F S i p
      ("new " ++ ERROR_CONSTRUCTOR_STRING s ++ "(\"" ++ m ++ "\")") st
  | .promise i s f, st => serializePromiseE F S i s f st
  | .wkSymbol i s, st => (F.assignIndexedValue st i (SYMBOL_STRING s), st)
  | .url i s, st => (F.assignIndexedValue st i ("new URL(\"" ++ s ++ "\")"), st)
  | .urlSearchParams i s, st =>
    (F.assignIndexedValue st i
      (if s ≠ "" then "new URLSearchParams(\"" ++ s ++ "\")" else "new URLSearchParams"), st)
  | .blob i c f, st =>
    let (fs, st1) := S f st
    (F.assignIndexedValue st1 i
      ("new Blob([" ++ fs ++ "],\x7btype:\"" ++ c ++ "\"\x7d)"), st1)
  | .file i c m b f, st =>
    let (fs, st1) := S f st
    (F.assignIndexedValue st1 i
      ("new File([" ++ fs ++ "],\"" ++ m ++ "\",\x7btype:\"" ++ c ++
        "\",lastModified:" ++ toString b ++ "\x7d)"), st1)
  | .headers i ek ev es, st =>
    let (fields, st1) := serializePropertiesE F S i (ek.map RecordKey.str) ev es st
    (F.assignIndexedValue st1 i ("new Headers(" ++ fields ++ ")"), st1)
  | .formData i ek ev es, st => serializeFormDataE F S i ek ev es st
  | .boxed i f, st =>
    let (fs, st1) := S f st
    (F.assignIndexedValue st1 i ("Object(" ++ fs ++ ")"), st1)
  | .request i s f, st =>
    let (fs, st1) := S f st
    (F.assignIndexedValue st1 i ("new Request(\"" ++ s ++ "\"," ++ fs ++ ")"), st1)
  | .response i f0 f1, st =>
    let (s0, st1) := S f0 st
    let (s1, st2) := S f1 st1
    (F.assignIndexedValue st2 i ("new Response(" ++ s0 ++ "," ++ s1 ++ ")"), st2)
  | .event i s f, st =>
    let (fs, st1) := S f st
    (F.assignIndexedValue st1 i ("new Event(\"" ++ s ++ "\"," ++ fs ++ ")"), st1)
  | .customEvent i s f, st =>
    let (fs, st1) := S f st
    (F.assignIndexedValue st1 i ("new CustomEvent(\"" ++ s ++ "\"," ++ fs ++ ")"), st1)
  | .domException i s c, st =>
    (F.assignIndexedValue st i ("new DOMException(\"" ++ s ++ "\",\"" ++ c ++ "\")"), st)

/-- `BaseSerializerContext.serialize(node)` with explicit fuel; out of fuel
returns the neutral `("", st)`. -/
def serializeE (F : SubFns) : Nat → Node → SState → String × SState
  | 0, _, st => ("", st)
  | Nat.succ fuel, node, st => serializeSwitchE F (serializeE F fuel) node st

/-! ## Value universe for the parsers

Input values are a heap graph: non-primitive values live at addresses of a
`Heap`, value identity is address equality (mirroring the JS `refs` maps keyed
by object identity).  The universe — primitives, arrays with holes, plain
objects, Maps, Sets — covers the shapes the claims exercise; the dispatch
cases of the parsers for shapes outside the universe cannot match and
disappear from the embedding (noted per function). -/

/-- A JS number: finite values (integral payloads suffice for the claims),
`-0`, the infinities and `NaN`. -/
inductive JSNum where
  | int (n : Int)
  | negZero
  | inf
  | negInf
  | nan
deriving Repr, DecidableEq

/-- JS primitives. -/
inductive JSPrim where
  | undef
  | null
  | bool (b : Bool)
  | num (n : JSNum)
  | str (s : String)
  | bigint (n : Int)
deriving Repr, DecidableEq

/-- A JS value: a primitive or a reference to a heap address. -/
inductive JSVal where
  | prim (p : JSPrim)
  | ref (a : Nat)
deriving Repr, DecidableEq

/-- Heap objects of the universe.  An array slot `none` is a hole
(`i in current` false). -/
inductive JSObj where
  | arr (elems : List (Option JSVal))
  | obj (props : List (String × JSVal))
  | mapObj (entries : List (JSVal × JSVal))
  | setObj (elems : List JSVal)
deriving Repr, DecidableEq

/-- The heap: address `a` is index `a`. -/
abbrev Heap := List JSObj

/-- Parser failures: `UnsupportedTypeError` (also covering failed feature
`assert`s, which throw the same error) and fuel exhaustion of the
embedding. -/
inductive PErr where
  | unsupportedType
  | outOfFuel
deriving Repr, DecidableEq

/-- Parser context: `features`, the value-to-id map `refs` (an association
list in insertion order, so `refs.size` is its length), the `markedRefs` set
of ids seen more than once, and the reference registry (§4.2,
core/reference.ts absent from src/ — an address-to-tag map). -/
structure PCtx where
  features : Features
  refs : List (Nat × Nat)
  marked : List Nat
  registry : List (Nat × String)
deriving Repr, DecidableEq

/-- A fresh parser context. -/
def initPCtx (fx : Features) : PCtx := ⟨fx, [], [], []⟩

/-- Modelled from the spec, §4.3: the string escaper (core/string.ts absent
from src/) — backslash-escapes the backslash, the double quote and `<`
(`\x3C`), and the common C0 controls; other characters pass through.  The
claims only exercise plain characters. -/
def serializeStringM (s : String) : String :=
  String.join (s.data.map escChar)
where
  escChar (c : Char) : String :=
    if c = '\\' then "\\\\"
    else if c = '"' then "\\\""
    else if c = '<' then "\\x3C"
    else if c = '\n' then "\\n"
    else if c = '\r' then "\\r"
    else if c = '\t' then "\\t"
    else String.singleton c

/-- `createNumberNode(value)` (src/unnamed/part_000 primitives, lines
776–803): `Infinity` and `-Infinity` by the switch, `NaN` by the
`value !== value` test, `-0` by `Object.is(value, -0)`, otherwise a `Number`
node with `i := undefined`. -/
def createNumberNodeE : JSNum → Node
  | .inf => .constant .infinity
  | .negInf => .constant .negInfinity
  | .nan => .constant .nan
  | .negZero => .constant .negZero
  | .int n => .num n

/-- `createStringNode(value)`: payload is `serializeString(value)`. -/
def createStringNodeE (s : String) : Node := .str (serializeStringM s)

/-- Modelled from the spec, §4.4: the id-assignment function
`createIndexedValue` (core/context.ts, absent from src/) "returns the existing
id if the value was seen, otherwise allocates a new id" (`refs.size`); the
repeat case additionally records the id in `markedRefs` (which is what the
`ctx.markedRefs.has(id)` check in `parseObject` reads).  The in-src cross
parser (core/cross/async.ts, lines 570–575) carries the same
get-or-`refs.size` logic inline. -/
def createIndexedValueME (ctx : PCtx) (a : Nat) : Nat × PCtx :=
  match ctx.refs.lookup a with
  | some id => (id, { ctx with marked := ctx.marked.insert id })
  | none => (ctx.refs.length, { ctx with refs := ctx.refs ++ [(a, ctx.refs.length)] })

/-- The inline id assignment of the cross parser (core/cross/async.ts,
`parseObject` lines 570–575): `refs.get`, else `refs.size` and `refs.set` —
with no marking. -/
def createCrossIndexedValueME (ctx : PCtx) (a : Nat) : Nat × PCtx :=
  match ctx.refs.lookup a with
  | some id => (id, ctx)
  | none => (ctx.refs.length, { ctx with refs := ctx.refs ++ [(a, ctx.refs.length)] })

/-- `hasReferenceID(current)` against the modelled registry. -/
def hasReferenceIDE (ctx : PCtx) (a : Nat) : Bool :=
  (ctx.registry.lookup a).isSome

/-- `getReferenceID(ref)` against the modelled registry. -/
def getReferenceIDE (ctx : PCtx) (a : Nat) : String :=
  (ctx.registry.lookup a).getD ""

/-- Modelled from the spec, §4.4.1: `isIterable` (core/shared.ts absent from
src/) — a non-null object whose runtime type presents the iterator protocol;
in this universe arrays, Maps and Sets present it, plain records do not. -/
def isIterableE (H : Heap) : JSVal → Bool
  | .prim _ => false
  | .ref a =>
    match H.get? a with
    | some (.arr _) => true
    | some (.mapObj _) => true
    | some (.setObj _) => true
    | some (.obj _) => false
    | none => false

/-- `Symbol.iterator in current` for a heap object of the universe. -/
def hasSymbolIter : JSObj → Bool
  | .arr _ => true
  | .mapObj _ => true
  | .setObj _ => true
  | .obj _ => false

/-- `Object.keys(properties)` with values: the own enumerable string
properties (Maps/Sets/arrays of the universe have none that the parsers
read). -/
def ownStringProps : JSObj → List (String × JSVal)
  | .obj props => props
  | _ => []

/-- Modelled from the spec, §3: `getObjectFlag` (core/shared.ts absent from
src/) reads the sealed/frozen/non-extensible state; values of this universe
carry none, so the flag is always `None`. -/
def getObjectFlagM (_ : JSObj) : SerovalObjectFlags := SerovalObjectFlags.none

/-- Allocator for the pair arrays of `Array.from(map)`. -/
def allocPairsE : Heap → List (JSVal × JSVal) → Heap × List JSVal
  | H, [] => (H, [])
  | H, (k, v) :: rest =>
    let addr := H.length
    let H1 := H ++ [JSObj.arr [some k, some v]]
    let (H2, rs) := allocPairsE H1 rest
    (H2, .ref addr :: rs)

/-- Modelled from the spec, §4.4 dispatch step 7: `Array.from(properties)`
materializes the drained items as a fresh array (fresh heap allocations);
for a Map the items are fresh two-element `[key, value]` arrays. -/
def arrayFromE (H : Heap) (o : JSObj) : Heap × Nat :=
  match o with
  | .mapObj entries =>
    let (H1, rs) := allocPairsE H entries
    (H1 ++ [JSObj.arr (rs.map some)], H1.length)
  | .setObj elems => (H ++ [JSObj.arr (elems.map some)], H.length)
  | .arr elems => (H ++ [JSObj.arr elems], H.length)
  | .obj _ => (H ++ [JSObj.arr []], H.length)

/-- The type of a recursive parse handle (one fuel step below the caller). -/
abbrev ParseFn := JSVal → PCtx → Heap → Except PErr (Node × PCtx × Heap)

/-- First-pass slot of the two-pass node-list walk. -/
inductive PSlot where
  | hole
  | deferSlot (v : JSVal)
  | done (n : Node)

/-- First pass of `generateNodeList` (src/unnamed/part_000, lines 62–83; the
same two-pass walk appears in core/tree/async.ts `parseItems` and
core/cross/async.ts `generateNodeList`): holes are skipped, iterable items
are deferred, the rest are parsed in order. -/
def nodeListPass1 (P : ParseFn) :
    List (Option JSVal) → PCtx → Heap → Except PErr (List PSlot × PCtx × Heap)
  | [], ctx, H => .ok ([], ctx, H)
  | none :: rest, ctx, H => do
    let (slots, ctx1, H1) ← nodeListPass1 P rest ctx H
    .ok (.hole :: slots, ctx1, H1)
  | some v :: rest, ctx, H =>
    if isIterableE H v then do
      let (slots, ctx1, H1) ← nodeListPass1 P rest ctx H
      .ok (.deferSlot v :: slots, ctx1, H1)
    else do
      let (n, ctx1, H1) ← P v ctx H
      let (slots, ctx2, H2) ← nodeListPass1 P rest ctx1 H1
      .ok (.done n :: slots, ctx2, H2)

/-- Second pass of `generateNodeList`: parse the deferred items, keeping every
node at its original index. -/
def nodeListPass2 (P : ParseFn) :
    List PSlot → PCtx → Heap → Except PErr (List (Option Node) × PCtx × Heap)
  | [], ctx, H => .ok ([], ctx, H)
  | .hole :: rest, ctx, H => do
    let (nodes, ctx1, H1) ← nodeListPass2 P rest ctx H
    .ok (none :: nodes, ctx1, H1)
  | .done n :: rest, ctx, H => do
    let (nodes, ctx1, H1) ← nodeListPass2 P rest ctx H
    .ok (some n :: nodes, ctx1, H1)
  | .deferSlot v :: rest, ctx, H => do
    let (n, ctx1, H1) ← P v ctx H
    let (nodes, ctx2, H2) ← nodeListPass2 P rest ctx1 H1
    .ok (some n :: nodes, ctx2, H2)

/-- `generateNodeList(ctx, current)`. -/
def generateNodeListE (P : ParseFn) (xs : List (Option JSVal)) (ctx : PCtx) (H : Heap) :
    Except PErr (List (Option Node) × PCtx × Heap) := do
  let (slots, ctx1, H1) ← nodeListPass1 P xs ctx H
  nodeListPass2 P slots ctx1 H1

/-- `generateArrayNode(ctx, id, current)`: `l := current.length`,
`a := generateNodeList(...)`. -/
def generateArrayNodeE (P : ParseFn) (id : Nat) (xs : List (Option JSVal)) (ctx : PCtx)
    (H : Heap) : Except PErr (Node × PCtx × Heap) := do
  let (nodes, ctx1, H1) ← generateNodeListE P xs ctx H
  .ok (.array id xs.length nodes (getObjectFlagM (.arr xs)), ctx1, H1)

/-- First pass over Map entries: an entry is deferred when either its key or
its value is iterable. -/
def mapPass1 (P : ParseFn) :
    List (JSVal × JSVal) → PCtx → Heap →
    Except PErr (List (Node × Node) × List (JSVal × JSVal) × PCtx × Heap)
  | [], ctx, H => .ok ([], [], ctx, H)
  | (k, v) :: rest, ctx, H =>
    if isIterableE H k || isIterableE H v then do
      let (pairs, defs, ctx1, H1) ← mapPass1 P rest ctx H
      .ok (pairs, (k, v) :: defs, ctx1, H1)
    else do
      let (kn, ctx1, H1) ← P k ctx H
      let (vn, ctx2, H2) ← P v ctx1 H1
      let (pairs, defs, ctx3, H3) ← mapPass1 P rest ctx2 H2
      .ok ((kn, vn) :: pairs, defs, ctx3, H3)

/-- Second pass over the deferred Map entries. -/
def mapPass2 (P : ParseFn) :
    List (JSVal × JSVal) → PCtx → Heap →
    Except PErr (List (Node × Node) × PCtx × Heap)
  | [], ctx, H => .ok ([], ctx, H)
  | (k, v) :: rest, ctx, H => do
    let (kn, ctx1, H1) ← P k ctx H
    let (vn, ctx2, H2) ← P v ctx1 H1
    let (pairs, ctx3, H3) ← mapPass2 P rest ctx2 H2
    .ok ((kn, vn) :: pairs, ctx3, H3)

/-- The entry walk shared by `generateMapNode` (src/unnamed/part_000, lines
104–145, after its `assert`) and the assert-free `parseMap`/`generateMapNode`
of core/tree/async.ts and core/cross/async.ts: non-deferred entries first,
deferred entries appended after, `s := current.size`. -/
def generateMapCoreE (P : ParseFn) (id : Nat) (entries : List (JSVal × JSVal)) (ctx : PCtx)
    (H : Heap) : Except PErr (Node × PCtx × Heap) := do
  let (pairs1, defs, ctx1, H1) ← mapPass1 P entries ctx H
  let (pairs2, ctx2, H2) ← mapPass2 P defs ctx1 H1
  let allPairs := pairs1 ++ pairs2
  .ok (.mapNode id (allPairs.map Prod.fst) (allPairs.map Prod.snd) entries.length, ctx2, H2)

/-- First pass over Set items (iterables deferred). -/
def setPass1 (P : ParseFn) :
    List JSVal → PCtx → Heap → Except PErr (List Node × List JSVal × PCtx × Heap)
  | [], ctx, H => .ok ([], [], ctx, H)
  | v :: rest, ctx, H =>
    if isIterableE H v then do
      let (nodes, defs, ctx1, H1) ← setPass1 P rest ctx H
      .ok (nodes, v :: defs, ctx1, H1)
    else do
      let (n, ctx1, H1) ← P v ctx H
      let (nodes, defs, ctx2, H2) ← setPass1 P rest ctx1 H1
      .ok (n :: nodes, defs, ctx2, H2)

/-- Second pass over deferred Set items. -/
def setPass2 (P : ParseFn) :
    List JSVal → PCtx → Heap → Except PErr (List Node × PCtx × Heap)
  | [], ctx, H => .ok ([], ctx, H)
  | v :: rest, ctx, H => do
    let (n, ctx1, H1) ← P v ctx H
    let (nodes, ctx2, H2) ← setPass2 P rest ctx1 H1
    .ok (n :: nodes, ctx2, H2)

/-- The item walk shared by `generateSetNode` (src/unnamed/part_000, lines
147–182, after its `assert`) and the async/cross `parseSet`/`generateSetNode`. -/
def generateSetCoreE (P : ParseFn) (id : Nat) (elems : List JSVal) (ctx : PCtx) (H : Heap) :
    Except PErr (Node × PCtx × Heap) := do
  let (nodes1, defs, ctx1, H1) ← setPass1 P elems ctx H
  let (nodes2, ctx2, H2) ← setPass2 P defs ctx1 H1
  .ok (.setNode id elems.length (nodes1 ++ nodes2), ctx2, H2)

/-- First pass of `generateProperties` (escaped keys; iterable values
deferred). -/
def propsPass1 (P : ParseFn) :
    List (String × JSVal) → PCtx → Heap →
    Except PErr (List (String × Node) × List (String × JSVal) × PCtx × Heap)
  | [], ctx, H => .ok ([], [], ctx, H)
  | (k, v) :: rest, ctx, H =>
    let escaped := serializeStringM k
    if isIterableE H v then do
      let (done1, defs, ctx1, H1) ← propsPass1 P rest ctx H
      .ok (done1, (escaped, v) :: defs, ctx1, H1)
    else do
      let (n, ctx1, H1) ← P v ctx H
      let (done1, defs, ctx2, H2) ← propsPass1 P rest ctx1 H1
      .ok ((escaped, n) :: done1, defs, ctx2, H2)

/-- Second pass of `generateProperties` over the deferred key–value pairs. -/
def propsPass2 (P : ParseFn) :
    List (String × JSVal) → PCtx → Heap →
    Except PErr (List (String × Node) × PCtx × Heap)
  | [], ctx, H => .ok ([], ctx, H)
  | (k, v) :: rest, ctx, H => do
    let (n, ctx1, H1) ← P v ctx H
    let (done1, ctx2, H2) ← propsPass2 P rest ctx1 H1
    .ok ((k, n) :: done1, ctx2, H2)

/-- `generateProperties(ctx, properties)` (src/unnamed/part_000 lines
184–229; the same walk is `parseProperties` in core/tree/async.ts and
`generateProperties` in core/cross/async.ts): the two passes, then — when
`Feature.Symbol` is enabled and the value presents `Symbol.iterator` — the
`SymbolIterator` sentinel entry holding the freshly materialized item array.
`alloc` is the parser's id-assignment function. -/
def generatePropertiesE (P : ParseFn) (alloc : PCtx → Nat → Nat × PCtx) (cur : JSObj)
    (ctx : PCtx) (H : Heap) :
    Except PErr ((List RecordKey × List Node × Nat) × PCtx × Heap) := do
  let props := ownStringProps cur
  let (done1, defs, ctx1, H1) ← propsPass1 P props ctx H
  let (done2, ctx2, H2) ← propsPass2 P defs ctx1 H1
  let base := done1 ++ done2
  let size := props.length
  if ctx2.features.symbol && hasSymbolIter cur then do
    let (H3, itemsAddr) := arrayFromE H2 cur
    let (iid, ctx3) := alloc ctx2 itemsAddr
    let items := match H3.get? itemsAddr with
      | some (.arr xs) => xs
      | _ => []
    let (an, ctx4, H4) ← generateArrayNodeE P iid items ctx3 H3
    .ok ((base.map (fun p => RecordKey.str p.1) ++ [RecordKey.symbolIterator],
          base.map Prod.snd ++ [an], size + 1), ctx4, H4)
  else
    .ok ((base.map (fun p => RecordKey.str p.1), base.map Prod.snd, size), ctx2, H2)

/-- `generateObjectNode(ctx, id, current, empty)` / `parsePlainObject`. -/
def generateObjectNodeE (P : ParseFn) (alloc : PCtx → Nat → Nat × PCtx) (id : Nat)
    (cur : JSObj) (empty : Bool) (ctx : PCtx) (H : Heap) :
    Except PErr (Node × PCtx × Heap) := do
  let (rec1, ctx1, H1) ← generatePropertiesE P alloc cur ctx H
  let node :=
    if empty then Node.nullConstructor id rec1.1 rec1.2.1 rec1.2.2 (getObjectFlagM cur)
    else Node.object id rec1.1 rec1.2.1 rec1.2.2 (getObjectFlagM cur)
  .ok (node, ctx1, H1)

/-- `parseObject(ctx, current)` of the synchronous parser
(src/unnamed/part_000, lines 404–514), restricted to the shapes of the
universe.  The source's constructor cases for shapes outside the universe
(boxed primitives, Date, RegExp, buffers, errors, web APIs) cannot match here;
`case Map:`/`case Set:` enter `generateMapNode`/`generateSetNode`, whose first
line `assert`s the feature bit; `case Object:` enters `generateObjectNode`.
The slow-path iterable fallback is unreachable in this universe (every
iterable shape is caught by its constructor case earlier). -/
def parseObjectSyncE (P : ParseFn) (a : Nat) (ctx : PCtx) (H : Heap) :
    Except PErr (Node × PCtx × Heap) :=
  let (id, ctx1) := createIndexedValueME ctx a
  if ctx1.marked.contains id then .ok (.indexedValue id, ctx1, H)
  else if hasReferenceIDE ctx1 a then
    .ok (.reference id (serializeStringM (getReferenceIDE ctx1 a)), ctx1, H)
  else
    match H.get? a with
    | some (.arr xs) => generateArrayNodeE P id xs ctx1 H
    | some (.mapObj entries) =>
      if ctx1.features.map then generateMapCoreE P id entries ctx1 H
      else .error .unsupportedType
    | some (.setObj elems) =>
      if ctx1.features.set then generateSetCoreE P id elems ctx1 H
      else .error .unsupportedType
    | some (.obj props) =>
      generateObjectNodeE P createIndexedValueME id (.obj props) false ctx1 H
    | none => .error .unsupportedType

/-- One step of `parseSync` (src/unnamed/part_000, lines 516–540); the
`typeof` switch.  `null` is an object in JS and returns `NULL_NODE` from
`parseObject`; `symbol`/`function` payloads are outside the universe. -/
def parseSyncStepE (P : ParseFn) : JSVal → PCtx → Heap → Except PErr (Node × PCtx × Heap)
  | .prim (.bool b), ctx, H => .ok (.constant (if b then .ctrue else .cfalse), ctx, H)
  | .prim .undef, ctx, H => .ok (.constant .cundefined, ctx, H)
  | .prim (.str s), ctx, H => .ok (createStringNodeE s, ctx, H)
  | .prim (.num n), ctx, H => .ok (createNumberNodeE n, ctx, H)
  | .prim (.bigint n), ctx, H =>
    if ctx.features.bigInt then .ok (.bigint n, ctx, H) else .error .unsupportedType
  | .prim .null, ctx, H => .ok (.constant .cnull, ctx, H)
  | .ref a, ctx, H => parseObjectSyncE P a ctx H

/-- `parseSync(ctx, current)` with explicit fuel. -/
def parseSyncE : Nat → ParseFn
  | 0, _, _, _ => .error .outOfFuel
  | Nat.succ fuel, v, ctx, H => parseSyncStepE (parseSyncE fuel) v ctx H

/-- `parseObject(current)` of the asynchronous tree parser
(core/tree/async.ts, lines 577–726), restricted to the universe: the
constructor switch handles `Object`; the feature-guarded blocks for typed
arrays, web APIs, `AggregateError` and `Promise` cannot match these shapes;
a Map (resp. Set) is parsed by `parseMap` (`parseSet`) only under
`Feature.Map` (`Feature.Set`) and otherwise falls through to the
`Feature.Symbol && Symbol.iterator in current` fallback, which parses it as a
plain object with `empty := !!currentClass = true`; with `Feature.Symbol`
disabled too, the terminal `UnsupportedTypeError` is thrown. -/
def parseObjectAsyncE (P : ParseFn) (a : Nat) (ctx : PCtx) (H : Heap) :
    Except PErr (Node × PCtx × Heap) :=
  let (id, ctx1) := createIndexedValueME ctx a
  if ctx1.marked.contains id then .ok (.indexedValue id, ctx1, H)
  else if hasReferenceIDE ctx1 a then
    .ok (.reference id (serializeStringM (getReferenceIDE ctx1 a)), ctx1, H)
  else
    match H.get? a with
    | some (.arr xs) => generateArrayNodeE P id xs ctx1 H
    | some (.obj props) =>
      generateObjectNodeE P createIndexedValueME id (.obj props) false ctx1 H
    | some (.mapObj entries) =>
      if ctx1.features.map then generateMapCoreE P id entries ctx1 H
      else if ctx1.features.symbol then
        generateObjectNodeE P createIndexedValueME id (.mapObj entries) true ctx1 H
      else .error .unsupportedType
    | some (.setObj elems) =>
      if ctx1.features.set then generateSetCoreE P id elems ctx1 H
      else if ctx1.features.symbol then
        generateObjectNodeE P createIndexedValueME id (.setObj elems) true ctx1 H
      else .error .unsupportedType
    | none => .error .unsupportedType

/-- One step of `AsyncParserContext.parse` (core/tree/async.ts, lines
728–751): the `Feature.BigInt` guard, then the `typeof` switch (which has no
`bigint` case, so a disabled-BigInt payload reaches the default throw). -/
def parseAsyncStepE (P : ParseFn) : JSVal → PCtx → Heap → Except PErr (Node × PCtx × Heap)
  | .prim (.bigint n), ctx, H =>
    if ctx.features.bigInt then .ok (.bigint n, ctx, H) else .error .unsupportedType
  | .prim (.bool b), ctx, H => .ok (.constant (if b then .ctrue else .cfalse), ctx, H)
  | .prim .undef, ctx, H => .ok (.constant .cundefined, ctx, H)
  | .prim (.str s), ctx, H => .ok (createStringNodeE s, ctx, H)
  | .prim (.num n), ctx, H => .ok (createNumberNodeE n, ctx, H)
  | .prim .null, ctx, H => .ok (.constant .cnull, ctx, H)
  | .ref a, ctx, H => parseObjectAsyncE P a ctx H

/-- The asynchronous tree parser with explicit fuel (awaits only sequence
execution for this universe). -/
def parseAsyncE : Nat → ParseFn
  | 0, _, _, _ => .error .outOfFuel
  | Nat.succ fuel, v, ctx, H => parseAsyncStepE (parseAsyncE fuel) v ctx H

/-- `parseObject(ctx, current)` of the cross parser (core/cross/async.ts,
lines 561–717), restricted to the universe.  The id logic is inline:
`ctx.refs.get(current)` short-circuits to an `IndexedValue`, otherwise
`id := ctx.refs.size` is registered.  The dispatch tail (Map/Set feature
guards, the `Feature.Symbol` iterable fallback, the terminal throw) matches
the async tree parser. -/
def parseObjectCrossE (P : ParseFn) (a : Nat) (ctx : PCtx) (H : Heap) :
    Except PErr (Node × PCtx × Heap) :=
  match ctx.refs.lookup a with
  | some registeredID => .ok (.indexedValue registeredID, ctx, H)
  | none =>
    let id := ctx.refs.length
    let ctx1 := { ctx with refs := ctx.refs ++ [(a, id)] }
    if hasReferenceIDE ctx1 a then
      .ok (.reference id (serializeStringM (getReferenceIDE ctx1 a)), ctx1, H)
    else
      match H.get? a with
      | some (.arr xs) => generateArrayNodeE P id xs ctx1 H
      | some (.obj props) =>
        generateObjectNodeE P createCrossIndexedValueME id (.obj props) false ctx1 H
      | some (.mapObj entries) =>
        if ctx1.features.map then generateMapCoreE P id entries ctx1 H
        else if ctx1.features.symbol then
          generateObjectNodeE P createCrossIndexedValueME id (.mapObj entries) true ctx1 H
        else .error .unsupportedType
      | some (.setObj elems) =>
        if ctx1.features.set then generateSetCoreE P id elems ctx1 H
        else if ctx1.features.symbol then
          generateObjectNodeE P createCrossIndexedValueME id (.setObj elems) true ctx1 H
        else .error .unsupportedType
      | none => .error .unsupportedType

/-- One step of `crossParseAsync` (core/cross/async.ts, lines 719–746). -/
def parseCrossStepE (P : ParseFn) : JSVal → PCtx → Heap → Except PErr (Node × PCtx × Heap)
  | .prim (.bigint n), ctx, H =>
    if ctx.features.bigInt then .ok (.bigint n, ctx, H) else .error .unsupportedType
  | .prim (.bool b), ctx, H => .ok (.constant (if b then .ctrue else .cfalse), ctx, H)
  | .prim .undef, ctx, H => .ok (.constant .cundefined, ctx, H)
  | .prim (.str s), ctx, H => .ok (createStringNodeE s, ctx, H)
  | .prim (.num n), ctx, H => .ok (createNumberNodeE n, ctx, H)
  | .prim .null, ctx, H => .ok (.constant .cnull, ctx, H)
  | .ref a, ctx, H => parseObjectCrossE P a ctx H

/-- The cross parser with explicit fuel. -/
def parseCrossE : Nat → ParseFn
  | 0, _, _, _ => .error .outOfFuel
  | Nat.succ fuel, v, ctx, H => parseCrossStepE (parseCrossE fuel) v ctx H

/-! ## Reconstruction (`fromJSON`), modelled from the spec

The tree deserializer is out of src/ (the spec lists it among the external
collaborators as "mechanical").  It is modelled from the spec: walk the IR
depth first, keep an id → value table, register each id-carrying node in the
table, and resolve an `IndexedValue` by looking its id up (a map lookup that
yields `undefined` when the id has not been registered).  The model covers
the node fragment the embedded parsers emit and is used on acyclic inputs,
so a node is registered once its value is built. -/

/-- A reconstructed runtime value; the label on a non-primitive is the node id
that produced it, so label equality is reference identity. -/
inductive TVal where
  | prim (p : JSPrim)
  | tarr (i : Nat) (xs : List (Option TVal))
  | tobj (i : Nat) (props : List (String × TVal))
  | tmap (i : Nat) (entries : List (TVal × TVal))
  | tset (i : Nat) (xs : List TVal)
deriving Repr

/-- The constant nodes' runtime values. -/
def constantValue : SerovalConstant → JSPrim
  | .cnull => .null
  | .cundefined => .undef
  | .ctrue => .bool true
  | .cfalse => .bool false
  | .negZero => .num .negZero
  | .infinity => .num .inf
  | .negInfinity => .num .negInf
  | .nan => .num .nan

/-- Element list reconstruction with a recursive handle. -/
def fromJSONListM (R : Node → List (Nat × TVal) → TVal × List (Nat × TVal)) :
    List (Option Node) → List (Nat × TVal) → List (Option TVal) × List (Nat × TVal)
  | [], tbl => ([], tbl)
  | none :: rest, tbl =>
    let (vs, tbl1) := fromJSONListM R rest tbl
    (none :: vs, tbl1)
  | some n :: rest, tbl =>
    let (v, tbl1) := R n tbl
    let (vs, tbl2) := fromJSONListM R rest tbl1
    (some v :: vs, tbl2)

/-- Property-record reconstruction with a recursive handle; the
`SymbolIterator` sentinel is kept under a distinguished key. -/
def fromJSONPropsM (R : Node → List (Nat × TVal) → TVal × List (Nat × TVal)) :
    List RecordKey → List Node → List (Nat × TVal) →
    List (String × TVal) × List (Nat × TVal)
  | [], _, tbl => ([], tbl)
  | k :: ks, vs, tbl =>
    let v := vs.headD (Node.constant .cundefined)
    let (tv, tbl1) := R v tbl
    let key := match k with
      | .str s => s
      | .symbolIterator => "Symbol.iterator"
    let (rest, tbl2) := fromJSONPropsM R ks (vs.tailD []) tbl1
    ((key, tv) :: rest, tbl2)

/-- Map-record reconstruction with a recursive handle. -/
def fromJSONEntriesM (R : Node → List (Nat × TVal) → TVal × List (Nat × TVal)) :
    List Node → List Node → List (Nat × TVal) →
    List (TVal × TVal) × List (Nat × TVal)
  | [], _, tbl => ([], tbl)
  | k :: ks, vs, tbl =>
    let (kv, tbl1) := R k tbl
    let (vv, tbl2) := R (vs.headD (Node.constant .cundefined)) tbl1
    let (rest, tbl3) := fromJSONEntriesM R ks (vs.tailD []) tbl2
    ((kv, vv) :: rest, tbl3)

/-- Set-element reconstruction with a recursive handle. -/
def fromJSONElemsM (R : Node → List (Nat × TVal) → TVal × List (Nat × TVal)) :
    List Node → List (Nat × TVal) → List TVal × List (Nat × TVal)
  | [], tbl => ([], tbl)
  | n :: rest, tbl =>
    let (v, tbl1) := R n tbl
    let (vs, tbl2) := fromJSONElemsM R rest tbl1
    (v :: vs, tbl2)

/-- Modelled from the spec: `fromJSON` over the node fragment produced by the
embedded parsers.  An `IndexedValue` resolves through the table and is
`undefined` when the id is absent; every id-carrying node registers itself.
Tags outside the fragment reconstruct as `undefined`. -/
def fromJSONM : Nat → Node → List (Nat × TVal) → TVal × List (Nat × TVal)
  | 0, _, tbl => (.prim .undef, tbl)
  | Nat.succ fuel, node, tbl =>
    match node with
    | .constant s => (.prim (constantValue s), tbl)
    | .num n => (.prim (.num (.int n)), tbl)
    | .str s => (.prim (.str s), tbl)
    | .bigint n => (.prim (.bigint n), tbl)
    | .indexedValue i => ((tbl.lookup i).getD (.prim .undef), tbl)
    | .array i _ a _ =>
      let (xs, tbl1) := fromJSONListM (fromJSONM fuel) a tbl
      (.tarr i xs, tbl1 ++ [(i, .tarr i xs)])
    | .object i pk pv _ _ =>
      let (props, tbl1) := fromJSONPropsM (fromJSONM fuel) pk pv tbl
      (.tobj i props, tbl1 ++ [(i, .tobj i props)])
    | .nullConstructor i pk pv _ _ =>
      let (props, tbl1) := fromJSONPropsM (fromJSONM fuel) pk pv tbl
      (.tobj i props, tbl1 ++ [(i, .tobj i props)])
    | .mapNode i ek ev _ =>
      let (entries, tbl1) := fromJSONEntriesM (fromJSONM fuel) ek ev tbl
      (.tmap i entries, tbl1 ++ [(i, .tmap i entries)])
    | .setNode i _ a =>
      let (xs, tbl1) := fromJSONElemsM (fromJSONM fuel) a tbl
      (.tset i xs, tbl1 ++ [(i, .tset i xs)])
    | _ => (.prim .undef, tbl)

/-- Structural equality between an input heap value and a reconstructed value
(labels ignored): the relation the round-trip claim asserts.  Keys compare
against their escaped form, which is the identity on the plain keys used
here. -/
def structEqB (H : Heap) : Nat → JSVal → TVal → Bool
  | 0, _, _ => false
  | Nat.succ _, .prim p, t =>
    match t with
    | .prim q => p = q
    | _ => false
  | Nat.succ fuel, .ref a, t =>
    match H.get? a, t with
    | some (.arr xs), .tarr _ ys =>
      xs.length = ys.length &&
        (List.zip xs ys).all (fun p =>
          match p with
          | (none, none) => true
          | (some v, some w) => structEqB H fuel v w
          | _ => false)
    | some (.obj ps), .tobj _ qs =>
      ps.length = qs.length &&
        (List.zip ps qs).all (fun p =>
          serializeStringM p.1.1 = p.2.1 && structEqB H fuel p.1.2 p.2.2)
    | some (.mapObj es), .tmap _ fs =>
      es.length = fs.length &&
        (List.zip es fs).all (fun p =>
          structEqB H fuel p.1.1 p.2.1 && structEqB H fuel p.1.2 p.2.2)
    | some (.setObj es), .tset _ fs =>
      es.length = fs.length &&
        (List.zip es fs).all (fun p => structEqB H fuel p.1 p.2)
    | _, _ => false

/-- Modelled from the spec, §4.6/§6/§8: the self-contained `serialize` entry
(core/tree/index.ts absent from src/): parse, then run the base serializer on
the root with the parse's `markedRefs`; with no marked id the bare expression
is returned (§8 pins `serialize(1/0) === "1/0"` and `serialize({a:1})` →
`({a:1})`), otherwise the bindings are closed over by an IIFE
(`(function(v0,…){return vRoot})()`; its patch suffix is omitted — the claims
use this wrapper only on inputs producing no patches). -/
def serializeTopM (fuel : Nat) (fx : Features) (v : JSVal) (H : Heap) :
    Except PErr String :=
  match parseSyncE fuel v (initPCtx fx) H with
  | .error e => .error e
  | .ok (node, ctx, _) =>
    let (text, stF) := serializeE vanillaFns fuel node (initSState fx ctx.marked)
    if stF.marked.isEmpty then .ok text
    else
      .ok ("(function(" ++
        String.intercalate "," (stF.marked.map (fun id => "v" ++ toString id)) ++
        ")\x7breturn " ++ text ++ "\x7d)()")

/-! ## Streaming driver (core/Serializer.ts, in src/)

The `Serializer` class as a labelled transition system.  `refs`/`specials`
are opaque to the class logic and omitted.  A `write` registers one root and
one cleanup with `crossSerializeStream`; that stream later delivers `chunk`
events (its `onSerialize` callback) and exactly one `complete` event (its
`onDone` callback) — the events are the inputs of the transition system and
their well-formedness is a hypothesis where needed. -/

/-- The constructor options the class logic reads: `globalIdentifier` and
whether an `onDone` callback was configured (`onDone?`). -/
structure DOpts where
  globalIdentifier : String
  onDoneSet : Bool
deriving Repr, DecidableEq

/-- The fields of `Serializer`. -/
structure DState where
  alive : Bool
  flushed : Bool
  done : Bool
  pending : Int
  cleanups : Nat
  keys : List String
  ids : Nat
deriving Repr, DecidableEq

/-- The field initializers of `Serializer`. -/
def initDState : DState := ⟨true, false, false, 0, 0, [], 0⟩

/-- Driver inputs: the public calls and the per-root stream callbacks. -/
inductive DEv where
  | write (key : String)
  | push
  | flush
  | close
  | chunk (key : String) (data : String) (initial : Bool)
  | complete
deriving Repr, DecidableEq

/-- Whether an event is a `close()` call. -/
def isCloseEv : DEv → Bool
  | .close => true
  | _ => false

/-- User-visible callback deliveries. -/
inductive DOut where
  | data (s : String)
  | doneSignal
  | cleanupRun (i : Nat)
deriving Repr, DecidableEq

/-- `write(key, value)`: guarded by `alive && !flushed`; increments `pending`,
adds the key, registers a cleanup. -/
def writeD (st : DState) (key : String) : DState :=
  if st.alive && !st.flushed then
    { st with
      pending := st.pending + 1
      keys := if st.keys.contains key then st.keys else st.keys ++ [key]
      cleanups := st.cleanups + 1 }
  else st

/-- The `while (this.keys.has('' + this.ids)) this.ids++` loop of
`getNextID`, with enough fuel for the finite key set. -/
def getNextIDAux : Nat → DState → String × DState
  | 0, st => (toString st.ids, st)
  | Nat.succ fu, st =>
    if st.keys.contains (toString st.ids) then
      getNextIDAux fu { st with ids := st.ids + 1 }
    else (toString st.ids, st)

/-- `getNextID()`. -/
def getNextIDD (st : DState) : String × DState :=
  getNextIDAux (st.keys.length + 1) st

/-- One transition of the driver. -/
def stepD (opts : DOpts) (st : DState) : DEv → DState × List DOut
  | .write key => (writeD st key, [])
  | .push =>
    let (newID, st1) := getNextIDD st
    (writeD st1 newID, [])
  | .flush =>
    if st.alive then
      let st1 := { st with flushed := true }
      if decide (st1.pending ≤ 0) && !st1.done && opts.onDoneSet then
        ({ st1 with done := true }, [.doneSignal])
      else (st1, [])
    else (st, [])
  | .close =>
    if st.alive then
      let outs := (List.range st.cleanups).map DOut.cleanupRun
      if !st.done && opts.onDoneSet then
        ({ st with done := true, alive := false }, outs ++ [.doneSignal])
      else ({ st with alive := false }, outs)
    else (st, [])
  | .chunk key data initial =>
    if st.alive then
      (st, [.data (if initial then
        opts.globalIdentifier ++ "[\"" ++ serializeStringM key ++ "\"]=" ++ data
      else data)])
    else (st, [])
  | .complete =>
    if st.alive then
      let st1 := { st with pending := st.pending - 1 }
      if decide (st1.pending ≤ 0) && st1.flushed && !st1.done && opts.onDoneSet then
        ({ st1 with done := true }, [.doneSignal])
      else (st1, [])
    else (st, [])

/-- Run the driver over an event trace. -/
def runD (opts : DOpts) : DState → List DEv → DState
  | st, [] => st
  | st, e :: tr => runD opts (stepD opts st e).1 tr

/-- The callback deliveries over an event trace. -/
def outsD (opts : DOpts) : DState → List DEv → List DOut
  | _, [] => []
  | st, e :: tr => (stepD opts st e).2 ++ outsD opts (stepD opts st e).1 tr

/-- Trace well-formedness: a per-root `complete` only arrives while a root is
outstanding (`pending > 0`). -/
def validD (opts : DOpts) : DState → List DEv → Bool
  | _, [] => true
  | st, e :: tr =>
    (match e with
     | .complete => decide (0 < st.pending)
     | _ => true) && validD opts (stepD opts st e).1 tr

/-- A trace with no `close()` call. -/
def closeFreeD (tr : List DEv) : Bool := tr.all (fun e => !isCloseEv e)

/-- How many times the `onDone` callback is delivered over a trace from a
fresh `Serializer`. -/
def doneCountD (opts : DOpts) (tr : List DEv) : Nat :=
  (outsD opts initDState tr).count DOut.doneSignal

/-! ## Canonical slot view of `serializeArray` (for C5)

`serializeArray`'s `values`/`isHoley` loop is re-expressed as the list of
per-index slot strings; the claim's length/hole/trailing-comma facts are
stated against this view. -/

/-- The slot strings of `node.a[i] … node.a[i+c-1]`, threading the same state
as the emission loop. -/
def arraySlotsE (F : SubFns) (S : SerFn) (id : Nat) (a : List (Option Node)) :
    Nat → Nat → SState → List String × SState
  | _, 0, st => ([], st)
  | i, Nat.succ c, st =>
    let (s0, st1) := serializeArrayItemE F S id (a.getD i none) i st
    let (rest, st2) := arraySlotsE F S id a (i + 1) c st1
    (s0 :: rest, st2)

/-- Comma-joined slot list (the `values` accumulator of the loop). -/
def joinSlots : List String → String
  | [] => ""
  | s0 :: rest => s0 ++ String.join (rest.map (fun s1 => "," ++ s1))

/-- The final `isHoley` flag: whether the last slot is empty (`hol` when
there is no slot). -/
def lastHol (slots : List String) (hol : Bool) : Bool :=
  match slots.getLast? with
  | some x => decide (x = "")
  | none => hol

/-! ### Parser-context invariants (towards C4) -/

/-- The reference table stores at position `k` the pair whose id is `k`:
`id := refs.size` at insertion time keeps ids equal to table positions. -/
def refsOrdered (rs : List (Nat × Nat)) : Prop :=
  ∀ k p, rs.get? k = some p → p.2 = k

/-- The reference table only ever grows at the tail. -/
def refsExtends (c c' : PCtx) : Prop := ∃ t, c'.refs = c.refs ++ t

/-- Well-formedness of a parser context: ids are table positions, and every
marked id is an allocated id. -/
def ctxWF (c : PCtx) : Prop :=
  refsOrdered c.refs ∧ ∀ m ∈ c.marked, m < c.refs.length

/-- The effect of one parsing step on the context. -/
def pctxStep (c c' : PCtx) : Prop := refsExtends c c' ∧ (ctxWF c → ctxWF c')

/-- A parse handle that only extends the table and preserves well-formedness
on success. -/
def ParsePres (P : ParseFn) : Prop :=
  ∀ v ctx H n ctx' H', P v ctx H = .ok (n, ctx', H') → pctxStep ctx ctx'

/-- An id-assignment function that only extends the table and preserves
well-formedness. -/
def AllocPres (alloc : PCtx → Nat → Nat × PCtx) : Prop :=
  ∀ ctx a, pctxStep ctx (alloc ctx a).2

/-! ## Concrete inputs used by the claims -/

/-- Whether an `Except` succeeded. -/
def exceptIsOk {ε α : Type} : Except ε α → Bool
  | .ok _ => true
  | .error _ => false

/-- The feature mask with `Feature.Map` disabled. -/
def fxNoMap : Features := { allFeatures with map := false }

/-- The feature mask with `Feature.Map` and `Feature.Symbol` disabled. -/
def fxNoMapNoSym : Features := { allFeatures with map := false, symbol := false }

/-- The heap of `v = [m, {c: m}]` with `m = new Map([["x", 1]])`: address 0 is
the array, address 1 the inner object, address 2 the shared Map. -/
def c1Heap : Heap :=
  [.arr [some (.ref 2), some (.ref 1)],
   .obj [("c", .ref 2)],
   .mapObj [(.prim (.str "x"), .prim (.num (.int 1)))]]

/-- The IR the sync parser produces for `c1Heap`: the deferral of the iterable
`m` at index 0 makes the Map's full node live inside `b`, so index 0 becomes a
forward `IndexedValue`. -/
def c1Node : Node :=
  .array 0 2
    [some (.indexedValue 2),
     some (.object 1 [.str "c"] [.mapNode 2 [.str "x"] [.num 1] 1] 1 .none)]
    .none

/-- The reconstruction of `c1Node`: index 0 resolves before id 2 is
registered and is `undefined`. -/
def c1Reconstructed : TVal :=
  .tarr 0
    [some (.prim .undef),
     some (.tobj 1 [("c", .tmap 2 [(.prim (.str "x"), .prim (.num (.int 1)))])])]

/-- The entries of the Map used by the `Feature.Map`-disabled scenarios. -/
def c2Entries : List (JSVal × JSVal) := [(.prim (.str "x"), .prim (.num (.int 1)))]

/-- A heap holding only `new Map([["x", 1]])` at address 0. -/
def c2Heap : Heap := [.mapObj c2Entries]

/-- What the async and cross parsers produce for that Map when `Feature.Map`
is off and `Feature.Symbol` is on: a `NullConstructor` object node whose only
record entry is the `SymbolIterator` sentinel holding the materialized
entries. -/
def c2FallbackNode : Node :=
  .nullConstructor 0 [.symbolIterator]
    [.array 1 1 [some (.array 2 2 [some (.str "x"), some (.num 1)] .none)] .none]
    1 .none

/-- The parser context after the `Feature.Map`-disabled fallback parse. -/
def c2FallbackCtx : PCtx := ⟨fxNoMap, [(0, 0), (2, 1), (1, 2)], [], []⟩

/-- The heap after the fallback parse: `Array.from(map)` allocated the pair
array (address 1) and the items array (address 2). -/
def c2FallbackHeap : Heap :=
  [.mapObj c2Entries,
   .arr [some (.prim (.str "x")), some (.prim (.num (.int 1)))],
   .arr [some (.ref 1)]]

/-- The Map node of the `serializeMapEntry` scenarios: map id 0; the marked
shared array node `[7]` with id 1 on one side and the Map itself
(`IndexedValue 0`, on the stack during entry serialization) on the other. -/
def c3KeyOnStackNode : Node :=
  .mapNode 0 [.indexedValue 0] [.array 1 1 [some (.num 7)] .none] 1

/-- The symmetric scenario: the shared marked array is the key and the Map
itself is the value. -/
def c3ValueOnStackNode : Node :=
  .mapNode 0 [.array 1 1 [some (.num 7)] .none] [.indexedValue 0] 1

/-- A serializer state whose stack holds id 1 (the promise payload's id). -/
def c6St : SState := { initSState allFeatures [] with stack := [1] }

/-- Driver options with a configured `onDone`. -/
def dOptsEx : DOpts := ⟨"self", true⟩

/-- The driver state after `write("0"); close()`. -/
def c8Closed : DState := runD dOptsEx initDState [.write "0", .close]

/-- The recursive-handle hypothesis used by all stack lemmas. -/
def StackPres (S : SerFn) : Prop :=
  ∀ (n : Node) (st : SState), (S n st).2.stack = st.stack

/-! ## Claim theorems -/

/-! ### Stack preservation of the serializer (towards C10) -/

/-- Transport a `stack` fact along a pair equation. -/
theorem stateOfEq {α : Type} {p : α × SState} {x : α} {st1 : SState} {z : List Nat}
    (h1 : p = (x, st1)) (h2 : p.2.stack = z) : st1.stack = z := by
  rw [h1] at h2
  exact h2

/-- Transport a `stack` fact along a triple equation. -/
theorem stateOfEq2 {α β : Type} {p : α × β × SState} {x : α} {y : β} {st1 : SState}
    {z : List Nat} (h1 : p = (x, y, st1)) (h2 : p.2.2.stack = z) : st1.stack = z := by
  rw [h1] at h2
  exact h2

@[simp]
theorem markRefE_stk (st : SState) (id : Nat) : (markRefE st id).stack = st.stack := rfl

@[simp]
theorem createAssignmentE_stk (st : SState) (s v : String) :
    (createAssignmentE st s v).stack = st.stack := rfl

@[simp]
theorem createAddAssignmentE_stk (F : SubFns) (st : SState) (r : Nat) (v : String) :
    (createAddAssignmentE F st r v).stack = st.stack := rfl

@[simp]
theorem createSetAssignmentE_stk (F : SubFns) (st : SState) (r : Nat) (k v : String) :
    (createSetAssignmentE F st r k v).stack = st.stack := rfl

@[simp]
theorem createArrayAssignE_stk (F : SubFns) (st : SState) (r : Nat) (i v : String) :
    (createArrayAssignE F st r i v).stack = st.stack := rfl

@[simp]
theorem createObjectAssignE_stk (F : SubFns) (st : SState) (r : Nat) (k v : String) :
    (createObjectAssignE F st r k v).stack = st.stack := rfl

@[simp]
theorem deferE_stk (st : SState) (id : Nat) (v : String) :
    (deferE st id v).stack = st.stack := rfl

@[simp]
theorem pushObjectFlagE_stk (F : SubFns) (st : SState) (flag : SerovalObjectFlags) (id : Nat) :
    (pushObjectFlagE F st flag id).stack = st.stack := by
  unfold pushObjectFlagE
  split <;> rfl

theorem pushStackE_stk (st : SState) (id : Nat) :
    (pushStackE st id).stack = st.stack ++ [id] := rfl

theorem popStackE_stk (st : SState) : (popStackE st).stack = st.stack.dropLast := rfl

/-- Popping a freshly pushed id restores the stack. -/
theorem dropLast_concat_stack (l : List Nat) (id : Nat) : (l ++ [id]).dropLast = l := by
  simp

theorem serializeIterableE_stk (F : SubFns) (S : SerFn) (node : Node) (st : SState) :
    (serializeIterableE F S node st).2.stack = st.stack := by
  simp only [serializeIterableE]

theorem serializeArrayItemE_stk (F : SubFns) (S : SerFn) (hS : StackPres S) (id : Nat)
    (item : Option Node) (index : Nat) (st : SState) :
    (serializeArrayItemE F S id item index st).2.stack = st.stack := by
  cases item with
  | none => rfl
  | some n =>
    simp only [serializeArrayItemE]
    split
    · simp
    · exact hS n st

theorem serializeArrayLoopE_stk (F : SubFns) (S : SerFn) (hS : StackPres S) (id : Nat)
    (a : List (Option Node)) :
    ∀ (c i : Nat) (values : String) (hol : Bool) (st : SState),
      (serializeArrayLoopE F S id a i c values hol st).2.2.stack = st.stack := by
  intro c
  induction c with
  | zero => intro i values hol st; rfl
  | succ c ih =>
    intro i values hol st
    simp only [serializeArrayLoopE]
    rcases h1 : serializeArrayItemE F S id (a.getD i none) i st with ⟨item, st1⟩
    have h2 : st1.stack = st.stack :=
      stateOfEq h1 (serializeArrayItemE_stk F S hS id (a.getD i none) i st)
    rw [ih]
    exact h2

theorem serializeArrayE_stk (F : SubFns) (S : SerFn) (hS : StackPres S) (i l : Nat)
    (a : List (Option Node)) (o : SerovalObjectFlags) (st : SState) :
    (serializeArrayE F S i l a o st).2.stack = st.stack := by
  simp only [serializeArrayE]
  split
  · rcases h1 : serializeArrayItemE F S i (a.getD 0 none) 0 (pushStackE st i) with ⟨v0, st2⟩
    have h2 : st2.stack = st.stack ++ [i] :=
      stateOfEq h1 (serializeArrayItemE_stk F S hS i (a.getD 0 none) 0 (pushStackE st i))
    rcases h3 : serializeArrayLoopE F S i a 1 (l - 1) v0 (decide (v0 = "")) st2
      with ⟨values, isHoley, st3⟩
    have h4 : st3.stack = st2.stack :=
      stateOfEq2 h3 (serializeArrayLoopE_stk F S hS i a (l - 1) 1 v0 (decide (v0 = "")) st2)
    simp [popStackE_stk, h4, h2]
  · rfl

theorem serializePropertyE_stk (F : SubFns) (S : SerFn) (hS : StackPres S) (id : Nat)
    (key : RecordKey) (val : Node) (st : SState) :
    (serializePropertyE F S id key val st).2.stack = st.stack := by
  cases key with
  | symbolIterator => exact serializeIterableE_stk F S val st
  | str k =>
    simp only [serializePropertyE]
    split
    · split <;> simp
    · rcases h1 : S val st with ⟨s0, st1⟩
      exact stateOfEq h1 (hS val st)

theorem serializePropsLoopE_stk (F : SubFns) (S : SerFn) (hS : StackPres S) (id : Nat)
    (pk : List RecordKey) (pv : List Node) :
    ∀ (c i : Nat) (result prev : String) (st : SState),
      (serializePropsLoopE F S id pk pv i c result prev st).2.stack = st.stack := by
  intro c
  induction c with
  | zero => intro i result prev st; rfl
  | succ c ih =>
    intro i result prev st
    simp only [serializePropsLoopE]
    rcases h1 : serializePropertyE F S id (pk.getD i (.str "")) (pv.getD i (.constant .cundefined)) st
      with ⟨item, st1⟩
    have h2 : st1.stack = st.stack :=
      stateOfEq h1 (serializePropertyE_stk F S hS id (pk.getD i (.str ""))
        (pv.getD i (.constant .cundefined)) st)
    rw [ih]
    exact h2

theorem serializePropertiesE_stk (F : SubFns) (S : SerFn) (hS : StackPres S) (sourceID : Nat)
    (pk : List RecordKey) (pv : List Node) (ps : Nat) (st : SState) :
    (serializePropertiesE F S sourceID pk pv ps st).2.stack = st.stack := by
  simp only [serializePropertiesE]
  split
  · rcases h1 : serializePropertyE F S sourceID (pk.getD 0 (.str ""))
      (pv.getD 0 (.constant .cundefined)) (pushStackE st sourceID) with ⟨r0, st2⟩
    have h2 : st2.stack = st.stack ++ [sourceID] :=
      stateOfEq h1 (serializePropertyE_stk F S hS sourceID (pk.getD 0 (.str ""))
        (pv.getD 0 (.constant .cundefined)) (pushStackE st sourceID))
    rcases h3 : serializePropsLoopE F S sourceID pk pv 1 (ps - 1) r0 r0 st2
      with ⟨result, st3⟩
    have h4 : st3.stack = st2.stack :=
      stateOfEq h3 (serializePropsLoopE_stk F S hS sourceID pk pv (ps - 1) 1 r0 r0 st2)
    simp [popStackE_stk, h4, h2]
  · rfl

theorem serializeObjectE_stk (F : SubFns) (S : SerFn) (hS : StackPres S) (i : Nat)
    (pk : List RecordKey) (pv : List Node) (ps : Nat) (o : SerovalObjectFlags) (st : SState) :
    (serializeObjectE F S i pk pv ps o st).2.stack = st.stack := by
  simp only [serializeObjectE]
  rcases h1 : serializePropertiesE F S i pk pv ps (pushObjectFlagE F st o i) with ⟨fields, st2⟩
  have h2 : st2.stack = (pushObjectFlagE F st o i).stack :=
    stateOfEq h1 (serializePropertiesE_stk F S hS i pk pv ps (pushObjectFlagE F st o i))
  simpa using h2

theorem serializeWithObjectAssignE_stk (F : SubFns) (S : SerFn) (hS : StackPres S)
    (pk : List RecordKey) (pv : List Node) (ps : Nat) (id : Nat) (serialized : String)
    (st : SState) :
    (serializeWithObjectAssignE F S pk pv ps id serialized st).2.stack = st.stack := by
  simp only [serializeWithObjectAssignE]
  rcases h1 : serializePropertiesE F S id pk pv ps st with ⟨fields, st1⟩
  have h2 : st1.stack = st.stack :=
    stateOfEq h1 (serializePropertiesE_stk F S hS id pk pv ps st)
  split <;> exact h2

theorem serializeAssignmentE_stk (F : SubFns) (S : SerFn) (hS : StackPres S) (sourceID : Nat)
    (main : List Assignment) (key : RecordKey) (value : Node) (st : SState) :
    (serializeAssignmentE F S sourceID main key value st).2.stack = st.stack := by
  cases key with
  | symbolIterator =>
    simp [serializeAssignmentE]
  | str k =>
    simp only [serializeAssignmentE]
    rcases h1 : S value st with ⟨serialized, st1⟩
    have h2 : st1.stack = st.stack := stateOfEq h1 (hS value st)
    split
    · split <;> simp [h2]
    · split <;> simp [h2]

theorem serializeAssignsLoopE_stk (F : SubFns) (S : SerFn) (hS : StackPres S) (sourceID : Nat)
    (pk : List RecordKey) (pv : List Node) :
    ∀ (c i : Nat) (main : List Assignment) (st : SState),
      (serializeAssignsLoopE F S sourceID pk pv i c main st).2.stack = st.stack := by
  intro c
  induction c with
  | zero => intro i main st; rfl
  | succ c ih =>
    intro i main st
    simp only [serializeAssignsLoopE]
    rcases h1 : serializeAssignmentE F S sourceID main (pk.getD i (.str ""))
      (pv.getD i (.constant .cundefined)) st with ⟨main1, st1⟩
    have h2 : st1.stack = st.stack :=
      stateOfEq h1 (serializeAssignmentE_stk F S hS sourceID main (pk.getD i (.str ""))
        (pv.getD i (.constant .cundefined)) st)
    rw [ih]
    exact h2

theorem serializeAssignmentsE_stk (F : SubFns) (S : SerFn) (hS : StackPres S) (sourceID : Nat)
    (pk : List RecordKey) (pv : List Node) (ps : Nat) (st : SState) :
    (serializeAssignmentsE F S sourceID pk pv ps st).2.stack = st.stack := by
  simp only [serializeAssignmentsE]
  split
  · rcases h1 : serializeAssignsLoopE F S sourceID pk pv 0 ps [] (pushStackE st sourceID)
      with ⟨main1, st2⟩
    have h2 : st2.stack = st.stack ++ [sourceID] :=
      stateOfEq h1
        (serializeAssignsLoopE_stk F S hS sourceID pk pv ps 0 [] (pushStackE st sourceID))
    simp [popStackE_stk, h2]
  · rfl

theorem serializeDictionaryE_stk (F : SubFns) (S : SerFn) (hS : StackPres S) (i : Nat)
    (p : Option (List RecordKey × List Node × Nat)) (init : String) (st : SState) :
    (serializeDictionaryE F S i p init st).2.stack = st.stack := by
  cases p with
  | none => rfl
  | some rec1 =>
    rcases rec1 with ⟨pk, pv, ps⟩
    simp only [serializeDictionaryE]
    split
    · rcases h1 : serializeWithObjectAssignE F S pk pv ps i init st with ⟨init1, st1⟩
      exact stateOfEq h1 (serializeWithObjectAssignE_stk F S hS pk pv ps i init st)
    · rcases h1 : serializeAssignmentsE F S i pk pv ps (markRefE st i) with ⟨assigns, st2⟩
      have h2 : st2.stack = st.stack :=
        stateOfEq h1 (serializeAssignmentsE_stk F S hS i pk pv ps (markRefE st i))
      cases assigns <;> simpa using h2

theorem serializeSetItemE_stk (F : SubFns) (S : SerFn) (hS : StackPres S) (id : Nat)
    (item : Node) (st : SState) :
    (serializeSetItemE F S id item st).2.stack = st.stack := by
  simp only [serializeSetItemE]
  split
  · simp
  · exact hS item st

theorem serializeSetLoopE_stk (F : SubFns) (S : SerFn) (hS : StackPres S) (id : Nat)
    (items : List Node) :
    ∀ (c i : Nat) (result prev : String) (st : SState),
      (serializeSetLoopE F S id items i c result prev st).2.stack = st.stack := by
  intro c
  induction c with
  | zero => intro i result prev st; rfl
  | succ c ih =>
    intro i result prev st
    simp only [serializeSetLoopE]
    rcases h1 : serializeSetItemE F S id (items.getD i (.constant .cundefined)) st
      with ⟨item, st1⟩
    have h2 : st1.stack = st.stack :=
      stateOfEq h1 (serializeSetItemE_stk F S hS id (items.getD i (.constant .cundefined)) st)
    rw [ih]
    exact h2

theorem serializeSetE_stk (F : SubFns) (S : SerFn) (hS : StackPres S) (i l : Nat)
    (items : List Node) (st : SState) :
    (serializeSetE F S i l items st).2.stack = st.stack := by
  simp only [serializeSetE]
  split
  · rcases h1 : serializeSetItemE F S i (items.getD 0 (.constant .cundefined)) (pushStackE st i)
      with ⟨r0, st2⟩
    have h2 : st2.stack = st.stack ++ [i] :=
      stateOfEq h1 (serializeSetItemE_stk F S hS i (items.getD 0 (.constant .cundefined))
        (pushStackE st i))
    rcases h3 : serializeSetLoopE F S i items 1 (l - 1) r0 r0 st2 with ⟨result, st3⟩
    have h4 : st3.stack = st2.stack :=
      stateOfEq h3 (serializeSetLoopE_stk F S hS i items (l - 1) 1 r0 r0 st2)
    simp [popStackE_stk, h4, h2]
  · rfl

theorem serializeMapEntryE_stk (F : SubFns) (S : SerFn) (hS : StackPres S) (id : Nat)
    (key val : Node) (st : SState) :
    (serializeMapEntryE F S id key val st).2.stack = st.stack := by
  simp only [serializeMapEntryE]
  split
  · split
    · simp
    · split
      · simp
      · simp
  · split
    · split
      · simp
      · simp
    · rcases h1 : S key st with ⟨ks, st1⟩
      have h2 : st1.stack = st.stack := stateOfEq h1 (hS key st)
      rcases h3 : S val st1 with ⟨vs, st2⟩
      have h4 : st2.stack = st1.stack := stateOfEq h3 (hS val st1)
      simp [h4, h2]

theorem serializeMapLoopE_stk (F : SubFns) (S : SerFn) (hS : StackPres S) (id : Nat)
    (ek ev : List Node) :
    ∀ (c i : Nat) (result prev : String) (st : SState),
      (serializeMapLoopE F S id ek ev i c result prev st).2.stack = st.stack := by
  intro c
  induction c with
  | zero => intro i result prev st; rfl
  | succ c ih =>
    intro i result prev st
    simp only [serializeMapLoopE]
    rcases h1 : serializeMapEntryE F S id (ek.getD i (.constant .cundefined))
      (ev.getD i (.constant .cundefined)) st with ⟨item, st1⟩
    have h2 : st1.stack = st.stack :=
      stateOfEq h1 (serializeMapEntryE_stk F S hS id (ek.getD i (.constant .cundefined))
        (ev.getD i (.constant .cundefined)) st)
    rw [ih]
    exact h2

theorem serializeMapE_stk (F : SubFns) (S : SerFn) (hS : StackPres S) (i : Nat)
    (ek ev : List Node) (es : Nat) (st : SState) :
    (serializeMapE F S i ek ev es st).2.stack = st.stack := by
  simp only [serializeMapE]
  split
  · rcases h1 : serializeMapEntryE F S i (ek.getD 0 (.constant .cundefined))
      (ev.getD 0 (.constant .cundefined)) (pushStackE st i) with ⟨r0, st2⟩
    have h2 : st2.stack = st.stack ++ [i] :=
      stateOfEq h1 (serializeMapEntryE_stk F S hS i (ek.getD 0 (.constant .cundefined))
        (ev.getD 0 (.constant .cundefined)) (pushStackE st i))
    rcases h3 : serializeMapLoopE F S i ek ev 1 (es - 1) r0 r0 st2 with ⟨result, st3⟩
    have h4 : st3.stack = st2.stack :=
      stateOfEq h3 (serializeMapLoopE_stk F S hS i ek ev (es - 1) 1 r0 r0 st2)
    simp [popStackE_stk, h4, h2]
  · rfl

theorem serializePromiseE_stk (F : SubFns) (S : SerFn) (hS : StackPres S) (i : Nat)
    (s : Bool) (f : Node) (st : SState) :
    (serializePromiseE F S i s f st).2.stack = st.stack := by
  simp only [serializePromiseE]
  split
  · rfl
  · rcases h1 : S f (pushStackE st i) with ⟨result, st2⟩
    have h2 : st2.stack = st.stack ++ [i] := stateOfEq h1 (hS f (pushStackE st i))
    simp [popStackE_stk, h2]

theorem serializeFormDataEntryE_stk (F : SubFns) (S : SerFn) (hS : StackPres S) (id : Nat)
    (key : String) (value : Node) (st : SState) :
    (serializeFormDataEntryE F S id key value st).2.stack = st.stack := by
  simp only [serializeFormDataEntryE]
  rcases h1 : S value st with ⟨s0, st1⟩
  exact stateOfEq h1 (hS value st)

theorem formDataLoopE_stk (F : SubFns) (S : SerFn) (hS : StackPres S) (id : Nat)
    (ek : List String) (ev : List Node) :
    ∀ (c i : Nat) (result : String) (st : SState),
      (formDataLoopE F S id ek ev i c result st).2.stack = st.stack := by
  intro c
  induction c with
  | zero => intro i result st; rfl
  | succ c ih =>
    intro i result st
    simp only [formDataLoopE]
    rcases h1 : serializeFormDataEntryE F S id (ek.getD i "") (ev.getD i (.constant .cundefined)) st
      with ⟨e, st1⟩
    have h2 : st1.stack = st.stack :=
      stateOfEq h1 (serializeFormDataEntryE_stk F S hS id (ek.getD i "")
        (ev.getD i (.constant .cundefined)) st)
    rw [ih]
    exact h2

theorem serializeFormDataE_stk (F : SubFns) (S : SerFn) (hS : StackPres S) (i : Nat)
    (ek : List String) (ev : List Node) (es : Nat) (st : SState) :
    (serializeFormDataE F S i ek ev es st).2.stack = st.stack := by
  simp only [serializeFormDataE]
  split
  · exact (formDataLoopE_stk F S hS i ek ev (es - 1) 1 _ _).trans
      ((serializeFormDataEntryE_stk F S hS i (ek.getD 0 "")
        (ev.getD 0 (.constant .cundefined)) (markRefE st i)).trans (markRefE_stk st i))
  · rfl

theorem serializeSwitchE_stk (F : SubFns) (S : SerFn) (hS : StackPres S) (node : Node)
    (st : SState) : (serializeSwitchE F S node st).2.stack = st.stack := by
  cases node with
  | constant s => rfl
  | num s => rfl
  | str s => rfl
  | bigint s => rfl
  | indexedValue i =>
    simp only [serializeSwitchE]
    cases st.deferred.lookup i <;> rfl
  | reference i s => rfl
  | array i l a o => exact serializeArrayE_stk F S hS i l a o st
  | object i pk pv ps o => exact serializeObjectE_stk F S hS i pk pv ps o st
  | nullConstructor i pk pv ps o =>
    simp only [serializeSwitchE]
    have h := serializeDictionaryE_stk F S hS i (some (pk, pv, ps)) "Object.create(null)"
      (pushObjectFlagE F st o i)
    simpa using h
  | date i s => rfl
  | regexp i c m => rfl
  | setNode i l a => exact serializeSetE_stk F S hS i l a st
  | mapNode i ek ev es => exact serializeMapE_stk F S hS i ek ev es st
  | arrayBuffer i s => rfl
  | typedArray i c f b l =>
    simp only [serializeSwitchE]
    rcases h1 : S f st with ⟨fs, st1⟩
    exact stateOfEq h1 (hS f st)
  | dataView i f b l =>
    simp only [serializeSwitchE]
    rcases h1 : S f st with ⟨fs, st1⟩
    exact stateOfEq h1 (hS f st)
  | aggregateError i m p =>
    simp only [serializeSwitchE]
    have h := serializeDictionaryE_stk F S hS i p ("new AggregateError([],\"" ++ m ++ "\")")
      (popStackE (pushStackE st i))
    simp only [popStackE_stk, pushStackE_stk, dropLast_concat_stack] at h
    simpa using h
  | error i s m p =>
    exact serializeDictionaryE_stk F S hS i p
      ("new " ++ ERROR_CONSTRUCTOR_STRING s ++ "(\"" ++ m ++ "\")") st
  | promise i s f => exact serializePromiseE_stk F S hS i s f st
  | wkSymbol i s => rfl
  | url i s => rfl
  | urlSearchParams i s => rfl
  | blob i c f =>
    simp only [serializeSwitchE]
    rcases h1 : S f st with ⟨fs, st1⟩
    exact stateOfEq h1 (hS f st)
  | file i c m b f =>
    simp only [serializeSwitchE]
    rcases h1 : S f st with ⟨fs, st1⟩
    exact stateOfEq h1 (hS f st)
  | headers i ek ev es =>
    simp only [serializeSwitchE]
    rcases h1 : serializePropertiesE F S i (ek.map RecordKey.str) ev es st with ⟨fields, st1⟩
    exact stateOfEq h1 (serializePropertiesE_stk F S hS i (ek.map RecordKey.str) ev es st)
  | formData i ek ev es => exact serializeFormDataE_stk F S hS i ek ev es st
  | boxed i f =>
    simp only [serializeSwitchE]
    rcases h1 : S f st with ⟨fs, st1⟩
    exact stateOfEq h1 (hS f st)
  | request i s f =>
    simp only [serializeSwitchE]
    rcases h1 : S f st with ⟨fs, st1⟩
    exact stateOfEq h1 (hS f st)
  | response i f0 f1 =>
    simp only [serializeSwitchE]
    rcases h1 : S f0 st with ⟨s0, st1⟩
    have h2 : st1.stack = st.stack := stateOfEq h1 (hS f0 st)
    rcases h3 : S f1 st1 with ⟨s1, st2⟩
    have h4 : st2.stack = st1.stack := stateOfEq h3 (hS f1 st1)
    simp [h4, h2]
  | event i s f =>
    simp only [serializeSwitchE]
    rcases h1 : S f st with ⟨fs, st1⟩
    exact stateOfEq h1 (hS f st)
  | customEvent i s f =>
    simp only [serializeSwitchE]
    rcases h1 : S f st with ⟨fs, st1⟩
    exact stateOfEq h1 (hS f st)
  | domException i s c => rfl

/-- **C10.** Every call to the embedded `BaseSerializerContext.serialize`
returns with the `stack` field holding exactly the sequence of ids it held at
entry: every push is popped on every return path, and the methods that
temporarily replace the stack (`serializeIterable`, `serializeMapEntry`,
`serializeAssignment`) restore the saved stack — for any subclass hooks, any
fuel, any node and any starting state. -/
theorem c10_serialize_preserves_stack (F : SubFns) :
    ∀ (fuel : Nat) (node : Node) (st : SState),
      (serializeE F fuel node st).2.stack = st.stack := by
  intro fuel
  induction fuel with
  | zero => intro node st; rfl
  | succ fuel ih =>
    intro node st
    exact serializeSwitchE_stk F (serializeE F fuel) ih node st

/-- **C1.** For `v = [m, {c: m}]` with `m` a shared Map, the round trip
breaks: the parser's two-pass iterable deferral (`generateNodeList`) parses
the inner occurrence of `m` first, so the IR carries a *forward*
`IndexedValue 2` at index 0; the serializer then emits the use `v2` before the
defining assignment `v2=new Map(...)` inside the same expression, and the
modelled `fromJSON` resolves id 2 before it is registered, yielding
`undefined` where the Map belongs — structural equality with the input fails.
This contradicts the round-trip claim (and the serializer's own comment that
depth-first serialization always reaches the original before its
references). -/
theorem c1_two_pass_deferral_breaks_round_trip :
    parseSyncE 20 (.ref 0) (initPCtx allFeatures) c1Heap =
      .ok (c1Node, ⟨allFeatures, [(0, 0), (1, 1), (2, 2)], [2], []⟩, c1Heap) ∧
    (serializeE vanillaFns 20 c1Node (initSState allFeatures [2])).1 =
      "[v2,\x7bc:v2=new Map([[\"x\",1]])\x7d]" ∧
    (fromJSONM 20 c1Node []).1 = c1Reconstructed ∧
    structEqB c1Heap 20 (.ref 0) (fromJSONM 20 c1Node []).1 = false :=
  ⟨rfl, by decide, rfl, by decide⟩

/-- **C2 (counterexample).** With `Feature.Map` disabled (and `Feature.Symbol`
at its default, enabled), the asynchronous and cross parsers do *not* reject a
Map: both produce a `NullConstructor` object node through the iterable
fallback. -/
theorem c2_async_and_cross_accept_map_without_feature :
    parseAsyncE 20 (.ref 0) (initPCtx fxNoMap) c2Heap =
      .ok (c2FallbackNode, c2FallbackCtx, c2FallbackHeap) ∧
    parseCrossE 20 (.ref 0) (initPCtx fxNoMap) c2Heap =
      .ok (c2FallbackNode, c2FallbackCtx, c2FallbackHeap) ∧
    exceptIsOk (parseAsyncE 20 (.ref 0) (initPCtx fxNoMap) c2Heap) = true ∧
    exceptIsOk (parseCrossE 20 (.ref 0) (initPCtx fxNoMap) c2Heap) = true :=
  ⟨rfl, rfl, rfl, rfl⟩

/-- **C3.** `serializeMapEntry`, both asymmetric branches evaluated at the
intended inputs.  First branch (key on the stack, value a marked full node):
the value's definition `v1=[7]` goes into the deferred map and the emitted
`set` assignment references it by id (`v1`) — as the claim states.  Symmetric
branch (value on the stack, key a marked full node): the source tests `val`
(always an `IndexedValue` there) instead of the key, so the defer path is dead
code — the deferred map stays empty and the key's full serialization
`v1=[7]` is inlined into the `set` assignment instead of the id reference the
claim (and §4.5.5) requires. -/
theorem c3_symmetric_defer_tests_value_not_key :
    serializeE vanillaFns 10 c3KeyOnStackNode (initSState allFeatures [1]) =
      ("v0=new Map",
        { features := allFeatures, stack := [], flags := [],
          assignments := [⟨.set, "v0", some "v0", "v1"⟩],
          marked := [0, 1], deferred := [(1, "v1=[7]")] }) ∧
    serializeE vanillaFns 10 c3ValueOnStackNode (initSState allFeatures [1]) =
      ("v0=new Map",
        { features := allFeatures, stack := [], flags := [],
          assignments := [⟨.set, "v0", some "v1=[7]", "v0"⟩],
          marked := [0, 1], deferred := [] }) :=
  ⟨rfl, rfl⟩

/-- **C2 (amended).** The feature gate for Maps with `Feature.Map` disabled:
the synchronous parser rejects (its `case Map:` enters `generateMapNode`,
whose first line `assert`s the feature); the asynchronous and cross parsers
skip their guarded Map case and reject only when `Feature.Symbol` is disabled
as well — with `Feature.Symbol` enabled they dispatch the Map to the
iterable-object fallback (`parsePlainObject`/`generateObjectNode` with
`empty = !!currentClass = true`) and, as the concrete conjunct shows, produce
a `NullConstructor` object node rather than an error. -/
theorem c2_map_feature_gate
    (entries : List (JSVal × JSVal)) (ctx : PCtx) (H : Heap) (a fuel : Nat)
    (hm : ctx.features.map = false)
    (hH : H[a]? = some (.mapObj entries))
    (hr : ctx.refs.lookup a = none)
    (hg : ctx.registry.lookup a = none)
    (hk : ctx.refs.length ∉ ctx.marked) :
    parseSyncE (fuel + 1) (.ref a) ctx H = .error .unsupportedType ∧
    (ctx.features.symbol = false →
      parseAsyncE (fuel + 1) (.ref a) ctx H = .error .unsupportedType ∧
      parseCrossE (fuel + 1) (.ref a) ctx H = .error .unsupportedType) ∧
    (ctx.features.symbol = true →
      parseAsyncE (fuel + 1) (.ref a) ctx H =
        generateObjectNodeE (parseAsyncE fuel) createIndexedValueME ctx.refs.length
          (.mapObj entries) true { ctx with refs := ctx.refs ++ [(a, ctx.refs.length)] } H ∧
      parseCrossE (fuel + 1) (.ref a) ctx H =
        generateObjectNodeE (parseCrossE fuel) createCrossIndexedValueME ctx.refs.length
          (.mapObj entries) true { ctx with refs := ctx.refs ++ [(a, ctx.refs.length)] } H) ∧
    parseAsyncE 20 (.ref 0) (initPCtx fxNoMap) c2Heap =
      .ok (c2FallbackNode, c2FallbackCtx, c2FallbackHeap) := by
  refine ⟨?_, fun hsym => ⟨?_, ?_⟩, fun hsym => ⟨?_, ?_⟩, rfl⟩
  · simp [parseSyncE, parseSyncStepE, parseObjectSyncE, createIndexedValueME,
      hasReferenceIDE, hH, hr, hg, hk, hm]
  · simp [parseAsyncE, parseAsyncStepE, parseObjectAsyncE, createIndexedValueME,
      hasReferenceIDE, hH, hr, hg, hk, hm, hsym]
  · simp [parseCrossE, parseCrossStepE, parseObjectCrossE,
      hasReferenceIDE, hH, hr, hg, hm, hsym]
  · simp [parseAsyncE, parseAsyncStepE, parseObjectAsyncE, createIndexedValueME,
      hasReferenceIDE, hH, hr, hg, hk, hm, hsym]
  · simp [parseCrossE, parseCrossStepE, parseObjectCrossE,
      hasReferenceIDE, hH, hr, hg, hm, hsym]

/-- Witness for `c2_map_feature_gate` at the concrete Map heap. -/
theorem c2_map_feature_gate_witness :
    parseSyncE 20 (.ref 0) (initPCtx fxNoMap) c2Heap = .error .unsupportedType :=
  (c2_map_feature_gate c2Entries (initPCtx fxNoMap) c2Heap 0 19 rfl rfl rfl rfl
    (by decide)).1

/-! ### Array slots (towards C5) -/

theorem string_foldl_append_shift (l : List String) :
    ∀ (a b : String), l.foldl (fun u v => u ++ v) (a ++ b) =
      a ++ l.foldl (fun u v => u ++ v) b := by
  induction l with
  | nil => intro a b; rfl
  | cons y ys ih =>
    intro a b
    simp only [List.foldl]
    rw [String.append_assoc]
    exact ih a (b ++ y)

theorem string_join_cons (x : String) (xs : List String) :
    String.join (x :: xs) = x ++ String.join xs := by
  simp only [String.join, List.foldl]
  have h1 : ("" ++ x : String) = x ++ "" := by simp
  rw [h1, string_foldl_append_shift]

theorem exceptBind_ok {e a b : Type} (x : a) (f : a → Except e b) :
    (Except.ok x >>= f : Except e b) = f x := rfl

theorem lastHol_cons (s0 : String) (rest : List String) (hol : Bool) :
    lastHol (s0 :: rest) hol = lastHol rest (decide (s0 = "")) := by
  cases rest with
  | nil => rfl
  | cons b bs =>
    simp only [lastHol, List.getLast?_cons_cons]
    cases hx : (b :: bs).getLast? with
    | none => simp at hx
    | some x => rfl

theorem arraySlotsE_succ_proj (F : SubFns) (S : SerFn) (id : Nat) (a : List (Option Node))
    (i c : Nat) (st : SState) :
    arraySlotsE F S id a i (c + 1) st =
      ((serializeArrayItemE F S id (a.getD i none) i st).1 ::
         (arraySlotsE F S id a (i + 1) c
           (serializeArrayItemE F S id (a.getD i none) i st).2).1,
       (arraySlotsE F S id a (i + 1) c
         (serializeArrayItemE F S id (a.getD i none) i st).2).2) := rfl

/-- The `values`/`isHoley` loop of `serializeArray`, re-expressed over the
slot list. -/
theorem arrayLoop_eq_slots (F : SubFns) (S : SerFn) (id : Nat) (a : List (Option Node)) :
    ∀ (c i : Nat) (v : String) (hol : Bool) (st : SState),
      serializeArrayLoopE F S id a i c v hol st =
        (v ++ String.join ((arraySlotsE F S id a i c st).1.map (fun s1 => "," ++ s1)),
         lastHol (arraySlotsE F S id a i c st).1 hol,
         (arraySlotsE F S id a i c st).2) := by
  intro c
  induction c with
  | zero =>
    intro i v hol st
    simp [serializeArrayLoopE, arraySlotsE, lastHol, String.join]
  | succ c ih =>
    intro i v hol st
    simp only [serializeArrayLoopE, arraySlotsE]
    rcases h0 : serializeArrayItemE F S id (a.getD i none) i st with ⟨s0, st1⟩
    rw [ih]
    rcases h1 : arraySlotsE F S id a (i + 1) c st1 with ⟨rest, st2⟩
    simp [string_join_cons, lastHol_cons, String.append_assoc]

theorem arraySlotsE_length (F : SubFns) (S : SerFn) (id : Nat) (a : List (Option Node)) :
    ∀ (c i : Nat) (st : SState), (arraySlotsE F S id a i c st).1.length = c := by
  intro c
  induction c with
  | zero => intro i st; rfl
  | succ c ih =>
    intro i st
    simp only [arraySlotsE]
    rcases h0 : serializeArrayItemE F S id (a.getD i none) i st with ⟨s0, st1⟩
    rcases h1 : arraySlotsE F S id a (i + 1) c st1 with ⟨rest, st2⟩
    have := ih (i + 1) st1
    rw [h1] at this
    simpa using this

theorem arraySlotsE_hole (F : SubFns) (S : SerFn) (id : Nat) (a : List (Option Node)) :
    ∀ (c i k : Nat) (st : SState), k < c → a.getD (i + k) none = none →
      (arraySlotsE F S id a i c st).1.get? k = some "" := by
  intro c
  induction c with
  | zero => intro i k st hk; omega
  | succ c ih =>
    intro i k st hk hhole
    simp only [arraySlotsE]
    rcases h0 : serializeArrayItemE F S id (a.getD i none) i st with ⟨s0, st1⟩
    rcases h1 : arraySlotsE F S id a (i + 1) c st1 with ⟨rest, st2⟩
    cases k with
    | zero =>
      have hz : a.getD i none = none := by simpa using hhole
      rw [hz] at h0
      have hs0 : s0 = "" := by
        simpa [serializeArrayItemE] using congrArg Prod.fst h0.symm
      simp [hs0]
    | succ k =>
      have hrec := ih (i + 1) k st1 (by omega) (by
        have : i + 1 + k = i + (k + 1) := by omega
        rw [this]
        exact hhole)
      rw [h1] at hrec
      simpa using hrec

/-- First pass of `generateNodeList`: slots are positional, a slot is `hole`
exactly at the input's holes. -/
theorem nodeListPass1_spec (P : ParseFn) :
    ∀ (xs : List (Option JSVal)) (ctx : PCtx) (H : Heap) (slots : List PSlot)
      (ctx1 : PCtx) (H1 : Heap),
      nodeListPass1 P xs ctx H = .ok (slots, ctx1, H1) →
        slots.length = xs.length ∧
        ∀ k, slots.get? k = some .hole ↔ xs.get? k = some none := by
  intro xs
  induction xs with
  | nil =>
    intro ctx H slots ctx1 H1 h
    simp only [nodeListPass1] at h
    cases h
    exact ⟨rfl, fun k => by simp⟩
  | cons x rest ih =>
    intro ctx H slots ctx1 H1 h
    cases x with
    | none =>
      simp only [nodeListPass1] at h
      cases hrec : nodeListPass1 P rest ctx H with
      | error e => rw [hrec] at h; cases h
      | ok val =>
        rcases val with ⟨slots', ctx1', H1'⟩
        rw [hrec] at h
        cases h
        obtain ⟨hlen, hiff⟩ := ih ctx H slots' ctx1' H1' hrec
        refine ⟨by simp [hlen], fun k => ?_⟩
        cases k with
        | zero => simp
        | succ k => simpa using hiff k
    | some v =>
      simp only [nodeListPass1] at h
      by_cases hit : isIterableE H v
      · rw [if_pos hit] at h
        cases hrec : nodeListPass1 P rest ctx H with
        | error e => rw [hrec] at h; cases h
        | ok val =>
          rcases val with ⟨slots', ctx1', H1'⟩
          rw [hrec] at h
          cases h
          obtain ⟨hlen, hiff⟩ := ih ctx H slots' ctx1' H1' hrec
          refine ⟨by simp [hlen], fun k => ?_⟩
          cases k with
          | zero => simp
          | succ k => simpa using hiff k
      · rw [if_neg hit] at h
        cases hP : P v ctx H with
        | error e => rw [hP] at h; cases h
        | ok valP =>
          rcases valP with ⟨n, ctxP, HP⟩
          rw [hP] at h
          simp only [exceptBind_ok] at h
          cases hrec : nodeListPass1 P rest ctxP HP with
          | error e => rw [hrec] at h; cases h
          | ok val =>
            rcases val with ⟨slots', ctx1', H1'⟩
            rw [hrec] at h
            cases h
            obtain ⟨hlen, hiff⟩ := ih ctxP HP slots' ctx1' H1' hrec
            refine ⟨by simp [hlen], fun k => ?_⟩
            cases k with
            | zero => simp
            | succ k => simpa using hiff k

/-- Second pass of `generateNodeList`: nodes stay positional, `none` exactly
at `hole` slots. -/
theorem nodeListPass2_spec (P : ParseFn) :
    ∀ (slots : List PSlot) (ctx : PCtx) (H : Heap) (nodes : List (Option Node))
      (ctx1 : PCtx) (H1 : Heap),
      nodeListPass2 P slots ctx H = .ok (nodes, ctx1, H1) →
        nodes.length = slots.length ∧
        ∀ k, nodes.get? k = some none ↔ slots.get? k = some .hole := by
  intro slots
  induction slots with
  | nil =>
    intro ctx H nodes ctx1 H1 h
    simp only [nodeListPass2] at h
    cases h
    exact ⟨rfl, fun k => by simp⟩
  | cons x rest ih =>
    intro ctx H nodes ctx1 H1 h
    cases x with
    | hole =>
      simp only [nodeListPass2] at h
      cases hrec : nodeListPass2 P rest ctx H with
      | error e => rw [hrec] at h; cases h
      | ok val =>
        rcases val with ⟨nodes', ctx1', H1'⟩
        rw [hrec] at h
        cases h
        obtain ⟨hlen, hiff⟩ := ih ctx H nodes' ctx1' H1' hrec
        refine ⟨by simp [hlen], fun k => ?_⟩
        cases k with
        | zero => simp
        | succ k => simpa using hiff k
    | done n =>
      simp only [nodeListPass2] at h
      cases hrec : nodeListPass2 P rest ctx H with
      | error e => rw [hrec] at h; cases h
      | ok val =>
        rcases val with ⟨nodes', ctx1', H1'⟩
        rw [hrec] at h
        cases h
        obtain ⟨hlen, hiff⟩ := ih ctx H nodes' ctx1' H1' hrec
        refine ⟨by simp [hlen], fun k => ?_⟩
        cases k with
        | zero => simp
        | succ k => simpa using hiff k
    | deferSlot v =>
      simp only [nodeListPass2] at h
      cases hP : P v ctx H with
      | error e => rw [hP] at h; cases h
      | ok valP =>
        rcases valP with ⟨n, ctxP, HP⟩
        rw [hP] at h
        simp only [exceptBind_ok] at h
        cases hrec : nodeListPass2 P rest ctxP HP with
        | error e => rw [hrec] at h; cases h
        | ok val =>
          rcases val with ⟨nodes', ctx1', H1'⟩
          rw [hrec] at h
          cases h
          obtain ⟨hlen, hiff⟩ := ih ctxP HP nodes' ctx1' H1' hrec
          refine ⟨by simp [hlen], fun k => ?_⟩
          cases k with
          | zero => simp
          | succ k => simpa using hiff k

/-- **C5.** Array length and hole positions are preserved: the parse side
(`generateNodeList`/`generateArrayNode`) keeps every hole at its index and
records `l := current.length`; the serializer emits exactly `l`
comma-separated slots, every hole becomes the empty slot at the same index,
a trailing comma is appended exactly when the last slot is empty, and a
length-0 array is emitted as `[]`. -/
theorem c5_array_length_and_holes :
    (∀ (P : ParseFn) (xs : List (Option JSVal)) (ctx : PCtx) (H : Heap)
        (nodes : List (Option Node)) (ctx1 : PCtx) (H1 : Heap),
      generateNodeListE P xs ctx H = .ok (nodes, ctx1, H1) →
        nodes.length = xs.length ∧
        ∀ k, nodes.get? k = some none ↔ xs.get? k = some none) ∧
    (∀ (P : ParseFn) (id : Nat) (xs : List (Option JSVal)) (ctx : PCtx) (H : Heap)
        (n : Node) (ctx1 : PCtx) (H1 : Heap),
      generateArrayNodeE P id xs ctx H = .ok (n, ctx1, H1) →
        ∃ nodes, generateNodeListE P xs ctx H = .ok (nodes, ctx1, H1) ∧
          n = .array id xs.length nodes (getObjectFlagM (.arr xs))) ∧
    (∀ (F : SubFns) (fuel i l : Nat) (a : List (Option Node)) (o : SerovalObjectFlags)
        (st : SState), l ≠ 0 →
      serializeE F (fuel + 1) (.array i l a o) st =
        ((fun p : List String × SState =>
          (F.assignIndexedValue (pushObjectFlagE F (popStackE p.2) o i) i
            ("[" ++ joinSlots p.1 ++ (if lastHol p.1 false then ",]" else "]")),
           pushObjectFlagE F (popStackE p.2) o i))
          (arraySlotsE F (serializeE F fuel) i a 0 l (pushStackE st i)))) ∧
    (∀ (F : SubFns) (S : SerFn) (id : Nat) (a : List (Option Node)) (c i : Nat) (st : SState),
      (arraySlotsE F S id a i c st).1.length = c) ∧
    (∀ (F : SubFns) (S : SerFn) (id : Nat) (a : List (Option Node)) (c i k : Nat) (st : SState),
      k < c → a.getD (i + k) none = none →
        (arraySlotsE F S id a i c st).1.get? k = some "") ∧
    (∀ (F : SubFns) (fuel i : Nat) (a : List (Option Node)) (o : SerovalObjectFlags)
        (st : SState),
      serializeE F (fuel + 1) (.array i 0 a o) st = (F.assignIndexedValue st i "[]", st)) := by
  refine ⟨?_, ?_, ?_, ?_, ?_, ?_⟩
  · intro P xs ctx H nodes ctx1 H1 h
    simp only [generateNodeListE] at h
    cases h1 : nodeListPass1 P xs ctx H with
    | error e => rw [h1] at h; cases h
    | ok val =>
      rcases val with ⟨slots, ctxA, HA⟩
      rw [h1] at h
      simp only [exceptBind_ok] at h
      obtain ⟨hl1, hf1⟩ := nodeListPass1_spec P xs ctx H slots ctxA HA h1
      obtain ⟨hl2, hf2⟩ := nodeListPass2_spec P slots ctxA HA nodes ctx1 H1 h
      exact ⟨hl2.trans hl1, fun k => (hf2 k).trans (hf1 k)⟩
  · intro P id xs ctx H n ctx1 H1 h
    simp only [generateArrayNodeE] at h
    cases h1 : generateNodeListE P xs ctx H with
    | error e => rw [h1] at h; cases h
    | ok val =>
      rcases val with ⟨nodes, ctxA, HA⟩
      rw [h1] at h
      simp only [exceptBind_ok] at h
      cases h
      exact ⟨nodes, rfl, rfl⟩
  · intro F fuel i l a o st hl
    obtain ⟨c, rfl⟩ := Nat.exists_eq_succ_of_ne_zero hl
    simp only [Nat.succ_eq_add_one]
    simp only [serializeE, serializeSwitchE, serializeArrayE]
    rw [if_pos (by omega : c + 1 ≠ 0)]
    rcases h0 : serializeArrayItemE F (serializeE F fuel) i (a.getD 0 none) 0 (pushStackE st i)
      with ⟨v0, st2⟩
    rw [Nat.add_sub_cancel, arrayLoop_eq_slots, arraySlotsE_succ_proj, h0]
    simp [joinSlots, lastHol_cons]
  · intro F S id a c i st
    exact arraySlotsE_length F S id a c i st
  · intro F S id a c i k st hk hh
    exact arraySlotsE_hole F S id a c i k st hk hh
  · intro F fuel i a o st
    rfl

/-- Witness for `c5_array_length_and_holes` at a concrete holey array
(`[1, <hole>]` — the IR of `[1, ,]`). -/
theorem c5_array_length_and_holes_witness :
    serializeE vanillaFns 5 (.array 0 2 [some (.num 1), none] .none)
      (initSState allFeatures []) = ("[1,,]", initSState allFeatures []) := by
  have h := c5_array_length_and_holes.2.2.1 vanillaFns 4 0 2 [some (.num 1), none]
    .none (initSState allFeatures []) (by decide)
  exact h.trans (by decide)

/-! ### Parser-context preservation (towards C4) -/

theorem exceptBind_ok_inv {e a b : Type} {m : Except e a} {f : a → Except e b} {y : b}
    (h : (m >>= f) = .ok y) : ∃ x, m = .ok x ∧ f x = .ok y := by
  cases m with
  | error err =>
    have he : (Except.error err >>= f : Except e b) = .error err := rfl
    rw [he] at h
    cases h
  | ok x => exact ⟨x, rfl, h⟩

theorem exceptOkTriple {e A B C : Type} {x1 : A} {x2 : B} {x3 : C} {y1 : A} {y2 : B} {y3 : C}
    (h : (Except.ok (x1, x2, x3) : Except e (A × B × C)) = .ok (y1, y2, y3)) :
    x1 = y1 ∧ x2 = y2 ∧ x3 = y3 := by
  have h2 := Except.ok.inj h
  exact ⟨congrArg Prod.fst h2, congrArg (fun p => p.2.1) h2, congrArg (fun p => p.2.2) h2⟩

theorem exceptOkQuad {e A B C D : Type} {x1 : A} {x2 : B} {x3 : C} {x4 : D}
    {y1 : A} {y2 : B} {y3 : C} {y4 : D}
    (h : (Except.ok (x1, x2, x3, x4) : Except e (A × B × C × D)) = .ok (y1, y2, y3, y4)) :
    x1 = y1 ∧ x2 = y2 ∧ x3 = y3 ∧ x4 = y4 := by
  have h2 := Except.ok.inj h
  exact ⟨congrArg Prod.fst h2, congrArg (fun p => p.2.1) h2,
    congrArg (fun p => p.2.2.1) h2, congrArg (fun p => p.2.2.2) h2⟩

theorem lookup_append_some {b : Nat} (l1 l2 : List (Nat × Nat)) (a : Nat)
    (h : l1.lookup a = some b) : (l1 ++ l2).lookup a = some b := by
  induction l1 with
  | nil => simp [List.lookup] at h
  | cons p rest ih =>
    rcases p with ⟨k, v⟩
    simp only [List.lookup, List.cons_append] at h ⊢
    cases hk : (a == k) with
    | true => simp only [hk] at h ⊢; exact h
    | false => simp only [hk] at h ⊢; exact ih h

theorem lookup_append_none (l1 l2 : List (Nat × Nat)) (a : Nat)
    (h : l1.lookup a = none) : (l1 ++ l2).lookup a = l2.lookup a := by
  induction l1 with
  | nil => simp
  | cons p rest ih =>
    rcases p with ⟨k, v⟩
    simp only [List.lookup, List.cons_append] at h ⊢
    cases hk : (a == k) with
    | true => simp only [hk] at h; cases h
    | false => simp only [hk] at h ⊢; exact ih h

theorem lookup_some_mem {b : Nat} (l : List (Nat × Nat)) (a : Nat)
    (h : l.lookup a = some b) : (a, b) ∈ l := by
  induction l with
  | nil => simp [List.lookup] at h
  | cons p rest ih =>
    rcases p with ⟨k, v⟩
    simp only [List.lookup] at h
    cases hk : (a == k) with
    | true =>
      simp only [hk] at h
      cases h
      have hak : a = k := by simpa using hk
      subst hak
      exact List.mem_cons_self _ _
    | false =>
      simp only [hk] at h
      exact List.mem_cons_of_mem _ (ih h)

theorem refsOrdered_append (rs : List (Nat × Nat)) (a : Nat) (h : refsOrdered rs) :
    refsOrdered (rs ++ [(a, rs.length)]) := by
  intro k p hk
  by_cases hlt : k < rs.length
  · rw [List.get?_append hlt] at hk
    exact h k p hk
  · rw [List.get?_append_right (Nat.le_of_not_lt hlt)] at hk
    have hk2 : k - rs.length = 0 := by
      by_contra hne
      rw [List.get?_eq_none.2 (by simp; omega)] at hk
      cases hk
    rw [hk2] at hk
    simp only [List.get?] at hk
    cases hk
    omega

theorem lookup_pos {rs : List (Nat × Nat)} {a i : Nat} (ho : refsOrdered rs)
    (h : rs.lookup a = some i) : rs.get? i = some (a, i) := by
  have hm := lookup_some_mem rs a h
  obtain ⟨k, hk⟩ := List.get?_of_mem hm
  have hki := ho k (a, i) hk
  rw [← hki] at hk
  exact hk

theorem lookup_lt {rs : List (Nat × Nat)} {a i : Nat} (ho : refsOrdered rs)
    (h : rs.lookup a = some i) : i < rs.length := by
  have hp := lookup_pos ho h
  exact List.get?_eq_some.1 hp |>.choose

theorem lookup_inj {rs : List (Nat × Nat)} {a b i : Nat} (ho : refsOrdered rs)
    (ha : rs.lookup a = some i) (hb : rs.lookup b = some i) : a = b := by
  have h1 := lookup_pos ho ha
  have h2 := lookup_pos ho hb
  rw [h1] at h2
  cases h2
  rfl

theorem contains_insert_self (l : List Nat) (a : Nat) : (l.insert a).contains a = true := by
  simp [List.elem_iff]

theorem contains_false_of_not_mem (l : List Nat) (a : Nat) (h : a ∉ l) :
    l.contains a = false := by
  simpa [List.elem_iff] using h

theorem pctxStep_refl (c : PCtx) : pctxStep c c :=
  ⟨⟨[], (List.append_nil _).symm⟩, fun hw => hw⟩

theorem pctxStep_trans {a b c : PCtx} (h1 : pctxStep a b) (h2 : pctxStep b c) :
    pctxStep a c := by
  obtain ⟨⟨t1, ht1⟩, hw1⟩ := h1
  obtain ⟨⟨t2, ht2⟩, hw2⟩ := h2
  exact ⟨⟨t1 ++ t2, by rw [ht2, ht1, List.append_assoc]⟩, fun hw => hw2 (hw1 hw)⟩

theorem pctxStep_alloc_append (c : PCtx) (a : Nat) :
    pctxStep c { c with refs := c.refs ++ [(a, c.refs.length)] } := by
  refine ⟨⟨[(a, c.refs.length)], rfl⟩, ?_⟩
  rintro ⟨ho, hm⟩
  refine ⟨refsOrdered_append _ a ho, ?_⟩
  intro m hmm
  have hlt := hm m hmm
  simp only [List.length_append, List.length_cons, List.length_nil]
  omega

theorem pctxStep_mark (c : PCtx) (a i : Nat) (h : c.refs.lookup a = some i) :
    pctxStep c { c with marked := c.marked.insert i } := by
  refine ⟨⟨[], (List.append_nil _).symm⟩, ?_⟩
  rintro ⟨ho, hm⟩
  refine ⟨ho, ?_⟩
  intro m hmm
  rcases (by simpa using hmm : m = i ∨ m ∈ c.marked) with rfl | hmem
  · exact lookup_lt ho h
  · exact hm m hmem

theorem createIndexedValueME_pres : AllocPres createIndexedValueME := by
  intro ctx a
  simp only [createIndexedValueME]
  cases h : ctx.refs.lookup a with
  | some i => exact pctxStep_mark ctx a i h
  | none => exact pctxStep_alloc_append ctx a

theorem createCrossIndexedValueME_pres : AllocPres createCrossIndexedValueME := by
  intro ctx a
  simp only [createCrossIndexedValueME]
  cases h : ctx.refs.lookup a with
  | some i => exact pctxStep_refl ctx
  | none => exact pctxStep_alloc_append ctx a

theorem nodeListPass1_pres (P : ParseFn) (hP : ParsePres P) :
    ∀ (xs : List (Option JSVal)) (ctx : PCtx) (H : Heap) (r : List PSlot)
      (ctx1 : PCtx) (H1 : Heap),
      nodeListPass1 P xs ctx H = .ok (r, ctx1, H1) → pctxStep ctx ctx1 := by
  intro xs
  induction xs with
  | nil =>
    intro ctx H r ctx1 H1 h
    simp only [nodeListPass1] at h
    obtain ⟨h1, h2, h3⟩ := exceptOkTriple h
    subst h2
    exact pctxStep_refl ctx
  | cons x rest ih =>
    intro ctx H r ctx1 H1 h
    cases x with
    | none =>
      simp only [nodeListPass1] at h
      obtain ⟨⟨slots, ctxr, Hr⟩, hrec, h⟩ := exceptBind_ok_inv h
      obtain ⟨h1, h2, h3⟩ := exceptOkTriple h
      subst h2
      exact ih ctx H _ _ _ hrec
    | some v =>
      simp only [nodeListPass1] at h
      split at h
      · obtain ⟨⟨slots, ctxr, Hr⟩, hrec, h⟩ := exceptBind_ok_inv h
        obtain ⟨h1, h2, h3⟩ := exceptOkTriple h
        subst h2
        exact ih ctx H _ _ _ hrec
      · obtain ⟨⟨nn, ctxp, Hp⟩, hp, h⟩ := exceptBind_ok_inv h
        obtain ⟨⟨slots, ctxr, Hr⟩, hrec, h⟩ := exceptBind_ok_inv h
        obtain ⟨h1, h2, h3⟩ := exceptOkTriple h
        subst h2
        exact pctxStep_trans (hP v ctx H _ _ _ hp) (ih ctxp Hp _ _ _ hrec)

theorem nodeListPass2_pres (P : ParseFn) (hP : ParsePres P) :
    ∀ (xs : List PSlot) (ctx : PCtx) (H : Heap) (r : List (Option Node))
      (ctx1 : PCtx) (H1 : Heap),
      nodeListPass2 P xs ctx H = .ok (r, ctx1, H1) → pctxStep ctx ctx1 := by
  intro xs
  induction xs with
  | nil =>
    intro ctx H r ctx1 H1 h
    simp only [nodeListPass2] at h
    obtain ⟨h1, h2, h3⟩ := exceptOkTriple h
    subst h2
    exact pctxStep_refl ctx
  | cons x rest ih =>
    intro ctx H r ctx1 H1 h
    cases x with
    | hole =>
      simp only [nodeListPass2] at h
      obtain ⟨⟨nodes, ctxr, Hr⟩, hrec, h⟩ := exceptBind_ok_inv h
      obtain ⟨h1, h2, h3⟩ := exceptOkTriple h
      subst h2
      exact ih ctx H _ _ _ hrec
    | done nn =>
      simp only [nodeListPass2] at h
      obtain ⟨⟨nodes, ctxr, Hr⟩, hrec, h⟩ := exceptBind_ok_inv h
      obtain ⟨h1, h2, h3⟩ := exceptOkTriple h
      subst h2
      exact ih ctx H _ _ _ hrec
    | deferSlot v =>
      simp only [nodeListPass2] at h
      obtain ⟨⟨nn, ctxp, Hp⟩, hp, h⟩ := exceptBind_ok_inv h
      obtain ⟨⟨nodes, ctxr, Hr⟩, hrec, h⟩ := exceptBind_ok_inv h
      obtain ⟨h1, h2, h3⟩ := exceptOkTriple h
      subst h2
      exact pctxStep_trans (hP v ctx H _ _ _ hp) (ih ctxp Hp _ _ _ hrec)

theorem generateNodeListE_pres (P : ParseFn) (hP : ParsePres P)
    (xs : List (Option JSVal)) (ctx : PCtx) (H : Heap) (r : List (Option Node))
    (ctx1 : PCtx) (H1 : Heap)
    (h : generateNodeListE P xs ctx H = .ok (r, ctx1, H1)) : pctxStep ctx ctx1 := by
  simp only [generateNodeListE] at h
  obtain ⟨⟨slots, ctxa, Ha⟩, h1, h⟩ := exceptBind_ok_inv h
  exact pctxStep_trans (nodeListPass1_pres P hP _ _ _ _ _ _ h1)
    (nodeListPass2_pres P hP _ _ _ _ _ _ h)

theorem generateArrayNodeE_pres (P : ParseFn) (hP : ParsePres P)
    (i : Nat) (xs : List (Option JSVal)) (ctx : PCtx) (H : Heap) (n : Node)
    (ctx1 : PCtx) (H1 : Heap)
    (h : generateArrayNodeE P i xs ctx H = .ok (n, ctx1, H1)) : pctxStep ctx ctx1 := by
  simp only [generateArrayNodeE] at h
  obtain ⟨⟨nodes, ctxa, Ha⟩, h1, h⟩ := exceptBind_ok_inv h
  obtain ⟨e1, e2, e3⟩ := exceptOkTriple h
  subst e2
  exact generateNodeListE_pres P hP _ _ _ _ _ _ h1

theorem generateArrayNodeE_shape (P : ParseFn) (i : Nat) (xs : List (Option JSVal))
    (ctx : PCtx) (H : Heap) (n : Node) (ctx1 : PCtx) (H1 : Heap)
    (h : generateArrayNodeE P i xs ctx H = .ok (n, ctx1, H1)) :
    nodeId n = some i ∧ isIndexedValueNode n = false := by
  simp only [generateArrayNodeE] at h
  obtain ⟨⟨nodes, ctxa, Ha⟩, h1, h⟩ := exceptBind_ok_inv h
  obtain ⟨e1, e2, e3⟩ := exceptOkTriple h
  subst e1
  exact ⟨rfl, rfl⟩

theorem mapPass1_pres (P : ParseFn) (hP : ParsePres P) :
    ∀ (es : List (JSVal × JSVal)) (ctx : PCtx) (H : Heap) (r1 : List (Node × Node))
      (r2 : List (JSVal × JSVal)) (ctx1 : PCtx) (H1 : Heap),
      mapPass1 P es ctx H = .ok (r1, r2, ctx1, H1) → pctxStep ctx ctx1 := by
  intro es
  induction es with
  | nil =>
    intro ctx H r1 r2 ctx1 H1 h
    simp only [mapPass1] at h
    obtain ⟨e1, e2, e3, e4⟩ := exceptOkQuad h
    subst e3
    exact pctxStep_refl ctx
  | cons kv rest ih =>
    rcases kv with ⟨k, v⟩
    intro ctx H r1 r2 ctx1 H1 h
    simp only [mapPass1] at h
    split at h
    · obtain ⟨⟨pairs, defs, ctxr, Hr⟩, hrec, h⟩ := exceptBind_ok_inv h
      obtain ⟨e1, e2, e3, e4⟩ := exceptOkQuad h
      subst e3
      exact ih ctx H _ _ _ _ hrec
    · obtain ⟨⟨kn, ctxk, Hk⟩, hk, h⟩ := exceptBind_ok_inv h
      obtain ⟨⟨vn, ctxv, Hv⟩, hv, h⟩ := exceptBind_ok_inv h
      obtain ⟨⟨pairs, defs, ctxr, Hr⟩, hrec, h⟩ := exceptBind_ok_inv h
      obtain ⟨e1, e2, e3, e4⟩ := exceptOkQuad h
      subst e3
      exact pctxStep_trans (hP k ctx H _ _ _ hk)
        (pctxStep_trans (hP v ctxk Hk _ _ _ hv) (ih ctxv Hv _ _ _ _ hrec))

theorem mapPass2_pres (P : ParseFn) (hP : ParsePres P) :
    ∀ (es : List (JSVal × JSVal)) (ctx : PCtx) (H : Heap) (r : List (Node × Node))
      (ctx1 : PCtx) (H1 : Heap),
      mapPass2 P es ctx H = .ok (r, ctx1, H1) → pctxStep ctx ctx1 := by
  intro es
  induction es with
  | nil =>
    intro ctx H r ctx1 H1 h
    simp only [mapPass2] at h
    obtain ⟨e1, e2, e3⟩ := exceptOkTriple h
    subst e2
    exact pctxStep_refl ctx
  | cons kv rest ih =>
    rcases kv with ⟨k, v⟩
    intro ctx H r ctx1 H1 h
    simp only [mapPass2] at h
    obtain ⟨⟨kn, ctxk, Hk⟩, hk, h⟩ := exceptBind_ok_inv h
    obtain ⟨⟨vn, ctxv, Hv⟩, hv, h⟩ := exceptBind_ok_inv h
    obtain ⟨⟨pairs, ctxr, Hr⟩, hrec, h⟩ := exceptBind_ok_inv h
    obtain ⟨e1, e2, e3⟩ := exceptOkTriple h
    subst e2
    exact pctxStep_trans (hP k ctx H _ _ _ hk)
      (pctxStep_trans (hP v ctxk Hk _ _ _ hv) (ih ctxv Hv _ _ _ hrec))

theorem generateMapCoreE_pres (P : ParseFn) (hP : ParsePres P)
    (i : Nat) (es : List (JSVal × JSVal)) (ctx : PCtx) (H : Heap) (n : Node)
    (ctx1 : PCtx) (H1 : Heap)
    (h : generateMapCoreE P i es ctx H = .ok (n, ctx1, H1)) : pctxStep ctx ctx1 := by
  simp only [generateMapCoreE] at h
  obtain ⟨⟨p1, defs, ctxa, Ha⟩, h1, h⟩ := exceptBind_ok_inv h
  obtain ⟨⟨p2, ctxb, Hb⟩, h2, h⟩ := exceptBind_ok_inv h
  obtain ⟨e1, e2, e3⟩ := exceptOkTriple h
  subst e2
  exact pctxStep_trans (mapPass1_pres P hP _ _ _ _ _ _ _ h1)
    (mapPass2_pres P hP _ _ _ _ _ _ h2)

theorem generateMapCoreE_shape (P : ParseFn) (i : Nat) (es : List (JSVal × JSVal))
    (ctx : PCtx) (H : Heap) (n : Node) (ctx1 : PCtx) (H1 : Heap)
    (h : generateMapCoreE P i es ctx H = .ok (n, ctx1, H1)) :
    nodeId n = some i ∧ isIndexedValueNode n = false := by
  simp only [generateMapCoreE] at h
  obtain ⟨⟨p1, defs, ctxa, Ha⟩, h1, h⟩ := exceptBind_ok_inv h
  obtain ⟨⟨p2, ctxb, Hb⟩, h2, h⟩ := exceptBind_ok_inv h
  obtain ⟨e1, e2, e3⟩ := exceptOkTriple h
  subst e1
  exact ⟨rfl, rfl⟩

theorem setPass1_pres (P : ParseFn) (hP : ParsePres P) :
    ∀ (es : List JSVal) (ctx : PCtx) (H : Heap) (r1 : List Node) (r2 : List JSVal)
      (ctx1 : PCtx) (H1 : Heap),
      setPass1 P es ctx H = .ok (r1, r2, ctx1, H1) → pctxStep ctx ctx1 := by
  intro es
  induction es with
  | nil =>
    intro ctx H r1 r2 ctx1 H1 h
    simp only [setPass1] at h
    obtain ⟨e1, e2, e3, e4⟩ := exceptOkQuad h
    subst e3
    exact pctxStep_refl ctx
  | cons v rest ih =>
    intro ctx H r1 r2 ctx1 H1 h
    simp only [setPass1] at h
    split at h
    · obtain ⟨⟨nodes, defs, ctxr, Hr⟩, hrec, h⟩ := exceptBind_ok_inv h
      obtain ⟨e1, e2, e3, e4⟩ := exceptOkQuad h
      subst e3
      exact ih ctx H _ _ _ _ hrec
    · obtain ⟨⟨nn, ctxp, Hp⟩, hp, h⟩ := exceptBind_ok_inv h
      obtain ⟨⟨nodes, defs, ctxr, Hr⟩, hrec, h⟩ := exceptBind_ok_inv h
      obtain ⟨e1, e2, e3, e4⟩ := exceptOkQuad h
      subst e3
      exact pctxStep_trans (hP v ctx H _ _ _ hp) (ih ctxp Hp _ _ _ _ hrec)

theorem setPass2_pres (P : ParseFn) (hP : ParsePres P) :
    ∀ (es : List JSVal) (ctx : PCtx) (H : Heap) (r : List Node)
      (ctx1 : PCtx) (H1 : Heap),
      setPass2 P es ctx H = .ok (r, ctx1, H1) → pctxStep ctx ctx1 := by
  intro es
  induction es with
  | nil =>
    intro ctx H r ctx1 H1 h
    simp only [setPass2] at h
    obtain ⟨e1, e2, e3⟩ := exceptOkTriple h
    subst e2
    exact pctxStep_refl ctx
  | cons v rest ih =>
    intro ctx H r ctx1 H1 h
    simp only [setPass2] at h
    obtain ⟨⟨nn, ctxp, Hp⟩, hp, h⟩ := exceptBind_ok_inv h
    obtain ⟨⟨nodes, ctxr, Hr⟩, hrec, h⟩ := exceptBind_ok_inv h
    obtain ⟨e1, e2, e3⟩ := exceptOkTriple h
    subst e2
    exact pctxStep_trans (hP v ctx H _ _ _ hp) (ih ctxp Hp _ _ _ hrec)

theorem generateSetCoreE_pres (P : ParseFn) (hP : ParsePres P)
    (i : Nat) (es : List JSVal) (ctx : PCtx) (H : Heap) (n : Node)
    (ctx1 : PCtx) (H1 : Heap)
    (h : generateSetCoreE P i es ctx H = .ok (n, ctx1, H1)) : pctxStep ctx ctx1 := by
  simp only [generateSetCoreE] at h
  obtain ⟨⟨n1, defs, ctxa, Ha⟩, h1, h⟩ := exceptBind_ok_inv h
  obtain ⟨⟨n2, ctxb, Hb⟩, h2, h⟩ := exceptBind_ok_inv h
  obtain ⟨e1, e2, e3⟩ := exceptOkTriple h
  subst e2
  exact pctxStep_trans (setPass1_pres P hP _ _ _ _ _ _ _ h1)
    (setPass2_pres P hP _ _ _ _ _ _ h2)

theorem generateSetCoreE_shape (P : ParseFn) (i : Nat) (es : List JSVal)
    (ctx : PCtx) (H : Heap) (n : Node) (ctx1 : PCtx) (H1 : Heap)
    (h : generateSetCoreE P i es ctx H = .ok (n, ctx1, H1)) :
    nodeId n = some i ∧ isIndexedValueNode n = false := by
  simp only [generateSetCoreE] at h
  obtain ⟨⟨n1, defs, ctxa, Ha⟩, h1, h⟩ := exceptBind_ok_inv h
  obtain ⟨⟨n2, ctxb, Hb⟩, h2, h⟩ := exceptBind_ok_inv h
  obtain ⟨e1, e2, e3⟩ := exceptOkTriple h
  subst e1
  exact ⟨rfl, rfl⟩

theorem propsPass1_pres (P : ParseFn) (hP : ParsePres P) :
    ∀ (es : List (String × JSVal)) (ctx : PCtx) (H : Heap)
      (r1 : List (String × Node)) (r2 : List (String × JSVal))
      (ctx1 : PCtx) (H1 : Heap),
      propsPass1 P es ctx H = .ok (r1, r2, ctx1, H1) → pctxStep ctx ctx1 := by
  intro es
  induction es with
  | nil =>
    intro ctx H r1 r2 ctx1 H1 h
    simp only [propsPass1] at h
    obtain ⟨e1, e2, e3, e4⟩ := exceptOkQuad h
    subst e3
    exact pctxStep_refl ctx
  | cons kv rest ih =>
    rcases kv with ⟨k, v⟩
    intro ctx H r1 r2 ctx1 H1 h
    simp only [propsPass1] at h
    split at h
    · obtain ⟨⟨done1, defs, ctxr, Hr⟩, hrec, h⟩ := exceptBind_ok_inv h
      obtain ⟨e1, e2, e3, e4⟩ := exceptOkQuad h
      subst e3
      exact ih ctx H _ _ _ _ hrec
    · obtain ⟨⟨nn, ctxp, Hp⟩, hp, h⟩ := exceptBind_ok_inv h
      obtain ⟨⟨done1, defs, ctxr, Hr⟩, hrec, h⟩ := exceptBind_ok_inv h
      obtain ⟨e1, e2, e3, e4⟩ := exceptOkQuad h
      subst e3
      exact pctxStep_trans (hP v ctx H _ _ _ hp) (ih ctxp Hp _ _ _ _ hrec)

theorem propsPass2_pres (P : ParseFn) (hP : ParsePres P) :
    ∀ (es : List (String × JSVal)) (ctx : PCtx) (H : Heap)
      (r : List (String × Node)) (ctx1 : PCtx) (H1 : Heap),
      propsPass2 P es ctx H = .ok (r, ctx1, H1) → pctxStep ctx ctx1 := by
  intro es
  induction es with
  | nil =>
    intro ctx H r ctx1 H1 h
    simp only [propsPass2] at h
    obtain ⟨e1, e2, e3⟩ := exceptOkTriple h
    subst e2
    exact pctxStep_refl ctx
  | cons kv rest ih =>
    rcases kv with ⟨k, v⟩
    intro ctx H r ctx1 H1 h
    simp only [propsPass2] at h
    obtain ⟨⟨nn, ctxp, Hp⟩, hp, h⟩ := exceptBind_ok_inv h
    obtain ⟨⟨done1, ctxr, Hr⟩, hrec, h⟩ := exceptBind_ok_inv h
    obtain ⟨e1, e2, e3⟩ := exceptOkTriple h
    subst e2
    exact pctxStep_trans (hP v ctx H _ _ _ hp) (ih ctxp Hp _ _ _ hrec)

theorem genPropsTail_pres (P : ParseFn) (hP : ParsePres P)
    (alloc : PCtx → Nat → Nat × PCtx) (hA : AllocPres alloc) (cur : JSObj)
    (base : List (String × Node)) (size : Nat) :
    ∀ (ctx2 : PCtx) (H2 : Heap) (r : List RecordKey × List Node × Nat)
      (ctx1 : PCtx) (H1 : Heap),
      (if ctx2.features.symbol && hasSymbolIter cur then do
        let (H3, itemsAddr) := arrayFromE H2 cur
        let (iid, ctx3) := alloc ctx2 itemsAddr
        let items := match H3.get? itemsAddr with
          | some (.arr xs) => xs
          | _ => []
        let (an, ctx4, H4) ← generateArrayNodeE P iid items ctx3 H3
        Except.ok ((base.map (fun p => RecordKey.str p.1) ++ [RecordKey.symbolIterator],
              base.map Prod.snd ++ [an], size + 1), ctx4, H4)
      else
        Except.ok ((base.map (fun p => RecordKey.str p.1), base.map Prod.snd, size),
          ctx2, H2)) = .ok (r, ctx1, H1) →
      pctxStep ctx2 ctx1 := by
  intro ctx2 H2 r ctx1 H1 h
  split at h
  · rcases ha : arrayFromE H2 cur with ⟨H3, addr⟩
    simp only [ha] at h
    rcases hal : alloc ctx2 addr with ⟨iid, ctxc⟩
    simp only [hal] at h
    obtain ⟨⟨an, ctxd, Hd⟩, h3, h⟩ := exceptBind_ok_inv h
    obtain ⟨e1, e2, e3⟩ := exceptOkTriple h
    subst e2
    have hstep := hA ctx2 addr
    rw [hal] at hstep
    exact pctxStep_trans hstep (generateArrayNodeE_pres P hP _ _ _ _ _ _ _ h3)
  · obtain ⟨e1, e2, e3⟩ := exceptOkTriple h
    subst e2
    exact pctxStep_refl ctx2

theorem generatePropertiesE_pres (P : ParseFn) (hP : ParsePres P)
    (alloc : PCtx → Nat → Nat × PCtx) (hA : AllocPres alloc) (cur : JSObj)
    (ctx : PCtx) (H : Heap) (r : List RecordKey × List Node × Nat)
    (ctx1 : PCtx) (H1 : Heap)
    (h : generatePropertiesE P alloc cur ctx H = .ok (r, ctx1, H1)) :
    pctxStep ctx ctx1 := by
  simp only [generatePropertiesE] at h
  obtain ⟨⟨done1, defs, ctxa, Ha⟩, h1, h⟩ := exceptBind_ok_inv h
  obtain ⟨⟨done2, ctxb, Hb⟩, h2, h⟩ := exceptBind_ok_inv h
  exact pctxStep_trans (propsPass1_pres P hP _ _ _ _ _ _ _ h1)
    (pctxStep_trans (propsPass2_pres P hP _ _ _ _ _ _ h2)
      (genPropsTail_pres P hP alloc hA cur _ _ _ _ _ _ _ h))

theorem generateObjectNodeE_pres (P : ParseFn) (hP : ParsePres P)
    (alloc : PCtx → Nat → Nat × PCtx) (hA : AllocPres alloc)
    (i : Nat) (cur : JSObj) (empty : Bool) (ctx : PCtx) (H : Heap) (n : Node)
    (ctx1 : PCtx) (H1 : Heap)
    (h : generateObjectNodeE P alloc i cur empty ctx H = .ok (n, ctx1, H1)) :
    pctxStep ctx ctx1 := by
  simp only [generateObjectNodeE] at h
  obtain ⟨⟨rec1, ctxa, Ha⟩, h1, h⟩ := exceptBind_ok_inv h
  obtain ⟨e1, e2, e3⟩ := exceptOkTriple h
  subst e2
  exact generatePropertiesE_pres P hP alloc hA cur _ _ _ _ _ h1

theorem generateObjectNodeE_shape (P : ParseFn)
    (alloc : PCtx → Nat → Nat × PCtx)
    (i : Nat) (cur : JSObj) (empty : Bool) (ctx : PCtx) (H : Heap) (n : Node)
    (ctx1 : PCtx) (H1 : Heap)
    (h : generateObjectNodeE P alloc i cur empty ctx H = .ok (n, ctx1, H1)) :
    nodeId n = some i ∧ isIndexedValueNode n = false := by
  simp only [generateObjectNodeE] at h
  obtain ⟨⟨rec1, ctxa, Ha⟩, h1, h⟩ := exceptBind_ok_inv h
  obtain ⟨e1, e2, e3⟩ := exceptOkTriple h
  subst e1
  cases empty
  · exact ⟨rfl, rfl⟩
  · exact ⟨rfl, rfl⟩

/-- The shared dispatch tail of `parseObject` (after the id short-circuits):
the reference check, then the constructor switch of the universe. -/
theorem parseObjectTail (P : ParseFn) (hP : ParsePres P)
    (alloc : PCtx → Nat → Nat × PCtx) (hA : AllocPres alloc) :
    ∀ (idv a : Nat) (ctx1 : PCtx) (H : Heap) (n : Node) (ctx' : PCtx) (H' : Heap),
      (if hasReferenceIDE ctx1 a then
        Except.ok (Node.reference idv (serializeStringM (getReferenceIDE ctx1 a)), ctx1, H)
      else
        match H.get? a with
        | some (.arr xs) => generateArrayNodeE P idv xs ctx1 H
        | some (.obj props) =>
          generateObjectNodeE P alloc idv (.obj props) false ctx1 H
        | some (.mapObj entries) =>
          if ctx1.features.map then generateMapCoreE P idv entries ctx1 H
          else if ctx1.features.symbol then
            generateObjectNodeE P alloc idv (.mapObj entries) true ctx1 H
          else .error .unsupportedType
        | some (.setObj elems) =>
          if ctx1.features.set then generateSetCoreE P idv elems ctx1 H
          else if ctx1.features.symbol then
            generateObjectNodeE P alloc idv (.setObj elems) true ctx1 H
          else .error .unsupportedType
        | none => .error .unsupportedType) = .ok (n, ctx', H') →
      nodeId n = some idv ∧ isIndexedValueNode n = false ∧ pctxStep ctx1 ctx' := by
  intro idv a ctx1 H n ctx' H' h
  split at h
  · obtain ⟨e1, e2, e3⟩ := exceptOkTriple h
    subst e1
    subst e2
    exact ⟨rfl, rfl, pctxStep_refl ctx1⟩
  · split at h
    · obtain ⟨hs1, hs2⟩ := generateArrayNodeE_shape P _ _ _ _ _ _ _ h
      exact ⟨hs1, hs2, generateArrayNodeE_pres P hP _ _ _ _ _ _ _ h⟩
    · obtain ⟨hs1, hs2⟩ := generateObjectNodeE_shape P alloc _ _ _ _ _ _ _ _ h
      exact ⟨hs1, hs2, generateObjectNodeE_pres P hP alloc hA _ _ _ _ _ _ _ _ h⟩
    · split at h
      · obtain ⟨hs1, hs2⟩ := generateMapCoreE_shape P _ _ _ _ _ _ _ h
        exact ⟨hs1, hs2, generateMapCoreE_pres P hP _ _ _ _ _ _ _ h⟩
      · split at h
        · obtain ⟨hs1, hs2⟩ := generateObjectNodeE_shape P alloc _ _ _ _ _ _ _ _ h
          exact ⟨hs1, hs2, generateObjectNodeE_pres P hP alloc hA _ _ _ _ _ _ _ _ h⟩
        · exact Except.noConfusion h
    · split at h
      · obtain ⟨hs1, hs2⟩ := generateSetCoreE_shape P _ _ _ _ _ _ _ h
        exact ⟨hs1, hs2, generateSetCoreE_pres P hP _ _ _ _ _ _ _ h⟩
      · split at h
        · obtain ⟨hs1, hs2⟩ := generateObjectNodeE_shape P alloc _ _ _ _ _ _ _ _ h
          exact ⟨hs1, hs2, generateObjectNodeE_pres P hP alloc hA _ _ _ _ _ _ _ _ h⟩
        · exact Except.noConfusion h
    · exact Except.noConfusion h

theorem parseObjectCrossE_pres (P : ParseFn) (hP : ParsePres P)
    (a : Nat) (ctx : PCtx) (H : Heap) (n : Node) (ctx' : PCtx) (H' : Heap)
    (h : parseObjectCrossE P a ctx H = .ok (n, ctx', H')) : pctxStep ctx ctx' := by
  simp only [parseObjectCrossE] at h
  cases hl : ctx.refs.lookup a with
  | some i =>
    rw [hl] at h
    obtain ⟨e1, e2, e3⟩ := exceptOkTriple h
    subst e2
    exact pctxStep_refl ctx
  | none =>
    rw [hl] at h
    exact pctxStep_trans (pctxStep_alloc_append ctx a)
      (parseObjectTail P hP createCrossIndexedValueME createCrossIndexedValueME_pres
        ctx.refs.length a _ H n ctx' H' h).2.2

theorem parseObjectAsyncE_pres (P : ParseFn) (hP : ParsePres P)
    (a : Nat) (ctx : PCtx) (H : Heap) (n : Node) (ctx' : PCtx) (H' : Heap)
    (h : parseObjectAsyncE P a ctx H = .ok (n, ctx', H')) : pctxStep ctx ctx' := by
  simp only [parseObjectAsyncE] at h
  rcases hc : createIndexedValueME ctx a with ⟨i, ctx1⟩
  simp only [hc] at h
  have hstep : pctxStep ctx ctx1 := by
    have hs := createIndexedValueME_pres ctx a
    rw [hc] at hs
    exact hs
  split at h
  · obtain ⟨e1, e2, e3⟩ := exceptOkTriple h
    subst e2
    exact hstep
  · exact pctxStep_trans hstep
      (parseObjectTail P hP createIndexedValueME createIndexedValueME_pres
        i a ctx1 H n ctx' H' h).2.2

theorem parseCrossStepE_pres (P : ParseFn) (hP : ParsePres P) :
    ParsePres (parseCrossStepE P) := by
  intro v ctx H n ctx' H' h
  cases v with
  | prim p =>
    cases p with
    | undef =>
      simp only [parseCrossStepE] at h
      obtain ⟨e1, e2, e3⟩ := exceptOkTriple h
      subst e2
      exact pctxStep_refl ctx
    | null =>
      simp only [parseCrossStepE] at h
      obtain ⟨e1, e2, e3⟩ := exceptOkTriple h
      subst e2
      exact pctxStep_refl ctx
    | bool b =>
      simp only [parseCrossStepE] at h
      obtain ⟨e1, e2, e3⟩ := exceptOkTriple h
      subst e2
      exact pctxStep_refl ctx
    | num m =>
      simp only [parseCrossStepE] at h
      obtain ⟨e1, e2, e3⟩ := exceptOkTriple h
      subst e2
      exact pctxStep_refl ctx
    | str s =>
      simp only [parseCrossStepE] at h
      obtain ⟨e1, e2, e3⟩ := exceptOkTriple h
      subst e2
      exact pctxStep_refl ctx
    | bigint m =>
      simp only [parseCrossStepE] at h
      split at h
      · obtain ⟨e1, e2, e3⟩ := exceptOkTriple h
        subst e2
        exact pctxStep_refl ctx
      · exact Except.noConfusion h
  | ref a => exact parseObjectCrossE_pres P hP a ctx H n ctx' H' h

theorem parseAsyncStepE_pres (P : ParseFn) (hP : ParsePres P) :
    ParsePres (parseAsyncStepE P) := by
  intro v ctx H n ctx' H' h
  cases v with
  | prim p =>
    cases p with
    | undef =>
      simp only [parseAsyncStepE] at h
      obtain ⟨e1, e2, e3⟩ := exceptOkTriple h
      subst e2
      exact pctxStep_refl ctx
    | null =>
      simp only [parseAsyncStepE] at h
      obtain ⟨e1, e2, e3⟩ := exceptOkTriple h
      subst e2
      exact pctxStep_refl ctx
    | bool b =>
      simp only [parseAsyncStepE] at h
      obtain ⟨e1, e2, e3⟩ := exceptOkTriple h
      subst e2
      exact pctxStep_refl ctx
    | num m =>
      simp only [parseAsyncStepE] at h
      obtain ⟨e1, e2, e3⟩ := exceptOkTriple h
      subst e2
      exact pctxStep_refl ctx
    | str s =>
      simp only [parseAsyncStepE] at h
      obtain ⟨e1, e2, e3⟩ := exceptOkTriple h
      subst e2
      exact pctxStep_refl ctx
    | bigint m =>
      simp only [parseAsyncStepE] at h
      split at h
      · obtain ⟨e1, e2, e3⟩ := exceptOkTriple h
        subst e2
        exact pctxStep_refl ctx
      · exact Except.noConfusion h
  | ref a => exact parseObjectAsyncE_pres P hP a ctx H n ctx' H' h

theorem parseCrossE_pres : ∀ fuel, ParsePres (parseCrossE fuel) := by
  intro fuel
  induction fuel with
  | zero =>
    intro v ctx H n ctx' H' h
    simp only [parseCrossE] at h
    exact Except.noConfusion h
  | succ fuel ih => exact parseCrossStepE_pres _ ih

theorem parseAsyncE_pres : ∀ fuel, ParsePres (parseAsyncE fuel) := by
  intro fuel
  induction fuel with
  | zero =>
    intro v ctx H n ctx' H' h
    simp only [parseAsyncE] at h
    exact Except.noConfusion h
  | succ fuel ih => exact parseAsyncStepE_pres _ ih

theorem lookup_fresh_ctx1 (ctx : PCtx) (a : Nat) (hnone : ctx.refs.lookup a = none) :
    (ctx.refs ++ [(a, ctx.refs.length)]).lookup a = some ctx.refs.length := by
  rw [lookup_append_none ctx.refs _ a hnone]
  simp [List.lookup]

theorem parseObjectCrossE_fresh (P : ParseFn) (hP : ParsePres P)
    (a : Nat) (ctx : PCtx) (H : Heap) (n : Node) (ctx' : PCtx) (H' : Heap)
    (hnone : ctx.refs.lookup a = none)
    (h : parseObjectCrossE P a ctx H = .ok (n, ctx', H')) :
    nodeId n = some ctx.refs.length ∧ isIndexedValueNode n = false ∧
    ctx'.refs.lookup a = some ctx.refs.length := by
  simp only [parseObjectCrossE, hnone] at h
  obtain ⟨hs1, hs2, ⟨t, ht⟩, _⟩ :=
    parseObjectTail P hP createCrossIndexedValueME createCrossIndexedValueME_pres
      ctx.refs.length a { ctx with refs := ctx.refs ++ [(a, ctx.refs.length)] }
      H n ctx' H' h
  refine ⟨hs1, hs2, ?_⟩
  rw [ht]
  exact lookup_append_some _ _ _ (lookup_fresh_ctx1 ctx a hnone)

theorem parseObjectAsyncE_fresh (P : ParseFn) (hP : ParsePres P)
    (a : Nat) (ctx : PCtx) (H : Heap) (n : Node) (ctx' : PCtx) (H' : Heap)
    (hnone : ctx.refs.lookup a = none)
    (hb : ∀ m ∈ ctx.marked, m < ctx.refs.length)
    (h : parseObjectAsyncE P a ctx H = .ok (n, ctx', H')) :
    nodeId n = some ctx.refs.length ∧ isIndexedValueNode n = false ∧
    ctx'.refs.lookup a = some ctx.refs.length := by
  have hnm : ctx.refs.length ∉ ctx.marked := fun hmem => absurd (hb _ hmem) (lt_irrefl _)
  simp only [parseObjectAsyncE, createIndexedValueME, hnone,
    contains_false_of_not_mem ctx.marked ctx.refs.length hnm,
    Bool.false_eq_true, if_false] at h
  obtain ⟨hs1, hs2, ⟨t, ht⟩, _⟩ :=
    parseObjectTail P hP createIndexedValueME createIndexedValueME_pres
      ctx.refs.length a { ctx with refs := ctx.refs ++ [(a, ctx.refs.length)] }
      H n ctx' H' h
  refine ⟨hs1, hs2, ?_⟩
  rw [ht]
  exact lookup_append_some _ _ _ (lookup_fresh_ctx1 ctx a hnone)

theorem ctxWF_init (fx : Features) : ctxWF (initPCtx fx) := by
  constructor
  · intro k p hk
    simp [initPCtx] at hk
  · intro m hm
    simp [initPCtx] at hm

/-- **C4.** Within one parse, each non-primitive value is assigned exactly one
reference id.  In both the cross parser and the asynchronous tree parser: the
reference table only grows and a registered id never changes; a later
encounter of a registered value returns an `IndexedValue` with its id (the
tree parser additionally marks the id); a first encounter allocates the fresh
id `refs.size`, produces a full (non-`IndexedValue`) node carrying that id,
and leaves the value registered under it; distinct values hold distinct ids;
and every context reachable from a fresh parse is well-formed (ids are table
positions, marked ids are allocated). -/
theorem c4_one_id_per_value :
    (∀ fuel, ParsePres (parseCrossE fuel)) ∧
    (∀ fuel, ParsePres (parseAsyncE fuel)) ∧
    (∀ fuel v ctx H n ctx' H' a i, parseCrossE fuel v ctx H = .ok (n, ctx', H') →
      ctx.refs.lookup a = some i → ctx'.refs.lookup a = some i) ∧
    (∀ fuel v ctx H n ctx' H' a i, parseAsyncE fuel v ctx H = .ok (n, ctx', H') →
      ctx.refs.lookup a = some i → ctx'.refs.lookup a = some i) ∧
    (∀ fuel a ctx H i, ctx.refs.lookup a = some i →
      parseCrossE (fuel + 1) (.ref a) ctx H = .ok (.indexedValue i, ctx, H)) ∧
    (∀ fuel a ctx H i, ctx.refs.lookup a = some i →
      parseAsyncE (fuel + 1) (.ref a) ctx H =
        .ok (.indexedValue i, { ctx with marked := ctx.marked.insert i }, H)) ∧
    (∀ fuel a ctx H n ctx' H', ctx.refs.lookup a = none →
      parseCrossE (fuel + 1) (.ref a) ctx H = .ok (n, ctx', H') →
      nodeId n = some ctx.refs.length ∧ isIndexedValueNode n = false ∧
      ctx'.refs.lookup a = some ctx.refs.length) ∧
    (∀ fuel a ctx H n ctx' H', ctx.refs.lookup a = none →
      (∀ m ∈ ctx.marked, m < ctx.refs.length) →
      parseAsyncE (fuel + 1) (.ref a) ctx H = .ok (n, ctx', H') →
      nodeId n = some ctx.refs.length ∧ isIndexedValueNode n = false ∧
      ctx'.refs.lookup a = some ctx.refs.length) ∧
    (∀ ctx, ctxWF ctx → ∀ a b i, ctx.refs.lookup a = some i →
      ctx.refs.lookup b = some i → a = b) ∧
    (∀ fuel v (fx : Features) H n ctx' H',
      parseCrossE fuel v (initPCtx fx) H = .ok (n, ctx', H') → ctxWF ctx') ∧
    (∀ fuel v (fx : Features) H n ctx' H',
      parseAsyncE fuel v (initPCtx fx) H = .ok (n, ctx', H') → ctxWF ctx') := by
  refine ⟨parseCrossE_pres, parseAsyncE_pres, ?_, ?_, ?_, ?_, ?_, ?_, ?_, ?_, ?_⟩
  · intro fuel v ctx H n ctx' H' a i h hi
    obtain ⟨⟨t, ht⟩, _⟩ := parseCrossE_pres fuel v ctx H n ctx' H' h
    rw [ht]
    exact lookup_append_some _ _ _ hi
  · intro fuel v ctx H n ctx' H' a i h hi
    obtain ⟨⟨t, ht⟩, _⟩ := parseAsyncE_pres fuel v ctx H n ctx' H' h
    rw [ht]
    exact lookup_append_some _ _ _ hi
  · intro fuel a ctx H i hi
    simp [parseCrossE, parseCrossStepE, parseObjectCrossE, hi]
  · intro fuel a ctx H i hi
    simp [parseAsyncE, parseAsyncStepE, parseObjectAsyncE, createIndexedValueME, hi,
      contains_insert_self]
  · intro fuel a ctx H n ctx' H' hnone h
    exact parseObjectCrossE_fresh (parseCrossE fuel) (parseCrossE_pres fuel)
      a ctx H n ctx' H' hnone h
  · intro fuel a ctx H n ctx' H' hnone hb h
    exact parseObjectAsyncE_fresh (parseAsyncE fuel) (parseAsyncE_pres fuel)
      a ctx H n ctx' H' hnone hb h
  · intro ctx hwf a b i ha hb
    exact lookup_inj hwf.1 ha hb
  · intro fuel v fx H n ctx' H' h
    exact (parseCrossE_pres fuel v (initPCtx fx) H n ctx' H' h).2 (ctxWF_init fx)
  · intro fuel v fx H n ctx' H' h
    exact (parseAsyncE_pres fuel v (initPCtx fx) H n ctx' H' h).2 (ctxWF_init fx)

/-- Witness for `c4_one_id_per_value`: a first encounter of the empty array at
address 0 allocates id 0 (= `refs.size` of the fresh context), produces the
full `Array` node carrying it, and registers the address under id 0. -/
theorem c4_one_id_per_value_witness :
    (initPCtx allFeatures).refs.lookup 0 = none ∧
    (nodeId (Node.array 0 0 [] SerovalObjectFlags.none) =
        some (initPCtx allFeatures).refs.length ∧
      isIndexedValueNode (Node.array 0 0 [] SerovalObjectFlags.none) = false ∧
      ({ initPCtx allFeatures with refs := [(0, 0)] } : PCtx).refs.lookup 0 =
        some (initPCtx allFeatures).refs.length) :=
  ⟨rfl, c4_one_id_per_value.2.2.2.2.2.2.1 1 0 (initPCtx allFeatures) [JSObj.arr []]
    (Node.array 0 0 [] SerovalObjectFlags.none)
    { initPCtx allFeatures with refs := [(0, 0)] } [JSObj.arr []] rfl rfl⟩

/-! ### Streaming-driver lemmas (towards C7 and C8) -/

theorem getNextIDAux_state :
    ∀ (fu : Nat) (st : DState),
      (getNextIDAux fu st).2 = { st with ids := (getNextIDAux fu st).2.ids } := by
  intro fu
  induction fu with
  | zero => intro st; rfl
  | succ fu ih =>
    intro st
    simp only [getNextIDAux]
    split
    · exact ih { st with ids := st.ids + 1 }
    · rfl

theorem getNextIDD_state (st : DState) :
    (getNextIDD st).2 = { st with ids := (getNextIDD st).2.ids } :=
  getNextIDAux_state (st.keys.length + 1) st

theorem getNextIDD_alive (st : DState) : (getNextIDD st).2.alive = st.alive := by
  rw [getNextIDD_state st]

theorem getNextIDD_flushed (st : DState) : (getNextIDD st).2.flushed = st.flushed := by
  rw [getNextIDD_state st]

theorem getNextIDD_done (st : DState) : (getNextIDD st).2.done = st.done := by
  rw [getNextIDD_state st]

theorem getNextIDD_pending (st : DState) : (getNextIDD st).2.pending = st.pending := by
  rw [getNextIDD_state st]

theorem stepD_write_eq (opts : DOpts) (st : DState) (k : String) :
    stepD opts st (.write k) = (writeD st k, []) := rfl

theorem stepD_push_eq (opts : DOpts) (st : DState) :
    stepD opts st .push = (writeD (getNextIDD st).2 (getNextIDD st).1, []) := rfl

theorem writeD_done (st : DState) (k : String) : (writeD st k).done = st.done := by
  simp only [writeD]
  split
  · rfl
  · rfl

theorem writeD_flushed (st : DState) (k : String) : (writeD st k).flushed = st.flushed := by
  simp only [writeD]
  split
  · rfl
  · rfl

theorem writeD_alive (st : DState) (k : String) : (writeD st k).alive = st.alive := by
  simp only [writeD]
  split
  · rfl
  · rfl

theorem writeD_dead (st : DState) (k : String) (h : st.alive = false) : writeD st k = st := by
  simp [writeD, h]

theorem stepD_flush_dead (opts : DOpts) (st : DState) (h : st.alive = false) :
    stepD opts st .flush = (st, []) := by
  simp [stepD, h]

theorem stepD_flush_fire (opts : DOpts) (st : DState) (h : st.alive = true)
    (hc : (decide (st.pending ≤ 0) && !st.done && opts.onDoneSet) = true) :
    stepD opts st .flush =
      ({ st with flushed := true, done := true }, [DOut.doneSignal]) := by
  simp [stepD, h, hc]

theorem stepD_flush_nofire (opts : DOpts) (st : DState) (h : st.alive = true)
    (hc : (decide (st.pending ≤ 0) && !st.done && opts.onDoneSet) = false) :
    stepD opts st .flush = ({ st with flushed := true }, []) := by
  simp [stepD, h, hc]

theorem stepD_chunk_alive (opts : DOpts) (st : DState) (k d : String) (i : Bool)
    (h : st.alive = true) :
    stepD opts st (.chunk k d i) = (st, [.data (if i then
      opts.globalIdentifier ++ "[\"" ++ serializeStringM k ++ "\"]=" ++ d
    else d)]) := by
  simp [stepD, h]

theorem stepD_chunk_dead (opts : DOpts) (st : DState) (k d : String) (i : Bool)
    (h : st.alive = false) :
    stepD opts st (.chunk k d i) = (st, []) := by
  simp [stepD, h]

theorem stepD_complete_dead (opts : DOpts) (st : DState) (h : st.alive = false) :
    stepD opts st .complete = (st, []) := by
  simp [stepD, h]

theorem stepD_complete_fire (opts : DOpts) (st : DState) (h : st.alive = true)
    (hc : (decide (st.pending - 1 ≤ 0) && st.flushed && !st.done && opts.onDoneSet)
      = true) :
    stepD opts st .complete =
      ({ st with pending := st.pending - 1, done := true }, [DOut.doneSignal]) := by
  simp only [stepD]
  rw [if_pos h, if_pos hc]

theorem stepD_complete_nofire (opts : DOpts) (st : DState) (h : st.alive = true)
    (hc : (decide (st.pending - 1 ≤ 0) && st.flushed && !st.done && opts.onDoneSet)
      = false) :
    stepD opts st .complete = ({ st with pending := st.pending - 1 }, []) := by
  simp only [stepD]
  rw [if_pos h, if_neg (by rw [hc]; simp)]

theorem stepD_close_dead (opts : DOpts) (st : DState) (h : st.alive = false) :
    stepD opts st .close = (st, []) := by
  simp [stepD, h]

theorem stepD_close_fire (opts : DOpts) (st : DState) (h : st.alive = true)
    (hc : (!st.done && opts.onDoneSet) = true) :
    stepD opts st .close =
      ({ st with done := true, alive := false },
       (List.range st.cleanups).map DOut.cleanupRun ++ [DOut.doneSignal]) := by
  simp [stepD, h, hc]

theorem stepD_close_nofire (opts : DOpts) (st : DState) (h : st.alive = true)
    (hc : (!st.done && opts.onDoneSet) = false) :
    stepD opts st .close =
      ({ st with alive := false }, (List.range st.cleanups).map DOut.cleanupRun) := by
  simp [stepD, h, hc]

theorem count_cleanupRuns (n : Nat) :
    ((List.range n).map DOut.cleanupRun).count DOut.doneSignal = 0 := by
  simp [List.count_eq_zero]

theorem stepD_done_mono (opts : DOpts) (st : DState) (e : DEv) (h : st.done = true) :
    (stepD opts st e).1.done = true := by
  cases e with
  | write k =>
    show (writeD st k).done = true
    rw [writeD_done]
    exact h
  | push =>
    show (writeD (getNextIDD st).2 (getNextIDD st).1).done = true
    rw [writeD_done, getNextIDD_done]
    exact h
  | flush =>
    cases ha : st.alive with
    | true =>
      cases hc : (decide (st.pending ≤ 0) && !st.done && opts.onDoneSet) with
      | true => rw [stepD_flush_fire opts st ha hc]
      | false =>
        rw [stepD_flush_nofire opts st ha hc]
        exact h
    | false =>
      rw [stepD_flush_dead opts st ha]
      exact h
  | close =>
    cases ha : st.alive with
    | true =>
      have hc : (!st.done && opts.onDoneSet) = false := by simp [h]
      rw [stepD_close_nofire opts st ha hc]
      exact h
    | false =>
      rw [stepD_close_dead opts st ha]
      exact h
  | chunk k d i =>
    cases ha : st.alive with
    | true =>
      rw [stepD_chunk_alive opts st k d i ha]
      exact h
    | false =>
      rw [stepD_chunk_dead opts st k d i ha]
      exact h
  | complete =>
    cases ha : st.alive with
    | true =>
      cases hc : (decide (st.pending - 1 ≤ 0) && st.flushed && !st.done &&
          opts.onDoneSet) with
      | true => rw [stepD_complete_fire opts st ha hc]
      | false =>
        rw [stepD_complete_nofire opts st ha hc]
        exact h
    | false =>
      rw [stepD_complete_dead opts st ha]
      exact h

theorem runD_done_mono (opts : DOpts) : ∀ (tr : List DEv) (st : DState),
    st.done = true → (runD opts st tr).done = true := by
  intro tr
  induction tr with
  | nil => intro st h; exact h
  | cons e tr ih =>
    intro st h
    simp only [runD]
    exact ih _ (stepD_done_mono opts st e h)

theorem stepD_count_done_set (opts : DOpts) (st : DState) (e : DEv) (hd : st.done = true) :
    (stepD opts st e).2.count DOut.doneSignal = 0 := by
  cases e with
  | write k => rfl
  | push => rfl
  | flush =>
    cases ha : st.alive with
    | true =>
      have hc : (decide (st.pending ≤ 0) && !st.done && opts.onDoneSet) = false := by
        simp [hd]
      rw [stepD_flush_nofire opts st ha hc]
      rfl
    | false =>
      rw [stepD_flush_dead opts st ha]
      rfl
  | close =>
    cases ha : st.alive with
    | true =>
      have hc : (!st.done && opts.onDoneSet) = false := by simp [hd]
      rw [stepD_close_nofire opts st ha hc]
      exact count_cleanupRuns st.cleanups
    | false =>
      rw [stepD_close_dead opts st ha]
      rfl
  | chunk k d i =>
    cases ha : st.alive with
    | true =>
      rw [stepD_chunk_alive opts st k d i ha]
      rfl
    | false =>
      rw [stepD_chunk_dead opts st k d i ha]
      rfl
  | complete =>
    cases ha : st.alive with
    | true =>
      have hc : (decide (st.pending - 1 ≤ 0) && st.flushed && !st.done &&
          opts.onDoneSet) = false := by
        simp [hd]
      rw [stepD_complete_nofire opts st ha hc]
      rfl
    | false =>
      rw [stepD_complete_dead opts st ha]
      rfl

theorem stepD_count_done_unset (opts : DOpts) (st : DState) (e : DEv)
    (hd : st.done = false) :
    (stepD opts st e).2.count DOut.doneSignal =
      (if (stepD opts st e).1.done = true then 1 else 0) := by
  cases e with
  | write k => simp [stepD_write_eq, writeD_done, hd]
  | push => simp [stepD_push_eq, writeD_done, getNextIDD_done, hd]
  | flush =>
    cases ha : st.alive with
    | true =>
      cases hc : (decide (st.pending ≤ 0) && !st.done && opts.onDoneSet) with
      | true =>
        rw [stepD_flush_fire opts st ha hc]
        simp
      | false =>
        rw [stepD_flush_nofire opts st ha hc]
        simp [hd]
    | false =>
      rw [stepD_flush_dead opts st ha]
      simp [hd]
  | close =>
    cases ha : st.alive with
    | true =>
      cases hc : (!st.done && opts.onDoneSet) with
      | true =>
        rw [stepD_close_fire opts st ha hc]
        simp [List.count_append, count_cleanupRuns]
      | false =>
        rw [stepD_close_nofire opts st ha hc]
        simp [count_cleanupRuns, hd]
    | false =>
      rw [stepD_close_dead opts st ha]
      simp [hd]
  | chunk k d i =>
    cases ha : st.alive with
    | true =>
      rw [stepD_chunk_alive opts st k d i ha]
      simp [hd, List.count_cons]
    | false =>
      rw [stepD_chunk_dead opts st k d i ha]
      simp [hd]
  | complete =>
    cases ha : st.alive with
    | true =>
      cases hc : (decide (st.pending - 1 ≤ 0) && st.flushed && !st.done &&
          opts.onDoneSet) with
      | true =>
        rw [stepD_complete_fire opts st ha hc]
        simp
      | false =>
        rw [stepD_complete_nofire opts st ha hc]
        simp [hd]
    | false =>
      rw [stepD_complete_dead opts st ha]
      simp [hd]

theorem outsD_count (opts : DOpts) : ∀ (tr : List DEv) (st : DState),
    (outsD opts st tr).count DOut.doneSignal =
      (if ((runD opts st tr).done && !st.done) = true then 1 else 0) := by
  intro tr
  induction tr with
  | nil => intro st; simp [outsD, runD]
  | cons e tr ih =>
    intro st
    simp only [outsD, runD, List.count_append]
    cases hd : st.done with
    | true =>
      have h1 : (stepD opts st e).1.done = true := stepD_done_mono opts st e hd
      have h2 : (runD opts (stepD opts st e).1 tr).done = true :=
        runD_done_mono opts tr _ h1
      rw [stepD_count_done_set opts st e hd, ih]
      simp [h1, h2]
    | false =>
      rw [stepD_count_done_unset opts st e hd, ih]
      cases h1 : (stepD opts st e).1.done with
      | true =>
        have h2 : (runD opts (stepD opts st e).1 tr).done = true :=
          runD_done_mono opts tr _ h1
        simp [h1, h2]
      | false => simp [h1]

theorem closeFreeD_cons {e : DEv} {tr : List DEv} (h : closeFreeD (e :: tr) = true) :
    isCloseEv e = false ∧ closeFreeD tr = true := by
  simp only [closeFreeD, List.all_cons, Bool.and_eq_true, Bool.not_eq_true'] at h
  exact ⟨h.1, h.2⟩

theorem stepD_J (opts : DOpts) (st : DState) (e : DEv) (hset : opts.onDoneSet = true)
    (hce : isCloseEv e = false)
    (hJ : st.flushed = true → st.pending ≤ 0 → st.done = true) :
    (stepD opts st e).1.flushed = true → (stepD opts st e).1.pending ≤ 0 →
      (stepD opts st e).1.done = true := by
  cases e with
  | write k =>
    intro hf hp
    show (writeD st k).done = true
    rw [writeD_done]
    have hf2 : (writeD st k).flushed = true := hf
    rw [writeD_flushed] at hf2
    have hw : writeD st k = st := by simp [writeD, hf2]
    have hp2 : (writeD st k).pending ≤ 0 := hp
    rw [hw] at hp2
    exact hJ hf2 hp2
  | push =>
    intro hf hp
    show (writeD (getNextIDD st).2 (getNextIDD st).1).done = true
    rw [writeD_done, getNextIDD_done]
    have hf2 : (writeD (getNextIDD st).2 (getNextIDD st).1).flushed = true := hf
    rw [writeD_flushed, getNextIDD_flushed] at hf2
    have hw : writeD (getNextIDD st).2 (getNextIDD st).1 = (getNextIDD st).2 := by
      simp [writeD, getNextIDD_flushed, hf2]
    have hp2 : (writeD (getNextIDD st).2 (getNextIDD st).1).pending ≤ 0 := hp
    rw [hw, getNextIDD_pending] at hp2
    exact hJ hf2 hp2
  | flush =>
    intro hf hp
    cases ha : st.alive with
    | false =>
      rw [stepD_flush_dead opts st ha] at hf hp ⊢
      exact hJ hf hp
    | true =>
      cases hc : (decide (st.pending ≤ 0) && !st.done && opts.onDoneSet) with
      | true => rw [stepD_flush_fire opts st ha hc]
      | false =>
        rw [stepD_flush_nofire opts st ha hc] at hf hp ⊢
        show st.done = true
        have hp2 : st.pending ≤ 0 := hp
        have hdec : decide (st.pending ≤ 0) = true := decide_eq_true hp2
        simp [hdec, hset] at hc
        exact hc
  | close => simp [isCloseEv] at hce
  | chunk k d i =>
    intro hf hp
    cases ha : st.alive with
    | true =>
      rw [stepD_chunk_alive opts st k d i ha] at hf hp ⊢
      exact hJ hf hp
    | false =>
      rw [stepD_chunk_dead opts st k d i ha] at hf hp ⊢
      exact hJ hf hp
  | complete =>
    intro hf hp
    cases ha : st.alive with
    | false =>
      rw [stepD_complete_dead opts st ha] at hf hp ⊢
      exact hJ hf hp
    | true =>
      cases hc : (decide (st.pending - 1 ≤ 0) && st.flushed && !st.done &&
          opts.onDoneSet) with
      | true => rw [stepD_complete_fire opts st ha hc]
      | false =>
        rw [stepD_complete_nofire opts st ha hc] at hf hp ⊢
        show st.done = true
        have hf2 : st.flushed = true := hf
        have hp2 : st.pending - 1 ≤ 0 := hp
        simp [hf2, hset] at hc
        exact hc (by omega)

theorem runD_J (opts : DOpts) (hset : opts.onDoneSet = true) :
    ∀ (tr : List DEv) (st : DState), closeFreeD tr = true →
      (st.flushed = true → st.pending ≤ 0 → st.done = true) →
      ((runD opts st tr).flushed = true → (runD opts st tr).pending ≤ 0 →
        (runD opts st tr).done = true) := by
  intro tr
  induction tr with
  | nil => intro st _ hJ; exact hJ
  | cons e tr ih =>
    intro st hcf hJ
    obtain ⟨hce, hcf2⟩ := closeFreeD_cons hcf
    simp only [runD]
    exact ih (stepD opts st e).1 hcf2 (stepD_J opts st e hset hce hJ)

theorem runD_done_src (opts : DOpts) :
    ∀ (tr : List DEv) (st : DState), closeFreeD tr = true →
      (runD opts st tr).done = true →
      st.done = true ∨ ∃ p, p <+: tr ∧ (runD opts st p).flushed = true ∧
        (runD opts st p).pending ≤ 0 := by
  intro tr
  induction tr with
  | nil => intro st _ hd; exact Or.inl hd
  | cons e tr ih =>
    intro st hcf hd
    obtain ⟨hce, hcf2⟩ := closeFreeD_cons hcf
    have hd2 : (runD opts (stepD opts st e).1 tr).done = true := by
      simpa [runD] using hd
    rcases ih (stepD opts st e).1 hcf2 hd2 with h1 | ⟨p, hp, hfl, hpe⟩
    · cases e with
      | write k =>
        left
        have h2 : (writeD st k).done = true := h1
        rw [writeD_done] at h2
        exact h2
      | push =>
        left
        have h2 : (writeD (getNextIDD st).2 (getNextIDD st).1).done = true := h1
        rw [writeD_done, getNextIDD_done] at h2
        exact h2
      | flush =>
        cases ha : st.alive with
        | false =>
          left
          rw [stepD_flush_dead opts st ha] at h1
          exact h1
        | true =>
          cases hc : (decide (st.pending ≤ 0) && !st.done && opts.onDoneSet) with
          | false =>
            left
            rw [stepD_flush_nofire opts st ha hc] at h1
            exact h1
          | true =>
            right
            have hc2 := hc
            simp only [Bool.and_eq_true, decide_eq_true_eq] at hc2
            refine ⟨[DEv.flush], ⟨tr, rfl⟩, ?_, ?_⟩
            · show (stepD opts st DEv.flush).1.flushed = true
              rw [stepD_flush_fire opts st ha hc]
            · show (stepD opts st DEv.flush).1.pending ≤ 0
              rw [stepD_flush_fire opts st ha hc]
              exact hc2.1.1
      | chunk k d i =>
        left
        cases ha : st.alive with
        | true =>
          rw [stepD_chunk_alive opts st k d i ha] at h1
          exact h1
        | false =>
          rw [stepD_chunk_dead opts st k d i ha] at h1
          exact h1
      | complete =>
        cases ha : st.alive with
        | false =>
          left
          rw [stepD_complete_dead opts st ha] at h1
          exact h1
        | true =>
          cases hc : (decide (st.pending - 1 ≤ 0) && st.flushed && !st.done &&
              opts.onDoneSet) with
          | false =>
            left
            rw [stepD_complete_nofire opts st ha hc] at h1
            exact h1
          | true =>
            right
            have hc2 := hc
            simp only [Bool.and_eq_true, decide_eq_true_eq] at hc2
            refine ⟨[DEv.complete], ⟨tr, rfl⟩, ?_, ?_⟩
            · show (stepD opts st DEv.complete).1.flushed = true
              rw [stepD_complete_fire opts st ha hc]
              exact hc2.1.1.2
            · show (stepD opts st DEv.complete).1.pending ≤ 0
              rw [stepD_complete_fire opts st ha hc]
              exact hc2.1.1.1
      | close => simp [isCloseEv] at hce
    · right
      obtain ⟨rest, hrest⟩ := hp
      refine ⟨e :: p, ⟨rest, by rw [List.cons_append, hrest]⟩, ?_, ?_⟩
      · simpa [runD] using hfl
      · simpa [runD] using hpe

theorem runD_append (opts : DOpts) : ∀ (p q : List DEv) (st : DState),
    runD opts st (p ++ q) = runD opts (runD opts st p) q := by
  intro p
  induction p with
  | nil => intro q st; rfl
  | cons e p ih =>
    intro q st
    simp only [List.cons_append, runD]
    exact ih q _

theorem validD_pending (opts : DOpts) : ∀ (tr : List DEv) (st : DState),
    validD opts st tr = true → 0 ≤ st.pending → 0 ≤ (runD opts st tr).pending := by
  intro tr
  induction tr with
  | nil => intro st _ h0; exact h0
  | cons e tr ih =>
    intro st hv h0
    have hv2 := hv
    simp only [validD, Bool.and_eq_true] at hv2
    obtain ⟨hv1, hvrest⟩ := hv2
    have h1 : 0 ≤ (stepD opts st e).1.pending := by
      cases e with
      | write k =>
        show 0 ≤ (writeD st k).pending
        simp only [writeD]
        split
        · show 0 ≤ st.pending + 1
          omega
        · exact h0
      | push =>
        show 0 ≤ (writeD (getNextIDD st).2 (getNextIDD st).1).pending
        simp only [writeD]
        split
        · show 0 ≤ (getNextIDD st).2.pending + 1
          rw [getNextIDD_pending]
          omega
        · show 0 ≤ (getNextIDD st).2.pending
          rw [getNextIDD_pending]
          exact h0
      | flush =>
        cases ha : st.alive with
        | false =>
          rw [stepD_flush_dead opts st ha]
          exact h0
        | true =>
          cases hc : (decide (st.pending ≤ 0) && !st.done && opts.onDoneSet) with
          | true =>
            rw [stepD_flush_fire opts st ha hc]
            exact h0
          | false =>
            rw [stepD_flush_nofire opts st ha hc]
            exact h0
      | close =>
        cases ha : st.alive with
        | false =>
          rw [stepD_close_dead opts st ha]
          exact h0
        | true =>
          cases hc : (!st.done && opts.onDoneSet) with
          | true =>
            rw [stepD_close_fire opts st ha hc]
            exact h0
          | false =>
            rw [stepD_close_nofire opts st ha hc]
            exact h0
      | chunk k d i =>
        cases ha : st.alive with
        | true =>
          rw [stepD_chunk_alive opts st k d i ha]
          exact h0
        | false =>
          rw [stepD_chunk_dead opts st k d i ha]
          exact h0
      | complete =>
        have hpos : 0 < st.pending := by
          simpa only [decide_eq_true_eq] using hv1
        cases ha : st.alive with
        | false =>
          rw [stepD_complete_dead opts st ha]
          exact h0
        | true =>
          cases hc : (decide (st.pending - 1 ≤ 0) && st.flushed && !st.done &&
              opts.onDoneSet) with
          | true =>
            rw [stepD_complete_fire opts st ha hc]
            show 0 ≤ st.pending - 1
            omega
          | false =>
            rw [stepD_complete_nofire opts st ha hc]
            show 0 ≤ st.pending - 1
            omega
    exact ih (stepD opts st e).1 hvrest h1

/-- **C7.** The driver's `onDone` discipline: the callback is delivered at
most once over any trace; it is delivered exactly once precisely when the
run reaches `done`; under well-formed completions the pending counter never
goes negative; and — with an `onDone` configured and no `close()` in the
trace — `done` is reached exactly when some prefix of the trace ends with
`flushed` set and the pending counter at (or below) zero. -/
theorem c7_onDone_exactly_once :
    (∀ (opts : DOpts) (tr : List DEv), doneCountD opts tr ≤ 1) ∧
    (∀ (opts : DOpts) (tr : List DEv),
      doneCountD opts tr = 1 ↔ (runD opts initDState tr).done = true) ∧
    (∀ (opts : DOpts) (tr : List DEv), validD opts initDState tr = true →
      0 ≤ (runD opts initDState tr).pending) ∧
    (∀ (opts : DOpts) (tr : List DEv), opts.onDoneSet = true → closeFreeD tr = true →
      ((runD opts initDState tr).done = true ↔
        ∃ p, p <+: tr ∧ (runD opts initDState p).flushed = true ∧
          (runD opts initDState p).pending ≤ 0)) := by
  refine ⟨?_, ?_, ?_, ?_⟩
  · intro opts tr
    simp only [doneCountD]
    rw [outsD_count opts tr initDState]
    split
    · exact Nat.le_refl 1
    · exact Nat.zero_le 1
  · intro opts tr
    simp only [doneCountD]
    rw [outsD_count opts tr initDState]
    cases hfin : (runD opts initDState tr).done with
    | true => simp [hfin, initDState]
    | false => simp [hfin]
  · intro opts tr hv
    exact validD_pending opts tr initDState hv (by decide)
  · intro opts tr hset hcf
    constructor
    · intro hdone
      rcases runD_done_src opts tr initDState hcf hdone with h1 | h2
      · exact absurd h1 (by decide)
      · exact h2
    · rintro ⟨p, hp, hfl, hpe⟩
      obtain ⟨rest, hrest⟩ := hp
      have hcfsplit : closeFreeD p = true ∧ closeFreeD rest = true := by
        rw [← hrest] at hcf
        simpa [closeFreeD, List.all_append] using hcf
      have hdp : (runD opts initDState p).done = true :=
        runD_J opts hset p initDState hcfsplit.1
          (fun hfl0 _ => absurd hfl0 (by decide)) hfl hpe
      rw [← hrest, runD_append]
      exact runD_done_mono opts rest _ hdp

/-- Witness for `c7_onDone_exactly_once` at the trace
`write "a"; flush; complete`: the trace is well formed, `onDone` is delivered
exactly once, and the pending counter ends non-negative. -/
theorem c7_onDone_exactly_once_witness :
    validD dOptsEx initDState [DEv.write "a", DEv.flush, DEv.complete] = true ∧
    doneCountD dOptsEx [DEv.write "a", DEv.flush, DEv.complete] = 1 ∧
    0 ≤ (runD dOptsEx initDState [DEv.write "a", DEv.flush, DEv.complete]).pending :=
  ⟨by decide,
   (c7_onDone_exactly_once.2.1 dOptsEx [DEv.write "a", DEv.flush, DEv.complete]).2
     (by decide),
   c7_onDone_exactly_once.2.2.1 dOptsEx [DEv.write "a", DEv.flush, DEv.complete]
     (by decide)⟩

/-! ### Post-`close` behaviour (towards C8) -/

theorem stepD_dead (opts : DOpts) (st : DState) (e : DEv) (h : st.alive = false) :
    (stepD opts st e).2 = [] ∧ (stepD opts st e).1.alive = false := by
  cases e with
  | write k =>
    refine ⟨rfl, ?_⟩
    show (writeD st k).alive = false
    rw [writeD_alive]
    exact h
  | push =>
    refine ⟨rfl, ?_⟩
    show (writeD (getNextIDD st).2 (getNextIDD st).1).alive = false
    rw [writeD_alive, getNextIDD_alive]
    exact h
  | flush =>
    rw [stepD_flush_dead opts st h]
    exact ⟨rfl, h⟩
  | close =>
    rw [stepD_close_dead opts st h]
    exact ⟨rfl, h⟩
  | chunk k d i =>
    rw [stepD_chunk_dead opts st k d i h]
    exact ⟨rfl, h⟩
  | complete =>
    rw [stepD_complete_dead opts st h]
    exact ⟨rfl, h⟩

theorem driver_dead (opts : DOpts) : ∀ (tr : List DEv) (st : DState), st.alive = false →
    outsD opts st tr = [] ∧ (runD opts st tr).alive = false := by
  intro tr
  induction tr with
  | nil => intro st h; exact ⟨rfl, h⟩
  | cons e tr ih =>
    intro st h
    obtain ⟨h1, h2⟩ := stepD_dead opts st e h
    obtain ⟨h3, h4⟩ := ih (stepD opts st e).1 h2
    refine ⟨?_, ?_⟩
    · simp only [outsD, h1, h3, List.nil_append]
    · simp only [runD]
      exact h4

theorem stepD_push_dead (opts : DOpts) (st : DState) (h : st.alive = false) :
    (stepD opts st .push).1 = { st with ids := (getNextIDD st).2.ids } ∧
    (stepD opts st .push).2 = [] := by
  refine ⟨?_, rfl⟩
  show writeD (getNextIDD st).2 (getNextIDD st).1 = { st with ids := (getNextIDD st).2.ids }
  rw [writeD_dead ((getNextIDD st).2) ((getNextIDD st).1)
    (by rw [getNextIDD_alive]; exact h)]
  exact getNextIDD_state st

/-- Counterexample to **C8** as stated: after `write "0"; close()` the driver
is dead with `ids = 0`, yet a subsequent `push()` still runs `getNextID` and
mutates the public `ids` field to 1 (and returns a fresh id), even though it
delivers no callback; `close()` is therefore not a barrier against every
observable effect of later calls. -/
theorem c8_push_after_close_mutates_ids :
    c8Closed.alive = false ∧ c8Closed.ids = 0 ∧
    (stepD dOptsEx c8Closed .push).1.ids = 1 ∧
    (stepD dOptsEx c8Closed .push).2 = [] ∧
    outsD dOptsEx initDState [DEv.write "0", DEv.close, DEv.push] =
      [DOut.cleanupRun 0, DOut.doneSignal] := by
  decide

/-- **C8** (amended).  `close()` is synchronous and idempotent: the first call
on a live driver runs every registered cleanup and fires `onDone` exactly when
it has not yet fired; any `close`, `write`, `flush`, `chunk` or `complete` on
a dead driver is a complete no-op, and no callback is ever delivered after
`close()` (the driver stays dead).  The one exception to "no observable
effect" is `push()`, which still runs `getNextID` on a dead driver and so can
mutate the public `ids` field, though it too delivers nothing. -/
theorem c8_close_idempotent_push_mutates_ids :
    (∀ (opts : DOpts) (st : DState), st.alive = true →
      (!st.done && opts.onDoneSet) = true →
      stepD opts st .close =
        ({ st with done := true, alive := false },
         (List.range st.cleanups).map DOut.cleanupRun ++ [DOut.doneSignal])) ∧
    (∀ (opts : DOpts) (st : DState), st.alive = true →
      (!st.done && opts.onDoneSet) = false →
      stepD opts st .close =
        ({ st with alive := false }, (List.range st.cleanups).map DOut.cleanupRun)) ∧
    (∀ (opts : DOpts) (st : DState), st.alive = false →
      stepD opts st .close = (st, [])) ∧
    (∀ (opts : DOpts) (st : DState) (k : String), st.alive = false →
      stepD opts st (.write k) = (st, [])) ∧
    (∀ (opts : DOpts) (st : DState), st.alive = false →
      stepD opts st .flush = (st, []) ∧ stepD opts st .complete = (st, []) ∧
      ∀ (k d : String) (i : Bool), stepD opts st (.chunk k d i) = (st, [])) ∧
    (∀ (opts : DOpts) (st : DState), st.alive = false →
      (stepD opts st .push).2 = [] ∧
      (stepD opts st .push).1 = { st with ids := (getNextIDD st).2.ids }) ∧
    (∀ (opts : DOpts) (st : DState) (tr : List DEv), st.alive = false →
      outsD opts st tr = [] ∧ (runD opts st tr).alive = false) := by
  refine ⟨?_, ?_, ?_, ?_, ?_, ?_, ?_⟩
  · intro opts st ha hc
    exact stepD_close_fire opts st ha hc
  · intro opts st ha hc
    exact stepD_close_nofire opts st ha hc
  · intro opts st h
    exact stepD_close_dead opts st h
  · intro opts st k h
    rw [stepD_write_eq, writeD_dead st k h]
  · intro opts st h
    exact ⟨stepD_flush_dead opts st h, stepD_complete_dead opts st h,
      fun k d i => stepD_chunk_dead opts st k d i h⟩
  · intro opts st h
    obtain ⟨h1, h2⟩ := stepD_push_dead opts st h
    exact ⟨h2, h1⟩
  · intro opts st tr h
    exact driver_dead opts tr st h

/-- Witness for `c8_close_idempotent_push_mutates_ids` on the concrete
post-close state: a second `close()` is a no-op and a whole post-close trace
delivers nothing. -/
theorem c8_close_idempotent_witness :
    c8Closed.alive = false ∧
    stepD dOptsEx c8Closed .close = (c8Closed, []) ∧
    outsD dOptsEx c8Closed [DEv.write "1", DEv.flush, DEv.close] = [] :=
  ⟨by decide,
   c8_close_idempotent_push_mutates_ids.2.2.1 dOptsEx c8Closed (by decide),
   (c8_close_idempotent_push_mutates_ids.2.2.2.2.2.2 dOptsEx c8Closed
     [DEv.write "1", DEv.flush, DEv.close] (by decide)).1⟩

/-- **C6.** `serializePromise`: for a settled payload that is an
`IndexedValue` whose id is on the stack, the emission is
`Promise.resolve().then(()=>ref)` for a resolved promise and a `catch` form
that throws `ref` for a rejected one, with `function` expressions instead of
arrows when `Feature.ArrowFunction` is disabled; for a payload not on the
stack, the id is pushed, the payload is serialized and inlined as
`Promise.resolve(expr)` / `Promise.reject(expr)`, and the id popped. -/
theorem c6_promise_emission (F : SubFns) (fuel : Nat) (st : SState) (i j : Nat)
    (hj : j ∈ st.stack) :
    (st.features.arrowFunction = true →
      serializeE F (fuel + 1) (.promise i true (.indexedValue j)) st =
        (F.assignIndexedValue st i
          ("Promise.resolve().then(()=>" ++ F.getRefParam j ++ ")"), st) ∧
      serializeE F (fuel + 1) (.promise i false (.indexedValue j)) st =
        (F.assignIndexedValue st i
          ("Promise.reject().catch(()=>\x7bthrow " ++ F.getRefParam j ++ "\x7d)"), st)) ∧
    (st.features.arrowFunction = false →
      serializeE F (fuel + 1) (.promise i true (.indexedValue j)) st =
        (F.assignIndexedValue st i
          ("Promise.resolve().then(function()\x7breturn " ++ F.getRefParam j ++ "\x7d)"), st) ∧
      serializeE F (fuel + 1) (.promise i false (.indexedValue j)) st =
        (F.assignIndexedValue st i
          ("Promise.reject().catch(function()\x7bthrow " ++ F.getRefParam j ++ "\x7d)"), st)) ∧
    (∀ (payload : Node) (s : Bool), isIndexedValueInStackE payload st = false →
      serializeE F (fuel + 1) (.promise i s payload) st =
        (F.assignIndexedValue (popStackE (serializeE F fuel payload (pushStackE st i)).2) i
          ((if s then "Promise.resolve" else "Promise.reject") ++ "(" ++
            (serializeE F fuel payload (pushStackE st i)).1 ++ ")"),
         popStackE (serializeE F fuel payload (pushStackE st i)).2)) := by
  have hjc : st.stack.contains j = true := by
    simpa using hj
  refine ⟨fun harrow => ⟨?_, ?_⟩, fun harrow => ⟨?_, ?_⟩, fun payload s hpay => ?_⟩
  · simp [serializeE, serializeSwitchE, serializePromiseE, isIndexedValueInStackE, indexedId,
      hjc, hj, harrow,
      (by decide : ("Promise.resolve" ++ "().then(()=>" : String) = "Promise.resolve().then(()=>")]
  · simp [serializeE, serializeSwitchE, serializePromiseE, isIndexedValueInStackE, indexedId,
      hjc, hj, harrow,
      (by decide : ("Promise.reject" ++ "().catch(()=>\x7bthrow " : String) =
        "Promise.reject().catch(()=>\x7bthrow ")]
  · simp [serializeE, serializeSwitchE, serializePromiseE, isIndexedValueInStackE, indexedId,
      hjc, hj, harrow,
      (by decide : ("Promise.resolve" ++ "().then(function()\x7breturn " : String) =
        "Promise.resolve().then(function()\x7breturn ")]
  · simp [serializeE, serializeSwitchE, serializePromiseE, isIndexedValueInStackE, indexedId,
      hjc, hj, harrow,
      (by decide : ("Promise.reject" ++ "().catch(function()\x7bthrow " : String) =
        "Promise.reject().catch(function()\x7bthrow ")]
  · cases s <;>
      simp [serializeE, serializeSwitchE, serializePromiseE, hpay]

/-- Witness for `c6_promise_emission`: a resolved promise whose payload id 1
is on the stack, under the default (arrow-function) features. -/
theorem c6_promise_emission_witness :
    serializeE vanillaFns 5 (.promise 0 true (.indexedValue 1)) c6St =
      ("Promise.resolve().then(()=>v1)", c6St) := by
  have h := ((c6_promise_emission vanillaFns 4 c6St 0 1 (by decide)).1 rfl).1
  exact h.trans (by decide)

/-- **C9.** `createNumberNode` maps `Infinity`, `-Infinity`, `NaN` and `-0`
to dedicated constant nodes (ordinary numbers to `Number` nodes), the
serializer emits every constant node as its literal form, and the full
pipeline yields exactly the source text `"1/0"` for the input `1/0`. -/
theorem c9_special_numbers_emit_literal_forms :
    createNumberNodeE .inf = .constant .infinity ∧
    createNumberNodeE .negInf = .constant .negInfinity ∧
    createNumberNodeE .nan = .constant .nan ∧
    createNumberNodeE .negZero = .constant .negZero ∧
    (∀ n : Int, createNumberNodeE (.int n) = .num n) ∧
    (∀ (F : SubFns) (fuel : Nat) (st : SState) (c : SerovalConstant),
      serializeE F (fuel + 1) (.constant c) st = (CONSTANT_STRING c, st)) ∧
    CONSTANT_STRING .infinity = "1/0" ∧
    serializeTopM 20 allFeatures (.prim (.num .inf)) [] = .ok "1/0" :=
  ⟨rfl, rfl, rfl, rfl, fun _ => rfl, fun _ _ _ _ => rfl, rfl, rfl⟩

end Seroval
